import Mathlib

/-!
Digest authentication of RTSPtoWeb-minimal: challenge parser and response computation.

A shallow embedding of `digestAuth_parser.go` and `digestAuth.go`.

* Go strings are modelled as lists of characters (`GoString`): the Go string is the UTF-8
  encoding of the list, `len` is the number of bytes of that encoding (`byteLen`), and a
  `for pos, char := range s` loop visits the characters with `pos` the byte offset of each
  one. Strings that are not valid UTF-8 are outside the model.
* The parser states are Go objects with closures in their `Next` fields; here a state is a
  value of `parserState`, a closure is a value of `NextFn`, and the map `out` that the
  closures write to is passed along with the state.
* A slice expression on `rawParamsRunes` is checked against the capacity of the slice, which
  the Go run time chooses: `parseWWWAuthenticate` takes what lies beyond the length of the
  slice as the argument `spare`.
* `crypto/md5` is the function `md5Sum` (RFC 1321); what `ComputeResponse` takes from
  `crypto/rand`, from the Unicode case tables and from the iteration order of a map is the
  argument `Env`.
-/

namespace DigestAuth

/-- A Go string holding valid UTF-8, as the list of its characters. -/
abbrev GoString := List Char

/-- Go `utf8.RuneLen`: the number of bytes that encode a character. -/
def runeLen (c : Char) : Nat :=
  if c.toNat < 0x80 then 1 else if c.toNat < 0x800 then 2 else if c.toNat < 0x10000 then 3 else 4

/-- Go `len(s)`: the number of bytes of the UTF-8 encoding. -/
def byteLen (s : GoString) : Nat := (s.map runeLen).sum

/-- Go `map[string]string`, as an association list with at most one entry per key. -/
abbrev Params := List (GoString × GoString)

/-- Go `v, ok := m[key]`. -/
def Params.get? : Params → GoString → Option GoString
  | [], _ => none
  | (k, v) :: m, key => if k = key then some v else Params.get? m key

/-- Go `_, ok := m[key]`. -/
def Params.has (m : Params) (key : GoString) : Bool := (Params.get? m key).isSome

/-- Go `m[key]` as an expression: the zero value (empty string) for a missing key. -/
def Params.get (m : Params) (key : GoString) : GoString := (Params.get? m key).getD []

/-- Go `m[key] = val`: overwrite the entry of `key`, or add one. -/
def Params.set : Params → GoString → GoString → Params
  | [], key, val => [(key, val)]
  | (k, v) :: m, key, val => if k = key then (k, val) :: m else (k, v) :: Params.set m key val

/-- The string `rfc2616Separators`. -/
def rfc2616Separators : GoString :=
  ['(', ')', '<', '>', '@', ',', ';', ':', '\\', '"', '/', '[', ']', '?', '=', '\x7b', '\x7d', ' ',
   '\x09']

/-- Go `isRfc2616Separator`. -/
def isRfc2616Separator (r : Char) : Bool := rfc2616Separators.any (fun sep => sep == r)

/-- The two closures stored in the `Next func(string) (parserState, error)` field of a token
or quoted-value state: the one built by `newParserStateParsingKey` (its argument is a key)
and `commitValue` (its argument is the value of the captured `key`). -/
inductive NextFn where
  | parsingKey
  | commitValue (key : GoString)
  deriving DecidableEq, Repr

/-- The four parser states. `parserStateBranch` carries the `key` captured by its `Next`
closure. -/
inductive parserState where
  | parserStateParsingToken (Next : NextFn) (start : Nat) (ok : Bool)
  | parserStateParsingDelimiter (Delim : Char) (Next : parserState)
  | parserStateBranch (IgnoreWhitespace : Bool) (key : GoString)
  | parserStateParsingQuotedValue (ok escape : Bool) (buf : GoString) (Next : NextFn)
  deriving DecidableEq, Repr

open parserState

/-- The errors returned by `parseWWWAuthenticate`, one constructor per `fmt.Errorf`. -/
inductive ParseError where
  | invalidHeader (h : GoString)
  | duplicatedKey (key : GoString)
  | unexpectedCharacter (pos : Nat) (ps : parserState) (char : Char)
  | invalidEndState (ps : parserState)
  deriving DecidableEq, Repr

deriving instance DecidableEq for Except

/-- Go `newParserStateParsingKey(out)`: a token state with zero `start` and `ok`. -/
def newParserStateParsingKey : parserState := parserStateParsingToken NextFn.parsingKey 0 false

/-- Calling a `Next func(string) (parserState, error)` closure on `out`. -/
def NextFn.call : NextFn → Params → GoString → Except ParseError (parserState × Params)
  | NextFn.parsingKey, out, key =>
    if Params.has out key then Except.error (ParseError.duplicatedKey key)
    else Except.ok (parserStateParsingDelimiter '=' (parserStateBranch true key), out)
  | NextFn.commitValue key, out, val =>
    Except.ok (parserStateParsingDelimiter ',' newParserStateParsingKey, Params.set out key val)

/-- The `Next func(rune) parserState` closure of `parseTokenOrQuotedString`; `none` is `nil`. -/
def branchNext (key : GoString) (c : Char) : Option parserState :=
  if c = '"' then some (parserStateParsingQuotedValue false false [] (NextFn.commitValue key))
  else if !isRfc2616Separator c then some (parserStateParsingToken (NextFn.commitValue key) 0 false)
  else none

/-- Go `string(a[low:high])` for a rune slice whose underlying array holds `backing`
(the runes of the slice followed by its spare capacity): the bounds are checked against the
capacity, and a failed check panics (`none`). -/
def sliceRunes (backing : List Char) (low high : Nat) : Option GoString :=
  if low ≤ high ∧ high ≤ backing.length then some ((backing.drop low).take (high - low))
  else none

/-- The result of one pass through the body of the `for pos, char := range rawParams` loop. -/
inductive Step where
  | next (ps : parserState) (out : Params)
  | parserFail (ps : parserState)
  | ret (e : ParseError)
  | panic
  | jumps
  deriving DecidableEq, Repr

/-- The loop body from the label `again`, for the current state `ps`. Each pass through the
`switch` uses one unit of fuel; `Step.jumps` reports that a `goto again` found none left. -/
def again (backing : List Char) (pos : Nat) (char : Char) :
    Nat → parserState → Params → Step
  | 0, _, _ => Step.jumps
  | fuel + 1, parserStateParsingToken Next start ok, out =>
    if ok = false ∧ char = ' ' then Step.next (parserStateParsingToken Next start ok) out
    else
      let start := if ok then start else pos
      if char.toNat < 32 ∨ isRfc2616Separator char = true then
        if start = pos then Step.parserFail (parserStateParsingToken Next start true)
        else
          match sliceRunes backing start pos with
          | none => Step.panic
          | some value =>
            match NextFn.call Next out value with
            | Except.error e => Step.ret e
            | Except.ok (ps, out) => again backing pos char fuel ps out
      else Step.next (parserStateParsingToken Next start true) out
  | _ + 1, parserStateParsingDelimiter Delim Next, out =>
    if char = ' ' then Step.next (parserStateParsingDelimiter Delim Next) out
    else if char ≠ Delim then Step.parserFail (parserStateParsingDelimiter Delim Next)
    else Step.next Next out
  | fuel + 1, parserStateBranch IgnoreWhitespace key, out =>
    if IgnoreWhitespace = true ∧ char = ' ' then
      Step.next (parserStateBranch IgnoreWhitespace key) out
    else
      match branchNext key char with
      | none => Step.parserFail (parserStateBranch IgnoreWhitespace key)
      | some ps => again backing pos char fuel ps out
  | _ + 1, parserStateParsingQuotedValue ok escape buf Next, out =>
    if ok = false then
      if char = '"' then Step.next (parserStateParsingQuotedValue true escape buf Next) out
      else Step.parserFail (parserStateParsingQuotedValue true escape buf Next)
    else if escape = true then
      Step.next (parserStateParsingQuotedValue ok false (buf ++ [char]) Next) out
    else if char = '\\' then Step.next (parserStateParsingQuotedValue ok true buf Next) out
    else if char = '"' then
      match NextFn.call Next out buf with
      | Except.error e => Step.ret e
      | Except.ok (ps, out) => Step.next ps out
    else Step.next (parserStateParsingQuotedValue ok escape (buf ++ [char]) Next) out

/-- One pass through the loop body. A pass takes at most one jump back to `again`
(`again_fuel`), so the fuel given here is never used up. -/
def step (backing : List Char) (pos : Nat) (char : Char) (ps : parserState) (out : Params) :
    Step :=
  again backing pos char 2 ps out

/-- What a call of `parseWWWAuthenticate` does: return a map, return an error, or stop with
the run-time panic "slice bounds out of range". -/
inductive Outcome where
  | ok (out : Params)
  | error (e : ParseError)
  | panic
  deriving DecidableEq, Repr

/-- The loop `for pos, char := range rawParams` from byte offset `pos` on, over the
characters still to visit: either the state and map with which the loop ends, or the
outcome with which the body leaves the function. -/
def parseLoop (backing : List Char) :
    Nat → List Char → parserState → Params → Except Outcome (parserState × Params)
  | _, [], ps, out => Except.ok (ps, out)
  | pos, char :: rest, ps, out =>
    match step backing pos char ps out with
    | Step.next ps out => parseLoop backing (pos + runeLen char) rest ps out
    | Step.parserFail ps =>
      Except.error (Outcome.error (ParseError.unexpectedCharacter pos ps char))
    | Step.ret e => Except.error (Outcome.error e)
    | Step.panic => Except.error Outcome.panic
    | Step.jumps => Except.error Outcome.panic -- not reached: `step_ne_jumps`

/-- The check after the loop: the parser must have stopped in a delimiter state that waits
for `,`. -/
def finish (ps : parserState) (out : Params) : Outcome :=
  match ps with
  | parserStateParsingDelimiter Delim _ =>
    if Delim ≠ ',' then Outcome.error (ParseError.invalidEndState ps) else Outcome.ok out
  | _ => Outcome.error (ParseError.invalidEndState ps)

/-- The loop followed by the final check. -/
def parseRunes (backing : List Char) (rawParams : GoString) : Outcome :=
  match parseLoop backing 0 rawParams newParserStateParsingKey [] with
  | Except.ok (ps, out) => finish ps out
  | Except.error o => o

/-- Go `strings.HasPrefix`. -/
def hasPrefix : GoString → GoString → Bool
  | _, [] => true
  | [], _ :: _ => false
  | c :: s, p :: pre => c == p && hasPrefix s pre

/-- Go `strings.TrimPrefix`. -/
def trimPrefix (s pre : GoString) : GoString :=
  if hasPrefix s pre then s.drop pre.length else s

/-- Go `strings.TrimLeft(s, " ")`. -/
def trimLeft (s : GoString) : GoString := s.dropWhile (fun c => c == ' ')

/-- The scheme literal `"Digest"`. -/
def digestLit : GoString := ['D', 'i', 'g', 'e', 's', 't']

/-- Go `parseWWWAuthenticate(h)`. `spare` is what the array under `rawParamsRunes` holds beyond
the length of the slice (its spare capacity, which the Go run time chooses). -/
def parseWWWAuthenticate (spare : List Char) (h : GoString) : Outcome :=
  if !hasPrefix h digestLit ∨ byteLen h > 512 then Outcome.error (ParseError.invalidHeader h)
  else
    let rawParams := trimLeft (trimPrefix h digestLit)
    let rawParamsRunes := rawParams
    parseRunes (rawParamsRunes ++ spare) rawParams

/-! ## `digestAuth.go` -/

/-- The sine table of MD5 (RFC 1321). -/
def md5K : List Nat :=
  [0xd76aa478, 0xe8c7b756, 0x242070db, 0xc1bdceee, 0xf57c0faf, 0x4787c62a, 0xa8304613,
   0xfd469501, 0x698098d8, 0x8b44f7af, 0xffff5bb1, 0x895cd7be, 0x6b901122, 0xfd987193,
   0xa679438e, 0x49b40821, 0xf61e2562, 0xc040b340, 0x265e5a51, 0xe9b6c7aa, 0xd62f105d,
   0x02441453, 0xd8a1e681, 0xe7d3fbc8, 0x21e1cde6, 0xc33707d6, 0xf4d50d87, 0x455a14ed,
   0xa9e3e905, 0xfcefa3f8, 0x676f02d9, 0x8d2a4c8a, 0xfffa3942, 0x8771f681, 0x6d9d6122,
   0xfde5380c, 0xa4beea44, 0x4bdecfa9, 0xf6bb4b60, 0xbebfbc70, 0x289b7ec6, 0xeaa127fa,
   0xd4ef3085, 0x04881d05, 0xd9d4d039, 0xe6db99e5, 0x1fa27cf8, 0xc4ac5665, 0xf4292244,
   0x432aff97, 0xab9423a7, 0xfc93a039, 0x655b59c3, 0x8f0ccc92, 0xffeff47d, 0x85845dd1,
   0x6fa87e4f, 0xfe2ce6e0, 0xa3014314, 0x4e0811a1, 0xf7537e82, 0xbd3af235, 0x2ad7d2bb,
   0xeb86d391]

/-- The per-round shift amounts of MD5. -/
def md5S : List Nat :=
  [7, 12, 17, 22, 7, 12, 17, 22, 7, 12, 17, 22, 7, 12, 17, 22,
   5, 9, 14, 20, 5, 9, 14, 20, 5, 9, 14, 20, 5, 9, 14, 20,
   4, 11, 16, 23, 4, 11, 16, 23, 4, 11, 16, 23, 4, 11, 16, 23,
   6, 10, 15, 21, 6, 10, 15, 21, 6, 10, 15, 21, 6, 10, 15, 21]

/-- Rotate a 32-bit word left by `s` bits. -/
def rotl32 (x s : Nat) : Nat := ((x <<< s) ||| (x >>> (32 - s))) % 2 ^ 32

/-- Bitwise complement of a 32-bit word. -/
def not32 (x : Nat) : Nat := 2 ^ 32 - 1 - x % 2 ^ 32

/-- The number whose little-endian bytes are given. -/
def leWord : List Nat → Nat
  | [] => 0
  | b :: bs => b + 256 * leWord bs

/-- The `n` low bytes of `x`, little-endian. -/
def leBytes : Nat → Nat → List Nat
  | 0, _ => []
  | n + 1, x => x % 256 :: leBytes n (x / 256)

/-- The first `k` consecutive chunks of `n` elements. -/
def chunks (n : Nat) : Nat → List Nat → List (List Nat)
  | 0, _ => []
  | k + 1, l => l.take n :: chunks n k (l.drop n)

/-- MD5 padding: a `0x80` byte, zeros up to 56 modulo 64, and the bit length on 8 bytes. -/
def md5Pad (msg : List Nat) : List Nat :=
  msg ++ [0x80] ++ List.replicate ((119 - msg.length % 64) % 64) 0 ++
    leBytes 8 (8 * msg.length % 2 ^ 64)

/-- The four chaining words of MD5. -/
structure Md5State where
  a : Nat
  b : Nat
  c : Nat
  d : Nat
  deriving DecidableEq, Repr

/-- Operation `i` (0 to 63) of the MD5 compression function on the message words `m`. -/
def md5Round (m : List Nat) (st : Md5State) (i : Nat) : Md5State :=
  let f :=
    if i < 16 then (st.b &&& st.c) ||| (not32 st.b &&& st.d)
    else if i < 32 then (st.d &&& st.b) ||| (not32 st.d &&& st.c)
    else if i < 48 then st.b ^^^ st.c ^^^ st.d
    else st.c ^^^ (st.b ||| not32 st.d)
  let g :=
    if i < 16 then i
    else if i < 32 then (5 * i + 1) % 16
    else if i < 48 then (3 * i + 5) % 16
    else (7 * i) % 16
  let x := (f + st.a + md5K.getD i 0 + m.getD g 0) % 2 ^ 32
  { a := st.d, b := (st.b + rotl32 x (md5S.getD i 0)) % 2 ^ 32, c := st.b, d := st.c }

/-- The MD5 compression function on one 64-byte block. -/
def md5Block (st : Md5State) (block : List Nat) : Md5State :=
  let m := (chunks 4 16 block).map leWord
  let r := (List.range 64).foldl (md5Round m) st
  { a := (st.a + r.a) % 2 ^ 32, b := (st.b + r.b) % 2 ^ 32,
    c := (st.c + r.c) % 2 ^ 32, d := (st.d + r.d) % 2 ^ 32 }

/-- Go `md5.Sum` (package `crypto/md5`, RFC 1321): the 16 bytes of the digest. -/
def md5Sum (msg : List Nat) : List Nat :=
  let p := md5Pad msg
  let st := (chunks 64 (p.length / 64) p).foldl md5Block
    { a := 0x67452301, b := 0xefcdab89, c := 0x98badcfe, d := 0x10325476 }
  leBytes 4 st.a ++ leBytes 4 st.b ++ leBytes 4 st.c ++ leBytes 4 st.d

/-- The lower-case hexadecimal digits, in order. -/
def hextable : GoString := "0123456789abcdef".data

/-- The lower-case hexadecimal digit of a number below 16. -/
def hexDigit (n : Nat) : Char := hextable.getD n '0'

/-- Go `hex.EncodeToString`. -/
def hexEncodeToString (bs : List Nat) : GoString :=
  bs.flatMap (fun b => [hexDigit (b / 16), hexDigit (b % 16)])

/-- The UTF-8 encoding of one character. -/
def utf8EncodeRune (c : Char) : List Nat :=
  let n := c.toNat
  if n < 0x80 then [n]
  else if n < 0x800 then [0xC0 + n / 64, 0x80 + n % 64]
  else if n < 0x10000 then [0xE0 + n / 4096, 0x80 + n / 64 % 64, 0x80 + n % 64]
  else [0xF0 + n / 262144, 0x80 + n / 4096 % 64, 0x80 + n / 64 % 64, 0x80 + n % 64]

/-- Go `[]byte(s)`. -/
def toBytes (s : GoString) : List Nat := s.flatMap utf8EncodeRune

/-- The closure `mkMd5` of `ComputeResponse`. -/
def mkMd5 (input : GoString) : GoString := hexEncodeToString (md5Sum (toBytes input))

/-- The `k` low hexadecimal digits of `n`, most significant first. -/
def hexLow : Nat → Nat → GoString
  | 0, _ => []
  | k + 1, n => hexDigit (n / 16 ^ k % 16) :: hexLow k n

/-- The number of hexadecimal digits of `n`, found in at most `fuel + 1` divisions by 16. -/
def hexLen : Nat → Nat → Nat
  | 0, _ => 1
  | fuel + 1, n => if n < 16 then 1 else hexLen fuel (n / 16) + 1

/-- Go `fmt.Sprintf("%08x", n)` for `n ≥ 0`: the hexadecimal digits of `n`, padded with zeros
to a width of 8. -/
def sprintf08x (n : Nat) : GoString := hexLow (max 8 (hexLen n n)) n

/-- What a call of `ComputeResponse` takes from outside the program. -/
structure Env where
  /-- Go `unicode.ToLower` on the characters from U+0080 on (the Unicode case tables). -/
  unicodeToLower : Char → Char
  /-- The 16 bytes that `rand.Read(buf)` puts in `buf`, or `none` when it returns an error. -/
  randRead : Option (List Nat)
  /-- The order in which `range params` visits the entries of the map. -/
  rangeOrder : Params → Params

/-- Go `unicode.ToLower`. -/
def toLowerRune (env : Env) (c : Char) : Char :=
  if c.toNat < 0x80 then
    if 'A'.toNat ≤ c.toNat ∧ c.toNat ≤ 'Z'.toNat then Char.ofNat (c.toNat + 32) else c
  else env.unicodeToLower c

/-- Go `strings.ToLower`. -/
def toLower (env : Env) (s : GoString) : GoString := s.map (toLowerRune env)

/-- Go `*url.Userinfo`. -/
structure Userinfo where
  username : GoString
  password : GoString
  passwordSet : Bool
  deriving DecidableEq, Repr

/-- Go `(*Userinfo).Username`. -/
def Userinfo.Username (u : Userinfo) : GoString := u.username

/-- Go `(*Userinfo).Password`. -/
def Userinfo.Password (u : Userinfo) : GoString × Bool := (u.password, u.passwordSet)

def digestAuthParamAlgorithm : GoString := ['a', 'l', 'g', 'o', 'r', 'i', 't', 'h', 'm']
def digestAuthParamClientNonce : GoString := ['c', 'n', 'o', 'n', 'c', 'e']
def digestAuthParamNonce : GoString := ['n', 'o', 'n', 'c', 'e']
def digestAuthParamNonceCount : GoString := ['n', 'c']
def digestAuthParamQop : GoString := ['q', 'o', 'p']
def digestAuthParamRealm : GoString := ['r', 'e', 'a', 'l', 'm']
def digestAuthParamResponse : GoString := ['r', 'e', 's', 'p', 'o', 'n', 's', 'e']
def digestAuthParamUri : GoString := ['u', 'r', 'i']
def digestAuthParamUsername : GoString := ['u', 's', 'e', 'r', 'n', 'a', 'm', 'e']
def digestAuthAlgoUnspecified : GoString := []
def digestAuthAlgoMd5 : GoString := ['m', 'd', '5']
def digestAuthAlgoMd5Sess : GoString := ['m', 'd', '5', '-', 's', 'e', 's', 's']
def digestAuthQopUnspecified : GoString := []
def digestAuthQopAuth : GoString := ['a', 'u', 't', 'h']
def digestAuthQopAuthInt : GoString := ['a', 'u', 't', 'h', '-', 'i', 'n', 't']

/-- Go `DigestAuthState` (without its mutex); `nonceCount` only ever grows by one per call
from 0, so it is a natural number, and `createdAt` is a time stamp. -/
structure DigestAuthState where
  params : Params
  nonceCount : Nat
  createdAt : Nat
  deriving DecidableEq, Repr

/-- Go `newDigestAuthStateFromChallenge`, at time `now`; on failure it hands on what the
parser did. -/
def newDigestAuthStateFromChallenge (spare : List Char) (now : Nat) (challenge : GoString) :
    Except Outcome DigestAuthState :=
  match parseWWWAuthenticate spare challenge with
  | Outcome.ok params => Except.ok { params := params, nonceCount := 0, createdAt := now }
  | o => Except.error o

/-- Go `(*DigestAuthState).IsFresh`. -/
def DigestAuthState.IsFresh (s : DigestAuthState) : Bool := s.nonceCount == 1

/-- Go `(*DigestAuthState).Get`. -/
def DigestAuthState.Get (s : DigestAuthState) (param : GoString) : GoString :=
  Params.get s.params param

/-- Go `(*DigestAuthState).Set`. -/
def DigestAuthState.Set (s : DigestAuthState) (param value : GoString) : DigestAuthState :=
  { s with params := Params.set s.params param value }

/-- The errors returned by `ComputeResponse`, one constructor per `fmt.Errorf`. -/
inductive ResponseError where
  | cnonce
  | unknownAlgo (algo : GoString)
  | unknownQop (qop : GoString)
  deriving DecidableEq, Repr

/-- The values computed by the blocks of `ComputeResponse` before the header is put
together, with the map as it stands after them. -/
structure Digest where
  cnonce : GoString
  ha1 : GoString
  ha2 : GoString
  response : GoString
  params : Params
  deriving DecidableEq, Repr

/-- The constant `d41d8cd98f00b204e9800998ecf8427e` written in the `auth-int` branch. -/
def emptyBodyMd5 : GoString :=
  ['d', '4', '1', 'd', '8', 'c', 'd', '9', '8', 'f', '0', '0', 'b', '2', '0', '4',
   'e', '9', '8', '0', '0', '9', '9', '8', 'e', 'c', 'f', '8', '4', '2', '7', 'e']

/-- The block "compute ha1" of `ComputeResponse`: the value of `ha1`, and the map after the
block; an unknown algorithm is the error. -/
def computeHa1 (algo realm nonce cnonce pass : GoString) (credentials : Userinfo)
    (params : Params) : Except ResponseError (GoString × Params) :=
  if algo = digestAuthAlgoMd5 ∨ algo = digestAuthAlgoMd5Sess ∨
      algo = digestAuthAlgoUnspecified then
    let ha1 := mkMd5 (credentials.Username ++ [':'] ++ realm ++ [':'] ++ pass)
    if algo = digestAuthAlgoMd5Sess then
      Except.ok (mkMd5 (ha1 ++ [':'] ++ nonce ++ [':'] ++ cnonce),
        Params.set params digestAuthParamClientNonce cnonce)
    else Except.ok (ha1, params)
  else Except.error (ResponseError.unknownAlgo algo)

/-- The block "compute ha2" of `ComputeResponse`; an unknown qop is the error. -/
def computeHa2 (qop requestUri : GoString) : Except ResponseError GoString :=
  if qop = digestAuthQopAuth ∨ qop = digestAuthQopUnspecified then
    Except.ok (mkMd5 (['G', 'E', 'T', ':'] ++ requestUri))
  else if qop = digestAuthQopAuthInt then
    Except.ok (mkMd5 (['G', 'E', 'T', ':'] ++ requestUri ++ [':'] ++ emptyBodyMd5))
  else Except.error (ResponseError.unknownQop qop)

/-- The block "compute response" of `ComputeResponse`: the value of `response`, and the map
after the block. -/
def computeResponseParam (ha1 nonce nonceCount cnonce qop ha2 : GoString) (params : Params) :
    GoString × Params :=
  if qop = digestAuthQopAuth ∨ qop = digestAuthQopAuthInt then
    (hexEncodeToString (md5Sum (toBytes
        (ha1 ++ [':'] ++ nonce ++ [':'] ++ nonceCount ++ [':'] ++ cnonce ++ [':'] ++ qop ++
          [':'] ++ ha2))),
      Params.set params digestAuthParamClientNonce cnonce)
  else (hexEncodeToString (md5Sum (toBytes (ha1 ++ [':'] ++ nonce ++ [':'] ++ ha2))), params)

/-- The body of `ComputeResponse` from the reading of the parameters to the last write into
the map, for the map `params`, the incremented count `rawNonceCount` and the arguments of the
call. On an error the map is returned as it stands at the `return`. -/
def computeDigest (env : Env) (params : Params) (rawNonceCount : Nat) (requestUri : GoString)
    (credentials : Userinfo) : Except (ResponseError × Params) Digest :=
  let algo := toLower env (Params.get params digestAuthParamAlgorithm)
  let qop := toLower env (Params.get params digestAuthParamQop)
  let realm := toLower env (Params.get params digestAuthParamRealm)
  let nonce := toLower env (Params.get params digestAuthParamNonce)
  let nonceCount := sprintf08x rawNonceCount
  let pass := credentials.Password.1
  match env.randRead with
  | none => Except.error (ResponseError.cnonce, params)
  | some buf =>
    let cnonce := hexEncodeToString (md5Sum buf)
    match computeHa1 algo realm nonce cnonce pass credentials params with
    | Except.error e => Except.error (e, params)
    | Except.ok (ha1, params) =>
      match computeHa2 qop requestUri with
      | Except.error e => Except.error (e, params)
      | Except.ok ha2 =>
        let (response, params) := computeResponseParam ha1 nonce nonceCount cnonce qop ha2 params
        let params := Params.set params digestAuthParamUsername credentials.Username
        let params := Params.set params digestAuthParamNonceCount nonceCount
        let params := Params.set params digestAuthParamUri requestUri
        let params := Params.set params digestAuthParamResponse response
        Except.ok { cnonce := cnonce, ha1 := ha1, ha2 := ha2, response := response,
                    params := params }

/-- Go `strings.ReplaceAll(val, "\"", "\\\"")`. -/
def escapeQuotes (val : GoString) : GoString :=
  val.flatMap (fun c => if c = '"' then ['\\', '"'] else [c])

/-- Go `fmt.Sprintf("%v=\"%v\"", key, val)` after the replacement in `val`. -/
def piece (kv : GoString × GoString) : GoString :=
  kv.1 ++ ['=', '"'] ++ escapeQuotes kv.2 ++ ['"']

/-- Go `strings.Join(pieces, ", ")`. -/
def joinPieces : List GoString → GoString
  | [] => []
  | [p] => p
  | p :: ps => p ++ [',', ' '] ++ joinPieces ps

/-- The pieces appended by the loop `for key, val := range params`. -/
def pieces (env : Env) (params : Params) : List GoString := (env.rangeOrder params).map piece

/-- Go `(*DigestAuthState).ComputeResponse`: the returned pair and the state after the
call. -/
def DigestAuthState.ComputeResponse (env : Env) (s : DigestAuthState) (requestUri : GoString)
    (credentials : Userinfo) : (GoString × Option ResponseError) × DigestAuthState :=
  let s := { s with nonceCount := s.nonceCount + 1 }
  match computeDigest env s.params s.nonceCount requestUri credentials with
  | Except.error (e, params) => (([], some e), { s with params := params })
  | Except.ok d =>
    ((['D', 'i', 'g', 'e', 's', 't', ' '] ++ joinPieces (pieces env d.params), none),
      { s with params := d.params })

/-- An environment for the examples: `rand.Read` gives 16 zero bytes, no character from
U+0080 on is changed by `unicode.ToLower`, and `range` visits the map in the order of the
list. -/
def fixedEnv : Env :=
  { unicodeToLower := id, randRead := some (List.replicate 16 0), rangeOrder := id }

/-- The state after a sequence of calls of `ComputeResponse`, one per element of `calls`. -/
def computeResponses (s : DigestAuthState) : List (Env × GoString × Userinfo) → DigestAuthState
  | [] => s
  | (env, requestUri, credentials) :: calls =>
    computeResponses (s.ComputeResponse env requestUri credentials).2 calls

/-- The number that a string of lower-case hexadecimal digits stands for. -/
def hexValue (s : GoString) : Nat := s.foldl (fun a c => 16 * a + hextable.indexOf c) 0

/-! ## `digestAuth_requestor.go` -/

/-- Go `url.URL`, as far as `Request` reads it: the user information, the host, and the
string that `RequestURI()` returns (which does not depend on the user information). -/
structure URL where
  User : Option Userinfo
  Host : GoString
  requestURI : GoString
  deriving DecidableEq, Repr

/-- Go `url.URL.RequestURI`. -/
def URL.RequestURI (u : URL) : GoString := u.requestURI

/-- Go `http.Response`, as far as `Request` reads it: the status code and the value of
`res.Header.Get("www-authenticate")` (empty when the header is absent); `body` stands for the
rest of the response. -/
structure Response where
  StatusCode : Nat
  wwwAuthenticate : GoString
  body : GoString
  deriving DecidableEq, Repr

/-- A GET request as the transport receives it: the URL and the `Authorization` header, if
one was added. -/
structure HttpRequest where
  uri : URL
  authorization : Option GoString
  deriving DecidableEq, Repr

/-- The effects of `Request` outside its own variables, in the order in which they happen:
the operations on `perHostAuthStateCache`, the calls of the hook (with the state it
receives) and the calls of `r.Client.Do` (with the response, or `none` for an error). -/
inductive Event where
  | load (host : GoString)
  | delete (host : GoString)
  | store (host : GoString) (state : DigestAuthState)
  | hook (state : DigestAuthState)
  | transport (req : HttpRequest) (answer : Option Response)
  deriving DecidableEq, Repr

/-- Go `DigestAuthRequestor`. `Client` is `r.Client.Do`: the response, or `none` for an
error, to a request made after the events so far. A `nil` function is `none`. -/
structure DigestAuthRequestor where
  Client : List Event → HttpRequest → Option Response
  EnablePerHostAuthStateCache : Bool
  NonceReusePolicy : Option (URL → DigestAuthState → Bool)
  BeforePersistState : Option (DigestAuthState → DigestAuthState)

/-- Go `DigestAuthNonceReuseAlways`. -/
def DigestAuthNonceReuseAlways : Option (URL → DigestAuthState → Bool) :=
  some (fun _ _ => true)

/-- Go `DigestAuthNonceReuseNever`. -/
def DigestAuthNonceReuseNever : Option (URL → DigestAuthState → Bool) :=
  some (fun _ _ => false)

/-- What `Request` takes from outside the requestor: whether `http.NewRequestWithContext`
succeeds for a URL, the environment of the `ComputeResponse` call made after the events so
far, the spare capacity of the rune slice when a challenge is parsed, and `time.Now()`. -/
structure World where
  newRequest : URL → Bool
  env : List Event → Env
  spare : GoString → List Char
  now : List Event → Nat

/-- The process-wide `perHostAuthStateCache`, a map from host to state, as an association
list with at most one entry per host. -/
abbrev Cache := List (GoString × DigestAuthState)

/-- Go `perHostAuthStateCache.Load`. -/
def Cache.Load : Cache → GoString → Option DigestAuthState
  | [], _ => none
  | (h, s) :: c, host => if h = host then some s else Cache.Load c host

/-- Go `perHostAuthStateCache.Delete`. -/
def Cache.Delete (c : Cache) (host : GoString) : Cache := c.filter (fun e => e.1 ≠ host)

/-- Go `perHostAuthStateCache.Store`. -/
def Cache.Store (c : Cache) (host : GoString) (s : DigestAuthState) : Cache :=
  (host, s) :: Cache.Delete c host

/-- The cache and the events so far. -/
structure Sys where
  cache : Cache
  trace : List Event
  deriving DecidableEq, Repr

/-- The errors returned by `Request`. -/
inductive RequestError where
  | ErrDigestAuthMissingCredentials
  | nonceMkRequestFailed
  | nonceRequestFailed
  | unexpectedStatus (res : Response)
  | createStateFailed (e : ParseError)
  | computeResponseFailed (e : ResponseError)
  | mkRequestFailed
  | requestFailed
  deriving DecidableEq, Repr

/-- What a call of `Request` does: return a pair `(*http.Response, error)`, stop with a
panic, or (`unfinished`) still jump when the fuel of `run` is used up. -/
inductive Result where
  | ret (res : Option Response) (err : Option RequestError)
  | panic
  | unfinished
  deriving DecidableEq, Repr

/-- Go `unicode.IsSpace`. -/
def isSpace (c : Char) : Bool :=
  (0x09 ≤ c.toNat && c.toNat ≤ 0x0d) || c.toNat == 0x20 || c.toNat == 0x85 ||
    c.toNat == 0xA0 || c.toNat == 0x1680 || (0x2000 ≤ c.toNat && c.toNat ≤ 0x200a) ||
    c.toNat == 0x2028 || c.toNat == 0x2029 || c.toNat == 0x202f || c.toNat == 0x205f ||
    c.toNat == 0x3000

/-- Go `strings.TrimSpace`. -/
def trimSpace (s : GoString) : GoString :=
  ((s.dropWhile isSpace).reverse.dropWhile isSpace).reverse

/-- Go `challengeFromResponse`. -/
def challengeFromResponse (res : Response) : Except RequestError GoString :=
  let auth := trimSpace res.wwwAuthenticate
  if res.StatusCode ≠ 401 ∨ auth = [] then Except.error (RequestError.unexpectedStatus res)
  else Except.ok auth

/-- Go `retrieveChallenge`: the returned triple and the events after the call; `none` is the
panic on a URL with credentials. -/
def retrieveChallenge (r : DigestAuthRequestor) (w : World) (uri : URL) (sys : Sys) :
    Option ((GoString × Option Response × Option RequestError) × Sys) :=
  if uri.User ≠ none then none
  else if w.newRequest uri = false then
    some (([], none, some RequestError.nonceMkRequestFailed), sys)
  else
    let req : HttpRequest := { uri := uri, authorization := none }
    let answer := r.Client sys.trace req
    let sys := { sys with trace := sys.trace ++ [Event.transport req answer] }
    match answer with
    | none => some (([], none, some RequestError.nonceRequestFailed), sys)
    | some res =>
      if 200 ≤ res.StatusCode ∧ res.StatusCode ≤ 299 then some (([], some res, none), sys)
      else
        match challengeFromResponse res with
        | Except.ok challenge => some ((challenge, none, none), sys)
        | Except.error e => some (([], none, some e), sys)

/-- The two places of `Request` at which control arrives by a jump: its entry (the restart
`return r.Request(c, origUri)`) and the label `computeResponseAndFetch`, with the values of
`credentials` and `state` there; `shared` tells whether `state` is the object that the cache
holds for the host. -/
inductive Label where
  | Request
  | computeResponseAndFetch (credentials : Userinfo) (state : DigestAuthState) (shared : Bool)
  deriving DecidableEq, Repr

/-- The lookup of a cached state at the entry of `Request` (the block under
`if r.EnablePerHostAuthStateCache`): the value of `state` after it, `none` for `nil`. -/
def cacheLookup (r : DigestAuthRequestor) (origUri : URL) (sys : Sys) :
    Option DigestAuthState × Sys :=
  if r.EnablePerHostAuthStateCache then
    let sys := { sys with trace := sys.trace ++ [Event.load origUri.Host] }
    match Cache.Load sys.cache origUri.Host with
    | some state =>
      let canReuse :=
        match r.NonceReusePolicy with
        | some f => f origUri state
        | none => false
      if !canReuse then
        (none, { cache := Cache.Delete sys.cache origUri.Host,
                 trace := sys.trace ++ [Event.delete origUri.Host] })
      else (some state, sys)
    | none => (none, sys)
  else (none, sys)

/-- The block under `if state == nil` of `Request`: the challenge is fetched and parsed. -/
def coldStart (r : DigestAuthRequestor) (w : World) (origUri : URL) (credentials : Userinfo)
    (sys : Sys) : Sum (Result × Sys) (Label × Sys) :=
  let noCredsUri := { origUri with User := none }
  match retrieveChallenge r w noCredsUri sys with
  | none => Sum.inl (Result.panic, sys)
  | some ((challenge, response, err), sys) =>
    match err with
    | some e => Sum.inl (Result.ret none (some e), sys)
    | none =>
      if challenge = [] then Sum.inl (Result.ret response none, sys)
      else
        match newDigestAuthStateFromChallenge (w.spare challenge) (w.now sys.trace)
            challenge with
        | Except.ok state =>
          Sum.inr (Label.computeResponseAndFetch credentials state false, sys)
        | Except.error (Outcome.error e) =>
          Sum.inl (Result.ret none (some (RequestError.createStateFailed e)), sys)
        | Except.error _ => Sum.inl (Result.panic, sys)

/-- The code of `Request` from its entry to the label `computeResponseAndFetch`. -/
def requestEntry (r : DigestAuthRequestor) (w : World) (origUri : URL) (sys : Sys) :
    Sum (Result × Sys) (Label × Sys) :=
  match origUri.User with
  | none => Sum.inl (Result.ret none (some RequestError.ErrDigestAuthMissingCredentials), sys)
  | some credentials =>
    match cacheLookup r origUri sys with
    | (some state, sys) => Sum.inr (Label.computeResponseAndFetch credentials state true, sys)
    | (none, sys) => coldStart r w origUri credentials sys

/-- The code of `Request` from the label `computeResponseAndFetch` to its end. A state that
the cache holds is changed in the cache as well. -/
def requestFetch (r : DigestAuthRequestor) (w : World) (origUri : URL) (credentials : Userinfo)
    (state : DigestAuthState) (shared : Bool) (sys : Sys) :
    Sum (Result × Sys) (Label × Sys) :=
  let noCredsUri := { origUri with User := none }
  let computed := state.ComputeResponse (w.env sys.trace) noCredsUri.RequestURI credentials
  let state := computed.2
  let sys := if shared then { sys with cache := Cache.Store sys.cache origUri.Host state }
    else sys
  match computed.1.2 with
  | some e => Sum.inl (Result.ret none (some (RequestError.computeResponseFailed e)), sys)
  | none =>
    if w.newRequest noCredsUri = false then
      Sum.inl (Result.ret none (some RequestError.mkRequestFailed), sys)
    else
      let req : HttpRequest := { uri := noCredsUri, authorization := some computed.1.1 }
      let answer := r.Client sys.trace req
      let sys := { sys with trace := sys.trace ++ [Event.transport req answer] }
      match answer with
      | none => Sum.inl (Result.ret none (some RequestError.requestFailed), sys)
      | some res =>
        if r.EnablePerHostAuthStateCache = false then Sum.inl (Result.ret (some res) none, sys)
        else if res.StatusCode = 401 ∧ state.IsFresh = false then
          let sys : Sys := { cache := Cache.Delete sys.cache origUri.Host,
                             trace := sys.trace ++ [Event.delete origUri.Host] }
          match challengeFromResponse res with
          | Except.ok challenge =>
            match newDigestAuthStateFromChallenge (w.spare challenge) (w.now sys.trace)
                challenge with
            | Except.ok state =>
              Sum.inr (Label.computeResponseAndFetch credentials state false, sys)
            | Except.error Outcome.panic => Sum.inl (Result.panic, sys)
            | Except.error _ => Sum.inr (Label.Request, sys)
          | Except.error _ => Sum.inr (Label.Request, sys)
        else if 200 ≤ res.StatusCode ∧ res.StatusCode ≤ 299 then
          match r.BeforePersistState with
          | some f =>
            Sum.inl (Result.ret (some res) none,
              { cache := Cache.Store sys.cache origUri.Host (f state),
                trace := sys.trace ++ [Event.hook state, Event.store origUri.Host (f state)] })
          | none =>
            Sum.inl (Result.ret (some res) none,
              { cache := Cache.Store sys.cache origUri.Host state,
                trace := sys.trace ++ [Event.store origUri.Host state] })
        else Sum.inl (Result.ret (some res) none, sys)

/-- The code of `Request` from a label to its return or to its next jump. -/
def requestStep (r : DigestAuthRequestor) (w : World) (origUri : URL) :
    Label → Sys → Sum (Result × Sys) (Label × Sys)
  | Label.Request, sys => requestEntry r w origUri sys
  | Label.computeResponseAndFetch credentials state shared, sys =>
    requestFetch r w origUri credentials state shared sys

/-- The code of `Request` from a label on; every arrival at a label uses one unit of
fuel. -/
def run (r : DigestAuthRequestor) (w : World) (origUri : URL) :
    Nat → Label → Sys → Result × Sys
  | 0, _, sys => (Result.unfinished, sys)
  | fuel + 1, label, sys =>
    match requestStep r w origUri label sys with
    | Sum.inl done => done
    | Sum.inr (label, sys) => run r w origUri fuel label sys

/-- Go `(*DigestAuthRequestor).Request`, in a sequential run: the returned pair and the
cache and events after the call. A call arrives at most four times at a label (see
`rank`), so the fuel 4 is enough for every call. -/
def DigestAuthRequestor.Request (r : DigestAuthRequestor) (w : World) (origUri : URL)
    (sys : Sys) : Result × Sys :=
  run r w origUri 4 Label.Request sys

/-! ## Traces of `Request` -/

/-- The GET requests of a list of events, in order: whether the request carries an
`Authorization` header, and the status code of the response (`none` for an error). -/
def gets : List Event → List (Bool × Option Nat)
  | [] => []
  | Event.transport req answer :: T =>
    (req.authorization.isSome, answer.map Response.StatusCode) :: gets T
  | _ :: T => gets T

/-- The GET requests from an arrival at `computeResponseAndFetch` with a state that has not
been used: none, or one authenticated attempt. -/
def getsFresh (g : List (Bool × Option Nat)) : Prop := g = [] ∨ ∃ s, g = [(true, s)]

/-- The GET requests from an arrival at the entry without a cached state for the host: none,
the challenge fetch, or the challenge fetch and one authenticated attempt. -/
def getsCold (g : List (Bool × Option Nat)) : Prop :=
  g = [] ∨ (∃ s, g = [(false, s)]) ∨ ∃ s s1, g = [(false, s), (true, s1)]

/-- The GET requests from an arrival at `computeResponseAndFetch` with any state: as with a
state that has not been used, or an authenticated attempt answered 401 and then the requests
of a salvage or of a restart. -/
def getsReuse (g : List (Bool × Option Nat)) : Prop :=
  getsFresh g ∨ ∃ g1, g = (true, some 401) :: g1 ∧ (getsFresh g1 ∨ getsCold g1)

/-- The GET requests from an arrival at a label, by the rank of the label (see `rank`). -/
def getsShape : Nat → List (Bool × Option Nat) → Prop
  | 1, g => getsFresh g
  | 2, g => getsCold g
  | 3, g => getsReuse g
  | 4, g => getsReuse g ∨ getsCold g
  | _, _ => False

/-- The sequences of GET requests of a call of `Request`: none; one; the challenge fetch and
the authenticated attempt of a cold start; an authenticated attempt answered 401 followed by
one salvage attempt, or by the challenge fetch of a restart and at most one authenticated
attempt. -/
def recoveryShape (g : List (Bool × Option Nat)) : Prop :=
  g = [] ∨ (∃ a s, g = [(a, s)]) ∨ (∃ s s1, g = [(false, s), (true, s1)]) ∨
    (∃ s, g = [(true, some 401), (true, s)]) ∨ (∃ s, g = [(true, some 401), (false, s)]) ∨
    ∃ s s1, g = [(true, some 401), (false, s), (true, s1)]

/-- A bound on the number of arrivals at a label that a call of `Request` makes from a
label on: 1 at `computeResponseAndFetch` with a state that has not been used, 2 at the entry
when no cached state can be found, 3 at `computeResponseAndFetch` with any other state, 4 at
the entry otherwise. -/
def rank (r : DigestAuthRequestor) (origUri : URL) : Label → Sys → Nat
  | Label.Request, sys =>
    if r.EnablePerHostAuthStateCache = true ∧ (Cache.Load sys.cache origUri.Host).isSome then 4
    else 2
  | Label.computeResponseAndFetch _ state _, _ => if state.nonceCount = 0 then 1 else 3

/-- Whether an event is a call of the hook or a store into the cache. -/
def Event.persists : Event → Bool
  | Event.store _ _ => true
  | Event.hook _ => true
  | _ => false

/-- Whether the last GET request with an `Authorization` header, if there is one after
`acc` was found, was answered with a status from 200 to 299. -/
def lastAuthOkFrom (acc : Bool) : List Event → Bool
  | [] => acc
  | Event.transport req answer :: T =>
    if req.authorization.isSome then
      lastAuthOkFrom
        (match answer with
          | some res => decide (200 ≤ res.StatusCode ∧ res.StatusCode ≤ 299)
          | none => false) T
    else lastAuthOkFrom acc T
  | _ :: T => lastAuthOkFrom acc T

/-- Whether the last GET request with an `Authorization` header was answered with a status
from 200 to 299 (`false` when there is no such request). -/
def lastAuthOk (T : List Event) : Bool := lastAuthOkFrom false T

/-- The events of persisting `state`: the call of the hook, if one is set, and the store of
the state that the hook leaves. -/
def persistTail (r : DigestAuthRequestor) (host : GoString) (state : DigestAuthState) :
    List Event :=
  match r.BeforePersistState with
  | some f => [Event.hook state, Event.store host (f state)]
  | none => [Event.store host state]

/-- The state that is stored when `state` is persisted. -/
def persisted (r : DigestAuthRequestor) (state : DigestAuthState) : DigestAuthState :=
  match r.BeforePersistState with
  | some f => f state
  | none => state

/-- The calls of the transport in a list of events, in order: the request and the answer
(`none` for an error). -/
def transports : List Event → List (HttpRequest × Option Response)
  | [] => []
  | Event.transport req answer :: T => (req, answer) :: transports T
  | _ :: T => transports T

/-- What `Request` returns for the answer to a GET with the `Authorization` header after
which it neither jumps nor panics: `return nil, fmt.Errorf("request failed: %w", err)` for an
error of the transport, `return res, err` at the label `end` otherwise. -/
def attemptOutcome : Option Response → Result
  | some res => Result.ret (some res) none
  | none => Result.ret none (some RequestError.requestFailed)

/-! ## An example requestor -/

/-- The challenge of the examples. -/
def exampleChallenge : GoString := "Digest realm=\"Cam\", nonce=\"abc\"".data

/-- A transport for the examples: a request without an `Authorization` header is answered
401 with a challenge, a request with one is answered with the status `status` and no
challenge. -/
def exampleClient (status : Nat) : List Event → HttpRequest → Option Response :=
  fun _ req =>
    match req.authorization with
    | none => some { StatusCode := 401, wwwAuthenticate := exampleChallenge, body := [] }
    | some _ => some { StatusCode := status, wwwAuthenticate := [], body := [] }

/-- A requestor for the examples, with caching enabled. -/
def exampleRequestor (status : Nat) (policy : Option (URL → DigestAuthState → Bool))
    (hook : Option (DigestAuthState → DigestAuthState)) : DigestAuthRequestor :=
  { Client := exampleClient status, EnablePerHostAuthStateCache := true,
    NonceReusePolicy := policy, BeforePersistState := hook }

/-- The surroundings for the examples: every request can be built, `fixedEnv`, no spare
capacity, and a clock that counts the events. -/
def exampleWorld : World :=
  { newRequest := fun _ => true, env := fun _ => fixedEnv, spare := fun _ => [],
    now := fun events => events.length }

/-- The target of the examples. -/
def exampleUri : URL :=
  { User := some { username := "u".data, password := "p".data, passwordSet := true },
    Host := "cam".data, requestURI := "/x".data }

/-- The target of the examples without the user information, and the two requests for
it. -/
def exampleBare : URL := { exampleUri with User := none }

/-- The state made from `exampleChallenge` at time `now`. -/
def exampleState (now : Nat) : DigestAuthState :=
  { params := [("realm".data, "Cam".data), ("nonce".data, "abc".data)], nonceCount := 0,
    createdAt := now }

/-- The state `exampleState now` after `n` calls of `ComputeResponse` (`n ≥ 1`) for the
target of the examples, the last of which wrote `nc`. -/
def exampleUsed (now n : Nat) (nc : GoString) : DigestAuthState :=
  { params := [("realm".data, "Cam".data), ("nonce".data, "abc".data),
      ("username".data, "u".data), ("nc".data, nc), ("uri".data, "/x".data),
      ("response".data, "1f76daa8376c2164ee68eb0b539af145".data)],
    nonceCount := n, createdAt := now }

/-- The `Authorization` value that such a call returns. -/
def exampleHeader (nc : GoString) : GoString :=
  "Digest realm=\"Cam\", nonce=\"abc\", username=\"u\", nc=\"".data ++ nc ++
    "\", uri=\"/x\", response=\"1f76daa8376c2164ee68eb0b539af145\"".data

/-- The challenge that the transport of the salvage example sends with its 401 to a reused
state. -/
def salvageChallenge : GoString := "Digest realm=\"Cam\", nonce=\"def\"".data

/-- A transport for the example of a salvage: a request without an `Authorization` header is
answered 401 with `exampleChallenge`, the first GET of the run, when it carries a header, is
answered 401 with `salvageChallenge`, and every later one with the status `status` and no
challenge. -/
def salvageClient (status : Nat) : List Event → HttpRequest → Option Response :=
  fun events req =>
    match req.authorization with
    | none => some { StatusCode := 401, wwwAuthenticate := exampleChallenge, body := [] }
    | some _ =>
      if gets events = [] then
        some { StatusCode := 401, wwwAuthenticate := salvageChallenge, body := [] }
      else some { StatusCode := status, wwwAuthenticate := [], body := [] }

/-- A requestor with that transport, caching enabled and `DigestAuthNonceReuseAlways`. -/
def salvageRequestor (status : Nat) : DigestAuthRequestor :=
  { Client := salvageClient status, EnablePerHostAuthStateCache := true,
    NonceReusePolicy := DigestAuthNonceReuseAlways, BeforePersistState := none }

/-- The state made from `salvageChallenge` at time `now`. -/
def salvageState (now : Nat) : DigestAuthState :=
  { params := [("realm".data, "Cam".data), ("nonce".data, "def".data)], nonceCount := 0,
    createdAt := now }

/-- The state `salvageState now` after one call of `ComputeResponse` for the target of the
examples. -/
def salvageUsed (now : Nat) : DigestAuthState :=
  { params := [("realm".data, "Cam".data), ("nonce".data, "def".data),
      ("username".data, "u".data), ("nc".data, "00000001".data), ("uri".data, "/x".data),
      ("response".data, "170eedca8f6b8a2a45739c31cccb594f".data)],
    nonceCount := 1, createdAt := now }

/-- The `Authorization` value that this call returns. -/
def salvageHeader : GoString :=
  ("Digest realm=\"Cam\", nonce=\"def\", username=\"u\", nc=\"00000001\", uri=\"/x\", " ++
    "response=\"170eedca8f6b8a2a45739c31cccb594f\"").data

/-! ## Concurrent calls of `ComputeResponse` -/

/-- One goroutine that calls `s.ComputeResponse(requestUri, credentials)` on the shared
state `s`: the arguments of the call and its environment. -/
structure Caller where
  env : Env
  requestUri : GoString
  credentials : Userinfo

/-- Where a caller is in `ComputeResponse`, and the values it holds there: before
`s.mu.Lock()`; holding the lock; in `s.nonceCount++`, between the read and the write; before
`rawNonceCount := s.nonceCount`; before the rest of the body; before the deferred
`s.mu.Unlock()`; returned. -/
inductive Pc where
  | start
  | locked
  | incr (read : Nat)
  | counted
  | computing (rawNonceCount : Nat)
  | returning (rawNonceCount : Nat) (result : GoString × Option ResponseError)
  | done (rawNonceCount : Nat) (result : GoString × Option ResponseError)
  deriving DecidableEq, Repr

/-- What the callers share: the mutex `s.mu` (`true` when it is held) and the fields of
`s`. -/
structure Shared where
  mu : Bool
  state : DigestAuthState
  deriving DecidableEq, Repr

/-- The body of `ComputeResponse` after `rawNonceCount := s.nonceCount`: the returned pair
and the state with the parameters that the body wrote. -/
def Caller.body (c : Caller) (s : DigestAuthState) (rawNonceCount : Nat) :
    (GoString × Option ResponseError) × DigestAuthState :=
  match computeDigest c.env s.params rawNonceCount c.requestUri c.credentials with
  | Except.error (e, params) => (([], some e), { s with params := params })
  | Except.ok d =>
    ((['D', 'i', 'g', 'e', 's', 't', ' '] ++ joinPieces (pieces c.env d.params), none),
      { s with params := d.params })

/-- One step of a caller; `none` when it cannot move (the mutex is held by another caller, or
the call has returned). -/
def Caller.step (c : Caller) : Pc → Shared → Option (Pc × Shared)
  | Pc.start, sh => if sh.mu then none else some (Pc.locked, { sh with mu := true })
  | Pc.locked, sh => some (Pc.incr sh.state.nonceCount, sh)
  | Pc.incr read, sh =>
    some (Pc.counted, { sh with state := { sh.state with nonceCount := read + 1 } })
  | Pc.counted, sh => some (Pc.computing sh.state.nonceCount, sh)
  | Pc.computing rawNonceCount, sh =>
    some (Pc.returning rawNonceCount (c.body sh.state rawNonceCount).1,
      { sh with state := (c.body sh.state rawNonceCount).2 })
  | Pc.returning rawNonceCount result, sh =>
    some (Pc.done rawNonceCount result, { sh with mu := false })
  | Pc.done _ _, _ => none

/-- The shared state and the callers, each with its place in `ComputeResponse`. -/
structure Config where
  shared : Shared
  threads : List (Caller × Pc)

/-- The callers before any of them has moved, on the state `s` with the mutex free. -/
def spawn (callers : List Caller) (s : DigestAuthState) : Config :=
  { shared := { mu := false, state := s }, threads := callers.map (fun c => (c, Pc.start)) }

/-- The scheduler lets caller `i` make one step; nothing happens when it cannot move. -/
def stepAt (i : Nat) (cfg : Config) : Config :=
  match cfg.threads[i]? with
  | some (c, pc) =>
    match c.step pc cfg.shared with
    | some (pc1, sh) => { shared := sh, threads := cfg.threads.set i (c, pc1) }
    | none => cfg
  | none => cfg

/-- An interleaving: the callers move in the order of `schedule`. -/
def exec : List Nat → Config → Config
  | [], cfg => cfg
  | i :: schedule, cfg => exec schedule (stepAt i cfg)

/-- Whether a caller holds the mutex. -/
def Pc.inCrit : Pc → Bool
  | Pc.start => false
  | Pc.done _ _ => false
  | _ => true

/-- Whether a caller has incremented the count and not yet read its nonce count. -/
def Pc.isCounted : Pc → Bool
  | Pc.counted => true
  | _ => false

/-- The nonce count of a caller, once it has one. -/
def Pc.issued : Pc → Option Nat
  | Pc.computing n => some n
  | Pc.returning n _ => some n
  | Pc.done n _ => some n
  | _ => none

/-- What holds of the shared state and the callers at every point of every interleaving
that starts with the count `k`: at most the holder of the mutex is inside; the count is `k`
plus the number of callers that have incremented it; a caller between the read and the write
of the increment has read the current count; the nonce counts taken so far are
`k + 1, k + 2, ...` in some order. -/
structure Inv (k : Nat) (sh : Shared) (pcs : List Pc) : Prop where
  crit : pcs.countP Pc.inCrit = if sh.mu then 1 else 0
  count : sh.state.nonceCount = k + (pcs.filterMap Pc.issued).length + pcs.countP Pc.isCounted
  read : ∀ r, Pc.incr r ∈ pcs → r = sh.state.nonceCount
  perm : (pcs.filterMap Pc.issued).Perm (List.range' (k + 1) (pcs.filterMap Pc.issued).length)

/-- The delimiter states that the parser builds: one that waits for `,` continues with a fresh
key state, one that waits for `=` continues with the branch state of a key. -/
def parserState.wf : parserState → Prop
  | parserStateParsingDelimiter Delim Next =>
    (Delim = ',' ∧ Next = newParserStateParsingKey) ∨
      (Delim = '=' ∧ ∃ key, Next = parserStateBranch true key)
  | _ => True

/-- The states in which the parser is right after a `,` that it accepted, and in which it
stays while it reads spaces: a token state that has not started, or an open quoted value. -/
def parserState.afterComma : parserState → Prop
  | parserStateParsingToken _ _ ok => ok = false
  | parserStateParsingQuotedValue ok _ _ _ => ok = true
  | _ => False

/-! ## Headers as they are written -/

/-- A character that may stand in a token: an ASCII character that is neither a control
character nor a separator. (The token state stops on the characters below 32 and on the
separators.) -/
def tokenChar (c : Char) : Prop :=
  32 ≤ c.toNat ∧ c.toNat < 128 ∧ isRfc2616Separator c = false

instance (c : Char) : Decidable (tokenChar c) := by unfold tokenChar; infer_instance

/-- A non-empty token. -/
def isToken (s : GoString) : Prop := s ≠ [] ∧ ∀ c ∈ s, tokenChar c

instance (s : GoString) : Decidable (isToken s) := by unfold isToken; infer_instance

/-- An ASCII string. -/
def isAscii (s : GoString) : Prop := ∀ c ∈ s, c.toNat < 128

instance (s : GoString) : Decidable (isAscii s) := by unfold isAscii; infer_instance

/-- A value with a backslash put before every `"` and every `\`. -/
def escaped (v : GoString) : GoString :=
  v.flatMap (fun c => if c = '"' ∨ c = '\\' then ['\\', c] else [c])

/-- A value as a quoted string: escaped, between double quotes. -/
def quotedString (v : GoString) : GoString := '"' :: escaped v ++ ['"']

/-- One pair of a header as it is written: the number of spaces before the key, the key, the
value, and whether the value is written as a bare token or as a quoted string. -/
structure Pair where
  spaces : Nat
  key : GoString
  value : GoString
  bare : Bool
  deriving DecidableEq, Repr

/-- The value of a pair as it is written. -/
def Pair.valueText (p : Pair) : GoString := if p.bare then p.value else quotedString p.value

/-- The text `SP* key=value` of a pair. -/
def Pair.text (p : Pair) : GoString :=
  List.replicate p.spaces ' ' ++ p.key ++ '=' :: p.valueText

/-- A pair that the grammar allows: the key is a token, and the value is a token when it is
written bare and an ASCII string when it is quoted. -/
def Pair.wellFormed (p : Pair) : Prop :=
  isToken p.key ∧ if p.bare then isToken p.value else isAscii p.value

instance (p : Pair) : Decidable p.wellFormed := by unfold Pair.wellFormed; infer_instance

/-- The entry of the map that a pair stands for. -/
def Pair.entry (p : Pair) : GoString × GoString := (p.key, p.value)

/-- The text `pair ("," pair)*` of a list of pairs. -/
def pairsText : List Pair → GoString
  | [] => []
  | [p] => p.text
  | p :: q :: l => p.text ++ ',' :: pairsText (q :: l)

/-- The header `Digest SP* pair ("," SP* pair)*`. -/
def header (l : List Pair) : GoString := digestLit ++ pairsText l

/-- The text of pairs that are each followed by a comma. -/
def pairsComma (l : List Pair) : GoString := l.flatMap (fun p => p.text ++ [','])

/-- Whether the value of the last pair is written as a bare token. -/
def lastBare (l : List Pair) : Bool :=
  match l.getLast? with
  | some p => p.bare
  | none => false

/-- A pair without the spaces before its key. -/
def Pair.trim (p : Pair) : Pair := { p with spaces := 0 }

/-- A list of pairs without the spaces before the first key. -/
def headTrim : List Pair → List Pair
  | [] => []
  | p :: l => p.trim :: l

/-- The character `char` at byte offset `pos` commits the value `val` of `key` when the state
is `ps`: it is the space that ends a bare token cut from `backing`, or the quote that closes
a quoted value. -/
def Commits (backing : List Char) (pos : Nat) (char : Char) (ps : parserState)
    (key val : GoString) : Prop :=
  (∃ s, ps = parserStateParsingToken (NextFn.commitValue key) s true ∧ char = ' ' ∧
      sliceRunes backing s pos = some val) ∨
    (ps = parserStateParsingQuotedValue true false val (NextFn.commitValue key) ∧ char = '"')

/-- The text `rawParams` ends right after a committed value, which may be followed by
spaces, and `out` is the map after that commit. -/
def EndsAfterCommit (backing : List Char) (rawParams : GoString) (out : Params) : Prop :=
  ∃ pre c n ps1 out1 key val,
    rawParams = pre ++ c :: List.replicate n ' ' ∧
    parseLoop backing 0 pre newParserStateParsingKey [] = Except.ok (ps1, out1) ∧
    Commits backing (byteLen pre) c ps1 key val ∧ out = Params.set out1 key val

/-- The text `text` stands at index `pos` of the list `B`. -/
def At (B : List Char) (pos : Nat) (text : List Char) : Prop := ∃ tl, B.drop pos = text ++ tl


/-- The key that a `Next` closure has captured, if it has one, is a token. -/
def NextFn.keyToken : NextFn → Prop
  | NextFn.parsingKey => True
  | NextFn.commitValue key => isToken key

/-- The keys held by a state are tokens, and a quoted-value state commits a value. -/
def parserState.keysTokens : parserState → Prop
  | parserStateParsingToken Next _ _ => Next.keyToken
  | parserStateParsingDelimiter _ Next => Next.keysTokens
  | parserStateBranch _ key => isToken key
  | parserStateParsingQuotedValue _ _ _ Next => ∃ key, Next = NextFn.commitValue key ∧ isToken key

/-- A token state that has started, after the characters `done` of an ASCII input: the token
starts inside `done`, and the characters from its start on may stand in a token. -/
def parserState.tokenSoFar (done : List Char) : parserState → Prop
  | parserStateParsingToken _ start true => start < done.length ∧ ∀ c ∈ done.drop start, tokenChar c
  | _ => True

/-! ## The loop body and the loop -/

theorem call_wf (N : NextFn) (out : Params) (v : GoString) (ps : parserState) (out1 : Params)
    (h : NextFn.call N out v = Except.ok (ps, out1)) :
    ∃ d n, ps = parserStateParsingDelimiter d n ∧ ps.wf := by
  cases N with
  | parsingKey =>
    simp only [NextFn.call] at h
    split at h
    · cases h
    · cases h
      exact ⟨_, _, rfl, Or.inr ⟨rfl, _, rfl⟩⟩
  | commitValue key =>
    simp only [NextFn.call] at h
    cases h
    exact ⟨_, _, rfl, Or.inl ⟨rfl, rfl⟩⟩

theorem again_delimiter_fuel (B : List Char) (pos : Nat) (c : Char) (n : Nat) (d : Char)
    (nx : parserState) (out : Params) :
    again B pos c (n + 1) (parserStateParsingDelimiter d nx) out =
        again B pos c 1 (parserStateParsingDelimiter d nx) out ∧
      again B pos c 1 (parserStateParsingDelimiter d nx) out ≠ Step.jumps := by
  simp only [again]
  by_cases h1 : c = ' '
  · simp [h1]
  · by_cases h2 : c = d
    · subst h2; simp [h1]
    · simp [h1, h2]

theorem again_quoted_fuel (B : List Char) (pos : Nat) (c : Char) (n : Nat) (ok esc : Bool)
    (buf : GoString) (N : NextFn) (out : Params) :
    again B pos c (n + 1) (parserStateParsingQuotedValue ok esc buf N) out =
        again B pos c 1 (parserStateParsingQuotedValue ok esc buf N) out ∧
      again B pos c 1 (parserStateParsingQuotedValue ok esc buf N) out ≠ Step.jumps := by
  simp only [again, true_and]
  cases ok <;> cases esc <;> simp
  · by_cases h : c = '"' <;> simp [h]
  · by_cases h : c = '"' <;> simp [h]
  · by_cases h1 : c = '\\'
    · simp [h1]
    · by_cases h2 : c = '"'
      · simp only [h1, h2, if_false, if_true]
        cases NextFn.call N out buf with
        | error e => simp
        | ok r => simp
      · simp [h1, h2]

theorem branchNext_space (key : GoString) : branchNext key ' ' = none := by
  simp [branchNext, isRfc2616Separator, rfc2616Separators]

/-- More fuel than one jump needs changes nothing, and the fuel is never used up. -/
theorem again_fuel (B : List Char) (pos : Nat) (c : Char) (n : Nat) (ps : parserState)
    (out : Params) :
    again B pos c (n + 2) ps out = again B pos c 2 ps out ∧
      again B pos c 2 ps out ≠ Step.jumps := by
  cases ps with
  | parserStateParsingToken N s ok =>
    simp only [again]
    by_cases h1 : ok = false ∧ c = ' '
    · simp [h1]
    · by_cases h2 : c.toNat < 32 ∨ isRfc2616Separator c = true
      · simp only [h1, h2, if_false, if_true]
        by_cases h3 : (if ok = true then s else pos) = pos
        · simp [h3]
        · simp only [h3, if_false]
          cases sliceRunes B (if ok = true then s else pos) pos with
          | none => simp
          | some value =>
            simp only
            cases hc : NextFn.call N out value with
            | error e => simp
            | ok r =>
              obtain ⟨ps1, out1⟩ := r
              obtain ⟨d, nx, rfl, -⟩ := call_wf _ _ _ _ _ hc
              exact again_delimiter_fuel B pos c n d nx out1
      · simp [h1, h2]
  | parserStateParsingDelimiter d nx =>
    have h := again_delimiter_fuel B pos c
    exact ⟨(h (n + 1) d nx out).1.trans (h 1 d nx out).1.symm,
      fun e => (h 0 d nx out).2 ((h 1 d nx out).1.symm.trans e)⟩
  | parserStateBranch iw key =>
    simp only [again]
    by_cases h1 : iw = true ∧ c = ' '
    · simp [h1]
    · simp only [h1, if_false]
      unfold branchNext
      by_cases h2 : c = '"'
      · simp only [h2, if_true]
        simp [again]
      · simp only [h2, if_false]
        by_cases h3 : isRfc2616Separator c = true
        · simp [h3]
        · have hsp : c ≠ ' ' := by
            intro h; subst h; exact h3 (by decide)
          simp only [Bool.not_eq_true] at h3
          simp only [h3, Bool.not_false, if_true, again, hsp, and_false, if_false,
            Bool.false_eq_true, or_false]
          by_cases h4 : c.toNat < 32 <;> simp [h4]
  | parserStateParsingQuotedValue ok esc buf N =>
    have h := again_quoted_fuel B pos c
    exact ⟨(h (n + 1) ok esc buf N out).1.trans (h 1 ok esc buf N out).1.symm,
      fun e => (h 0 ok esc buf N out).2 ((h 1 ok esc buf N out).1.symm.trans e)⟩

theorem step_ne_jumps (B : List Char) (pos : Nat) (c : Char) (ps : parserState) (out : Params) :
    step B pos c ps out ≠ Step.jumps := (again_fuel B pos c 0 ps out).2


theorem again_delimiter_wf (B : List Char) (pos : Nat) (c : Char) (d : Char)
    (nx : parserState) (out : Params) (ps1 : parserState) (out1 : Params)
    (hw : (parserStateParsingDelimiter d nx).wf)
    (h : again B pos c 1 (parserStateParsingDelimiter d nx) out = Step.next ps1 out1) :
    ps1.wf := by
  simp only [again] at h
  by_cases h1 : c = ' '
  · simp only [h1, if_true] at h
    cases h
    exact hw
  · by_cases h2 : c = d
    · subst h2
      simp only [h1, if_false, ne_eq, not_true_eq_false] at h
      cases h
      rcases hw with ⟨-, rfl⟩ | ⟨-, key, rfl⟩ <;> trivial
    · simp [h1, h2] at h

theorem again_quoted_wf (B : List Char) (pos : Nat) (c : Char) (ok esc : Bool)
    (buf : GoString) (N : NextFn) (out : Params) (ps1 : parserState) (out1 : Params)
    (h : again B pos c 1 (parserStateParsingQuotedValue ok esc buf N) out = Step.next ps1 out1) :
    ps1.wf := by
  simp only [again] at h
  cases ok
  · by_cases h0 : c = '"'
    · simp only [h0, if_true] at h
      cases h; trivial
    · simp [h0] at h
  cases esc <;> simp at h
  · by_cases h1 : c = '\\'
    · simp [h1] at h
      obtain ⟨rfl, -⟩ := h; trivial
    · by_cases h2 : c = '"'
      · simp only [h1, h2, if_false, if_true] at h
        cases hc : NextFn.call N out buf with
        | error e => simp [hc] at h
        | ok r =>
          obtain ⟨ps2, out2⟩ := r
          simp only [hc] at h
          cases h
          obtain ⟨d, nx, -, hw⟩ := call_wf _ _ _ _ _ hc
          exact hw
      · simp [h1, h2] at h
        obtain ⟨rfl, -⟩ := h; trivial
  · obtain ⟨rfl, -⟩ := h; trivial

/-- The loop body keeps the invariant of the delimiter states. -/
theorem step_wf (B : List Char) (pos : Nat) (c : Char) (ps : parserState) (out : Params)
    (ps1 : parserState) (out1 : Params) (hw : ps.wf)
    (h : step B pos c ps out = Step.next ps1 out1) : ps1.wf := by
  unfold step at h
  cases ps with
  | parserStateParsingToken N s ok =>
    simp only [again] at h
    by_cases h1 : ok = false ∧ c = ' '
    · simp only [h1, and_self, if_true] at h
      cases h; trivial
    · by_cases h2 : c.toNat < 32 ∨ isRfc2616Separator c = true
      · simp only [h1, h2, if_false, if_true] at h
        by_cases h3 : (if ok = true then s else pos) = pos
        · simp [h3] at h
        · simp only [h3, if_false] at h
          cases hs : sliceRunes B (if ok = true then s else pos) pos with
          | none => simp [hs] at h
          | some value =>
            simp only [hs] at h
            cases hc : NextFn.call N out value with
            | error e => simp [hc] at h
            | ok r =>
              obtain ⟨ps2, out2⟩ := r
              simp only [hc] at h
              obtain ⟨d, nx, rfl, hw2⟩ := call_wf _ _ _ _ _ hc
              exact again_delimiter_wf _ _ _ _ _ _ _ _ hw2 h
      · simp only [h1, h2, if_false] at h
        cases h; trivial
  | parserStateParsingDelimiter d nx =>
    exact again_delimiter_wf _ _ _ _ _ _ _ _ hw
      (((again_delimiter_fuel B pos c 1 d nx out).1).symm.trans h)
  | parserStateBranch iw key =>
    simp only [again] at h
    by_cases h1 : iw = true ∧ c = ' '
    · simp only [h1, and_self, if_true] at h
      cases h; trivial
    · simp only [h1, if_false] at h
      unfold branchNext at h
      by_cases h2 : c = '"'
      · simp only [h2, if_true] at h
        exact again_quoted_wf _ _ _ _ _ _ _ _ _ _ h
      · simp only [h2, if_false] at h
        by_cases h3 : isRfc2616Separator c = true
        · simp [h3] at h
        · simp only [Bool.not_eq_true] at h3
          have hsp : c ≠ ' ' := by
            intro h; subst h; exact absurd h3 (by decide)
          simp only [h3, Bool.not_false, if_true, again, hsp, and_false, if_false,
            Bool.false_eq_true, or_false] at h
          by_cases h4 : c.toNat < 32
          · simp [h4] at h
          · simp only [h4, if_false] at h
            cases h; trivial
  | parserStateParsingQuotedValue ok esc buf N =>
    exact again_quoted_wf _ _ _ _ _ _ _ _ _ _
      (((again_quoted_fuel B pos c 1 ok esc buf N out).1).symm.trans h)

/-- The loop over `xs ++ ys` is the loop over `xs` followed by the loop over `ys`. -/
theorem parseLoop_append (B : List Char) (xs ys : List Char) :
    ∀ (pos : Nat) (ps : parserState) (out : Params),
      parseLoop B pos (xs ++ ys) ps out =
        match parseLoop B pos xs ps out with
        | Except.ok (ps1, out1) => parseLoop B (pos + byteLen xs) ys ps1 out1
        | Except.error o => Except.error o := by
  induction xs with
  | nil => intro pos ps out; simp [parseLoop, byteLen]
  | cons c xs ih =>
    intro pos ps out
    simp only [List.cons_append, parseLoop]
    cases step B pos c ps out with
    | next ps1 out1 =>
      have : pos + runeLen c + byteLen xs = pos + byteLen (c :: xs) := by
        simp [byteLen]; omega
      simp only []
      rw [← this]
      exact ih _ _ _
    | parserFail ps1 => rfl
    | ret e => rfl
    | panic => rfl
    | jumps => rfl

/-- The loop keeps the invariant of the delimiter states. -/
theorem parseLoop_wf (B : List Char) (xs : List Char) :
    ∀ (pos : Nat) (ps : parserState) (out : Params) (ps1 : parserState) (out1 : Params),
      ps.wf → parseLoop B pos xs ps out = Except.ok (ps1, out1) → ps1.wf := by
  induction xs with
  | nil =>
    intro pos ps out ps1 out1 hw h
    simp only [parseLoop] at h
    cases h; exact hw
  | cons c xs ih =>
    intro pos ps out ps1 out1 hw h
    simp only [parseLoop] at h
    cases hs : step B pos c ps out with
    | next ps2 out2 =>
      simp only [hs] at h
      exact ih _ _ _ _ _ (step_wf _ _ _ _ _ _ _ hw hs) h
    | parserFail ps2 => simp [hs] at h
    | ret e => simp [hs] at h
    | panic => simp [hs] at h
    | jumps => simp [hs] at h


/-- The loop body never leaves the function with a map. -/
theorem parseLoop_error_ne_ok (B : List Char) (xs : List Char) :
    ∀ (pos : Nat) (ps : parserState) (out : Params) (o : Outcome) (m : Params),
      parseLoop B pos xs ps out = Except.error o → o ≠ Outcome.ok m := by
  induction xs with
  | nil => intro pos ps out o m h; simp [parseLoop] at h
  | cons c xs ih =>
    intro pos ps out o m h
    simp only [parseLoop] at h
    cases hs : step B pos c ps out with
    | next ps2 out2 => simp only [hs] at h; exact ih _ _ _ _ _ h
    | parserFail ps2 => simp only [hs] at h; cases h; simp
    | ret e => simp only [hs] at h; cases h; simp
    | panic => simp only [hs] at h; cases h; simp
    | jumps => simp only [hs] at h; cases h; simp

theorem finish_afterComma (ps : parserState) (out m : Params) (h : ps.afterComma) :
    finish ps out ≠ Outcome.ok m := by
  cases ps <;> simp [finish, parserState.afterComma] at h ⊢

/-- After an accepted `,` the parser is in a fresh key state or inside a quoted value. -/
theorem step_comma (B : List Char) (pos : Nat) (ps : parserState) (out : Params)
    (ps1 : parserState) (out1 : Params) (hw : ps.wf)
    (h : step B pos ',' ps out = Step.next ps1 out1) : ps1.afterComma := by
  unfold step at h
  have hsep : isRfc2616Separator ',' = true := by decide
  cases ps with
  | parserStateParsingToken N s ok =>
    simp only [again, hsep, or_true, if_true] at h
    simp only [show ¬(',' = ' ') by decide, and_false, if_false] at h
    by_cases h3 : (if ok = true then s else pos) = pos
    · simp [h3] at h
    · simp only [h3, if_false] at h
      cases hs : sliceRunes B (if ok = true then s else pos) pos with
      | none => simp [hs] at h
      | some value =>
        simp only [hs] at h
        cases N with
        | parsingKey =>
          by_cases hh : Params.has out value = true <;> simp [NextFn.call, hh, again] at h
        | commitValue key =>
          simp only [NextFn.call, again] at h
          simp only [show ¬(',' = ' ') by decide, if_false, ne_eq, not_true_eq_false] at h
          cases h
          simp [newParserStateParsingKey, parserState.afterComma]
  | parserStateParsingDelimiter d nx =>
    simp only [again, show ¬(',' = ' ') by decide, if_false] at h
    by_cases h2 : ',' = d
    · subst h2
      simp only [ne_eq, not_true_eq_false, if_false] at h
      cases h
      rcases hw with ⟨-, rfl⟩ | ⟨hd, -⟩
      · simp [newParserStateParsingKey, parserState.afterComma]
      · exact absurd hd (by decide)
    · simp [h2] at h
  | parserStateBranch iw key =>
    simp [again, branchNext, hsep] at h
  | parserStateParsingQuotedValue ok esc buf N =>
    cases ok
    · simp [again] at h
    · cases esc
      · simp [again] at h
        obtain ⟨rfl, -⟩ := h
        simp [parserState.afterComma]
      · simp [again] at h
        obtain ⟨rfl, -⟩ := h
        simp [parserState.afterComma]

/-- In those two states a space is passed over or added to the quoted value. -/
theorem step_space_afterComma (B : List Char) (pos : Nat) (ps : parserState) (out : Params)
    (ha : ps.afterComma) :
    ∃ ps1, step B pos ' ' ps out = Step.next ps1 out ∧ ps1.afterComma := by
  unfold step
  cases ps with
  | parserStateParsingToken N s ok =>
    simp only [parserState.afterComma] at ha
    subst ha
    exact ⟨parserStateParsingToken N s false, by simp [again], by simp [parserState.afterComma]⟩
  | parserStateParsingDelimiter d nx => exact absurd ha (by simp [parserState.afterComma])
  | parserStateBranch iw key => exact absurd ha (by simp [parserState.afterComma])
  | parserStateParsingQuotedValue ok esc buf N =>
    simp only [parserState.afterComma] at ha
    subst ha
    cases esc
    · exact ⟨parserStateParsingQuotedValue true false (buf ++ [' ']) N, by simp [again],
        by simp [parserState.afterComma]⟩
    · exact ⟨parserStateParsingQuotedValue true false (buf ++ [' ']) N, by simp [again],
        by simp [parserState.afterComma]⟩

theorem parseLoop_spaces_afterComma (B : List Char) (n : Nat) :
    ∀ (pos : Nat) (ps : parserState) (out : Params), ps.afterComma →
      ∃ ps1, parseLoop B pos (List.replicate n ' ') ps out = Except.ok (ps1, out) ∧
        ps1.afterComma := by
  induction n with
  | zero => intro pos ps out ha; exact ⟨ps, by simp [parseLoop], ha⟩
  | succ n ih =>
    intro pos ps out ha
    obtain ⟨ps1, h1, ha1⟩ := step_space_afterComma B pos ps out ha
    obtain ⟨ps2, h2, ha2⟩ := ih (pos + runeLen ' ') ps1 out ha1
    exact ⟨ps2, by simp only [List.replicate_succ, parseLoop, h1, h2], ha2⟩

/-- A text that ends in `,` followed by spaces is never parsed to a map. -/
theorem parseRunes_trailing_comma (B : List Char) (xs : List Char) (n : Nat) (m : Params) :
    parseRunes B (xs ++ ',' :: List.replicate n ' ') ≠ Outcome.ok m := by
  unfold parseRunes
  rw [parseLoop_append]
  cases h1 : parseLoop B 0 xs newParserStateParsingKey [] with
  | error o => exact parseLoop_error_ne_ok _ _ _ _ _ _ _ h1
  | ok r =>
    obtain ⟨ps1, out1⟩ := r
    have hw : ps1.wf := parseLoop_wf _ _ _ _ _ _ _ (by trivial) h1
    simp only [parseLoop]
    cases hs : step B (0 + byteLen xs) ',' ps1 out1 with
    | next ps2 out2 =>
      obtain ⟨ps3, h3, ha3⟩ := parseLoop_spaces_afterComma B n
        (0 + byteLen xs + runeLen ',') ps2 out2 (step_comma _ _ _ _ _ _ hw hs)
      simp only [h3]
      exact finish_afterComma _ _ _ ha3
    | parserFail ps2 => simp
    | ret e => simp
    | panic => simp
    | jumps => simp

theorem hasPrefix_iff (s p : GoString) : hasPrefix s p = true ↔ ∃ t, s = p ++ t := by
  induction p generalizing s with
  | nil => cases s <;> simp [hasPrefix]
  | cons a p ih =>
    cases s with
    | nil => simp [hasPrefix]
    | cons c s =>
      simp only [hasPrefix, Bool.and_eq_true, beq_iff_eq, ih, List.cons_append, List.cons.injEq]
      constructor
      · rintro ⟨rfl, t, rfl⟩; exact ⟨t, rfl, rfl⟩
      · rintro ⟨t, rfl, rfl⟩; exact ⟨rfl, t, rfl⟩

theorem trimPrefix_append (p t : GoString) : trimPrefix (p ++ t) p = t := by
  have : hasPrefix (p ++ t) p = true := (hasPrefix_iff _ _).2 ⟨t, rfl⟩
  simp [trimPrefix, this]

theorem trimLeft_snoc (a : GoString) (b : Char) (c : GoString) (hb : b ≠ ' ') :
    ∃ a1, trimLeft (a ++ b :: c) = a1 ++ b :: c := by
  induction a with
  | nil => exact ⟨[], by simp [trimLeft, List.dropWhile_cons, hb]⟩
  | cons x a ih =>
    by_cases hx : x = ' '
    · obtain ⟨a1, h1⟩ := ih
      refine ⟨a1, ?_⟩
      simp only [trimLeft] at h1 ⊢
      simp [List.dropWhile_cons, hx, h1]
    · exact ⟨x :: a, by simp [trimLeft, List.dropWhile_cons, hx]⟩

/-- C7: a header that ends in a comma, or in a comma followed by any number of spaces, is
never parsed to a map, whatever stands before the comma. -/
theorem trailing_comma_rejected (spare : List Char) (h : GoString) (n : Nat) (m : Params) :
    parseWWWAuthenticate spare (h ++ ',' :: List.replicate n ' ') ≠ Outcome.ok m := by
  unfold parseWWWAuthenticate
  split
  · simp
  · rename_i hc
    simp only [Bool.not_eq_true', gt_iff_lt, not_or, Bool.not_eq_false, not_lt] at hc
    obtain ⟨t, ht⟩ := (hasPrefix_iff _ _).1 hc.1
    have hsplit : ∃ a, t = a ++ ',' :: List.replicate n ' ' := by
      rcases List.append_eq_append_iff.1 ht with ⟨a, h1, h2⟩ | ⟨c, -, h2⟩
      · cases a with
        | nil => exact ⟨[], by simpa using h2.symm⟩
        | cons x a =>
          simp only [List.cons_append, List.cons.injEq] at h2
          have : ',' ∈ digestLit := by
            rw [h1, ← h2.1]
            simp
          exact absurd this (by decide)
      · exact ⟨c, h2⟩
    obtain ⟨a, rfl⟩ := hsplit
    simp only [ht, trimPrefix_append]
    obtain ⟨a1, h1⟩ := trimLeft_snoc a ',' (List.replicate n ' ') (by decide)
    rw [h1, List.append_assoc]
    exact parseRunes_trailing_comma _ _ _ _


/-! ## Runs of the parser over well-formed text -/

theorem tokenChar_facts {c : Char} (h : tokenChar c) :
    c ≠ ' ' ∧ c ≠ '"' ∧ ¬ c.toNat < 32 ∧ isRfc2616Separator c = false ∧ runeLen c = 1 := by
  obtain ⟨h1, h2, h3⟩ := h
  refine ⟨?_, ?_, by omega, h3, by simp [runeLen, h2]⟩
  · rintro rfl; exact absurd h3 (by decide)
  · rintro rfl; exact absurd h3 (by decide)

theorem runeLen_ascii {c : Char} (h : c.toNat < 128) : runeLen c = 1 := by
  simp [runeLen, h]

theorem byteLen_ascii {s : GoString} (h : isAscii s) : byteLen s = s.length := by
  induction s with
  | nil => rfl
  | cons c s ih =>
    have h1 : runeLen c = 1 := runeLen_ascii (h c (by simp))
    have h2 := ih (fun x hx => h x (by simp [hx]))
    simp only [byteLen, List.map_cons, List.sum_cons, List.length_cons] at h2 ⊢
    omega

theorem byteLen_append (a b : GoString) : byteLen (a ++ b) = byteLen a + byteLen b := by
  simp [byteLen]

theorem byteLen_ge_length (s : GoString) : s.length ≤ byteLen s := by
  induction s with
  | nil => simp [byteLen]
  | cons c s ih =>
    have : 1 ≤ runeLen c := by unfold runeLen; split_ifs <;> omega
    simp only [byteLen, List.map_cons, List.sum_cons, List.length_cons] at ih ⊢
    omega

theorem isToken_ascii {s : GoString} (h : isToken s) : isAscii s :=
  fun c hc => (h.2 c hc).2.1

theorem At.left {B : List Char} {pos : Nat} {a b : List Char} (h : At B pos (a ++ b)) :
    At B pos a := by
  obtain ⟨tl, h⟩ := h
  exact ⟨b ++ tl, by simpa using h⟩

theorem At.right {B : List Char} {pos : Nat} {a b : List Char} (h : At B pos (a ++ b)) :
    At B (pos + a.length) b := by
  obtain ⟨tl, h⟩ := h
  refine ⟨tl, ?_⟩
  rw [← List.drop_drop, h, List.append_assoc, List.drop_left]

theorem At.slice {B : List Char} {pos : Nat} {a : List Char} (h : At B pos a) (ha : a ≠ []) :
    sliceRunes B pos (pos + a.length) = some a := by
  obtain ⟨tl, h⟩ := h
  have hlen : pos + a.length ≤ B.length := by
    have := congrArg List.length h
    simp only [List.length_drop, List.length_append] at this
    have : 0 < a.length := List.length_pos.2 ha
    omega
  simp only [sliceRunes, Nat.le_add_right, hlen, and_self, if_true, h, Nat.add_sub_cancel_left,
    List.take_left]


theorem step_token_space (B : List Char) (pos : Nat) (N : NextFn) (s : Nat) (out : Params) :
    step B pos ' ' (parserStateParsingToken N s false) out =
      Step.next (parserStateParsingToken N s false) out := by
  simp [step, again]

theorem step_token_start (B : List Char) (pos : Nat) (c : Char) (N : NextFn) (s : Nat)
    (out : Params) (hc : tokenChar c) :
    step B pos c (parserStateParsingToken N s false) out =
      Step.next (parserStateParsingToken N pos true) out := by
  obtain ⟨h1, -, h3, h4, -⟩ := tokenChar_facts hc
  simp [step, again, h1, h3, h4]

theorem step_token_char (B : List Char) (pos : Nat) (c : Char) (N : NextFn) (s : Nat)
    (out : Params) (hc : tokenChar c) :
    step B pos c (parserStateParsingToken N s true) out =
      Step.next (parserStateParsingToken N s true) out := by
  obtain ⟨h1, -, h3, h4, -⟩ := tokenChar_facts hc
  simp [step, again, h3, h4]

theorem step_key_stop (B : List Char) (pos s : Nat) (key : GoString) (out : Params)
    (hs : sliceRunes B s pos = some key) (hne : s ≠ pos) :
    step B pos '=' (parserStateParsingToken NextFn.parsingKey s true) out =
      if Params.has out key then Step.ret (ParseError.duplicatedKey key)
      else Step.next (parserStateBranch true key) out := by
  have hsep : isRfc2616Separator '=' = true := by decide
  by_cases hh : Params.has out key = true <;>
    simp [step, again, hsep, hs, hne, NextFn.call, hh]

theorem step_value_stop_comma (B : List Char) (pos s : Nat) (key v : GoString) (out : Params)
    (hs : sliceRunes B s pos = some v) (hne : s ≠ pos) :
    step B pos ',' (parserStateParsingToken (NextFn.commitValue key) s true) out =
      Step.next newParserStateParsingKey (Params.set out key v) := by
  have hsep : isRfc2616Separator ',' = true := by decide
  simp [step, again, hsep, hs, hne, NextFn.call]

theorem step_value_stop_space (B : List Char) (pos s : Nat) (key v : GoString) (out : Params)
    (hs : sliceRunes B s pos = some v) (hne : s ≠ pos) :
    step B pos ' ' (parserStateParsingToken (NextFn.commitValue key) s true) out =
      Step.next (parserStateParsingDelimiter ',' newParserStateParsingKey)
        (Params.set out key v) := by
  have hsep : isRfc2616Separator ' ' = true := by decide
  simp [step, again, hsep, hs, hne, NextFn.call]

theorem step_branch_token (B : List Char) (pos : Nat) (c : Char) (key : GoString)
    (out : Params) (hc : tokenChar c) :
    step B pos c (parserStateBranch true key) out =
      Step.next (parserStateParsingToken (NextFn.commitValue key) pos true) out := by
  obtain ⟨h1, h2, h3, h4, -⟩ := tokenChar_facts hc
  simp [step, again, branchNext, h1, h2, h3, h4]

theorem step_branch_quote (B : List Char) (pos : Nat) (key : GoString) (out : Params) :
    step B pos '"' (parserStateBranch true key) out =
      Step.next (parserStateParsingQuotedValue true false [] (NextFn.commitValue key)) out := by
  simp [step, again, branchNext]

theorem step_quote_close (B : List Char) (pos : Nat) (key buf : GoString) (out : Params) :
    step B pos '"' (parserStateParsingQuotedValue true false buf (NextFn.commitValue key)) out =
      Step.next (parserStateParsingDelimiter ',' newParserStateParsingKey)
        (Params.set out key buf) := by
  simp [step, again, NextFn.call]

theorem step_delimiter (B : List Char) (pos : Nat) (d : Char) (nx : parserState)
    (out : Params) (hd : d ≠ ' ') :
    step B pos d (parserStateParsingDelimiter d nx) out = Step.next nx out := by
  simp [step, again, hd]

theorem step_delimiter_space (B : List Char) (pos : Nat) (d : Char) (nx : parserState)
    (out : Params) :
    step B pos ' ' (parserStateParsingDelimiter d nx) out =
      Step.next (parserStateParsingDelimiter d nx) out := by
  simp [step, again]

/-- The key state passes over spaces. -/
theorem parseLoop_spaces (B : List Char) (N : NextFn) (s : Nat) (out : Params) (n : Nat) :
    ∀ pos, parseLoop B pos (List.replicate n ' ') (parserStateParsingToken N s false) out =
      Except.ok (parserStateParsingToken N s false, out) := by
  induction n with
  | zero => intro pos; rfl
  | succ n ih =>
    intro pos
    simp only [List.replicate_succ, parseLoop, step_token_space, ih]

/-- A started token state passes over token characters. -/
theorem parseLoop_token (B : List Char) (N : NextFn) (s : Nat) (out : Params)
    (tok : List Char) (ht : ∀ c ∈ tok, tokenChar c) :
    ∀ pos, parseLoop B pos tok (parserStateParsingToken N s true) out =
      Except.ok (parserStateParsingToken N s true, out) := by
  induction tok with
  | nil => intro pos; rfl
  | cons c tok ih =>
    intro pos
    simp only [parseLoop, step_token_char _ _ _ _ _ _ (ht c (by simp))]
    exact ih (fun x hx => ht x (by simp [hx])) _

/-- Inside a quoted value the escaped text of `v` adds `v` to the buffer. -/
theorem parseLoop_escaped (B : List Char) (N : NextFn) (out : Params) (v : GoString) :
    ∀ pos buf, parseLoop B pos (escaped v) (parserStateParsingQuotedValue true false buf N) out =
      Except.ok (parserStateParsingQuotedValue true false (buf ++ v) N, out) := by
  induction v with
  | nil => intro pos buf; simp [escaped, parseLoop]
  | cons c v ih =>
    intro pos buf
    have hcons : escaped (c :: v) =
        (if c = '"' ∨ c = '\\' then ['\\', c] else [c]) ++ escaped v := by
      simp [escaped]
    rw [hcons]
    by_cases h : c = '"' ∨ c = '\\'
    · simp only [h, if_true, List.cons_append, List.nil_append, parseLoop]
      have h1 : step B pos '\\' (parserStateParsingQuotedValue true false buf N) out =
          Step.next (parserStateParsingQuotedValue true true buf N) out := by
        simp [step, again]
      have h2 : step B (pos + runeLen '\\') c (parserStateParsingQuotedValue true true buf N)
          out = Step.next (parserStateParsingQuotedValue true false (buf ++ [c]) N) out := by
        simp [step, again]
      simp only [h1, h2, ih, List.append_assoc, List.singleton_append]
    · simp only [h, if_false, List.cons_append, List.nil_append, parseLoop]
      simp only [not_or] at h
      have h1 : step B pos c (parserStateParsingQuotedValue true false buf N) out =
          Step.next (parserStateParsingQuotedValue true false (buf ++ [c]) N) out := by
        simp [step, again, h.1, h.2]
      simp only [h1, ih, List.append_assoc, List.singleton_append]

theorem escaped_ascii {v : GoString} (h : isAscii v) : isAscii (escaped v) := by
  intro c hc
  simp only [escaped, List.mem_flatMap] at hc
  obtain ⟨x, hx, hcx⟩ := hc
  split at hcx
  · simp only [List.mem_cons, List.mem_singleton, List.not_mem_nil, or_false] at hcx
    rcases hcx with rfl | rfl
    · decide
    · exact h _ hx
  · simp only [List.mem_singleton] at hcx
    subst hcx; exact h _ hx


theorem byteLen_spaces (n : Nat) : byteLen (List.replicate n ' ') = n := by
  induction n with
  | zero => rfl
  | succ n ih =>
    simp only [byteLen, List.replicate_succ, List.map_cons, List.sum_cons] at ih ⊢
    rw [ih]; simp [runeLen]; omega

/-- The key state reads `SP* key =`: a key that the map holds is the error, any other key
leads to the branch state of the key. -/
theorem run_key (B : List Char) (n : Nat) (key : GoString) (hk : isToken key) (pos s0 : Nat)
    (out : Params) (hB : At B (pos + n) key) :
    parseLoop B pos (List.replicate n ' ' ++ key ++ ['='])
        (parserStateParsingToken NextFn.parsingKey s0 false) out =
      if Params.has out key then Except.error (Outcome.error (ParseError.duplicatedKey key))
      else Except.ok (parserStateBranch true key, out) := by
  obtain ⟨hne, htok⟩ := hk
  cases key with
  | nil => exact absurd rfl hne
  | cons c tok =>
    have hlen : byteLen (c :: tok) = (c :: tok).length := byteLen_ascii (isToken_ascii ⟨hne, htok⟩)
    rw [List.append_assoc, parseLoop_append, parseLoop_spaces, byteLen_spaces]
    simp only []
    rw [parseLoop_append]
    simp only [parseLoop, step_token_start _ _ _ _ _ _ (htok c (by simp))]
    rw [parseLoop_token _ _ _ _ _ (fun x hx => htok x (by simp [hx]))]
    simp only [hlen]
    rw [step_key_stop B _ _ (c :: tok) out (hB.slice hne) (by simp)]
    by_cases hh : Params.has out (c :: tok) = true <;> simp [hh]

/-- The branch state reads a quoted string and commits its value. -/
theorem run_quoted (B : List Char) (key v : GoString) (pos : Nat) (out : Params) :
    parseLoop B pos (quotedString v) (parserStateBranch true key) out =
      Except.ok (parserStateParsingDelimiter ',' newParserStateParsingKey,
        Params.set out key v) := by
  simp only [quotedString, parseLoop, step_branch_quote]
  show parseLoop B _ (escaped v ++ ['"']) _ _ = _
  rw [parseLoop_append, parseLoop_escaped]
  simp only [parseLoop, List.nil_append, step_quote_close]

/-- The branch state reads a bare token; nothing is committed before the token ends. -/
theorem run_bare (B : List Char) (key v : GoString) (hv : isToken v) (pos : Nat)
    (out : Params) :
    parseLoop B pos v (parserStateBranch true key) out =
      Except.ok (parserStateParsingToken (NextFn.commitValue key) pos true, out) := by
  obtain ⟨hne, htok⟩ := hv
  cases v with
  | nil => exact absurd rfl hne
  | cons c tok =>
    simp only [parseLoop, step_branch_token _ _ _ _ _ (htok c (by simp))]
    exact parseLoop_token _ _ _ _ _ (fun x hx => htok x (by simp [hx])) _

/-- A bare token that is followed by a comma is committed at the comma. -/
theorem run_bare_comma (B : List Char) (key v : GoString) (hv : isToken v) (pos : Nat)
    (out : Params) (hB : At B pos v) :
    parseLoop B pos (v ++ [',']) (parserStateBranch true key) out =
      Except.ok (newParserStateParsingKey, Params.set out key v) := by
  rw [parseLoop_append, run_bare B key v hv, byteLen_ascii (isToken_ascii hv)]
  have hne : pos ≠ pos + v.length := by
    have := List.length_pos.2 hv.1; omega
  simp only [parseLoop, step_value_stop_comma B _ _ key v out (hB.slice hv.1) hne]

/-- A bare token that is followed by a space is committed at the space. -/
theorem run_bare_space (B : List Char) (key v : GoString) (hv : isToken v) (pos : Nat)
    (out : Params) (hB : At B pos v) :
    parseLoop B pos (v ++ [' ']) (parserStateBranch true key) out =
      Except.ok (parserStateParsingDelimiter ',' newParserStateParsingKey,
        Params.set out key v) := by
  rw [parseLoop_append, run_bare B key v hv, byteLen_ascii (isToken_ascii hv)]
  have hne : pos ≠ pos + v.length := by
    have := List.length_pos.2 hv.1; omega
  simp only [parseLoop, step_value_stop_space B _ _ key v out (hB.slice hv.1) hne]

theorem quotedString_ascii {v : GoString} (h : isAscii v) : isAscii (quotedString v) := by
  intro c hc
  simp only [quotedString, List.mem_cons, List.mem_append, List.mem_singleton,
    List.not_mem_nil, or_false] at hc
  rcases hc with (rfl | hc) | rfl
  · decide
  · exact escaped_ascii h c hc
  · decide

theorem Pair.valueText_ascii {p : Pair} (h : p.wellFormed) : isAscii p.valueText := by
  unfold Pair.valueText
  have h2 := h.2
  by_cases hb : p.bare = true
  · simp only [hb, if_true] at h2 ⊢; exact isToken_ascii h2
  · simp only [hb, if_false] at h2 ⊢; exact quotedString_ascii h2

theorem Pair.text_ascii {p : Pair} (h : p.wellFormed) : isAscii p.text := by
  intro c hc
  simp only [Pair.text, List.mem_append, List.mem_cons, List.mem_replicate] at hc
  rcases hc with (⟨-, rfl⟩ | hc) | rfl | hc
  · decide
  · exact isToken_ascii h.1 c hc
  · decide
  · exact Pair.valueText_ascii h c hc

theorem Pair.text_eq (p : Pair) :
    p.text = (List.replicate p.spaces ' ' ++ p.key ++ ['=']) ++ p.valueText := by
  simp [Pair.text]

theorem length_key_part (p : Pair) :
    (List.replicate p.spaces ' ' ++ p.key ++ ['=']).length = p.spaces + p.key.length + 1 := by
  simp; omega

theorem byteLen_key_part {p : Pair} (h : p.wellFormed) :
    byteLen (List.replicate p.spaces ' ' ++ p.key ++ ['=']) = p.spaces + p.key.length + 1 := by
  rw [byteLen_append, byteLen_append, byteLen_spaces, byteLen_ascii (isToken_ascii h.1)]
  rfl

/-- A well-formed pair with a duplicate key is the error `duplicated key`, whatever follows
the `=`. -/
theorem run_pair_duplicate (B : List Char) (p : Pair) (hp : p.wellFormed) (pos s0 : Nat)
    (out : Params) (rest : List Char) (hdup : Params.has out p.key = true)
    (hB : At B pos p.text) :
    parseLoop B pos (p.text ++ rest) (parserStateParsingToken NextFn.parsingKey s0 false) out =
      Except.error (Outcome.error (ParseError.duplicatedKey p.key)) := by
  have hB1 : At B (pos + p.spaces) p.key := by
    have := hB
    rw [Pair.text, List.append_assoc] at this
    have h2 := this.right
    rw [List.length_replicate] at h2
    exact h2.left
  rw [Pair.text_eq, List.append_assoc, parseLoop_append, run_key B _ _ hp.1 _ _ _ hB1]
  simp [hdup]

/-- A well-formed pair with a quoted value and a new key is committed at the closing
quote. -/
theorem run_pair_quoted (B : List Char) (p : Pair) (hp : p.wellFormed) (hq : p.bare = false)
    (pos s0 : Nat) (out : Params) (hnew : Params.has out p.key = false)
    (hB : At B pos p.text) :
    parseLoop B pos p.text (parserStateParsingToken NextFn.parsingKey s0 false) out =
      Except.ok (parserStateParsingDelimiter ',' newParserStateParsingKey,
        Params.set out p.key p.value) := by
  have hB1 : At B (pos + p.spaces) p.key := by
    have := hB
    rw [Pair.text, List.append_assoc] at this
    have h2 := this.right
    rw [List.length_replicate] at h2
    exact h2.left
  rw [Pair.text_eq, parseLoop_append, run_key B _ _ hp.1 _ _ _ hB1]
  simp only [hnew, Bool.false_eq_true, if_false, Pair.valueText, hq]
  exact run_quoted _ _ _ _ _

/-- A well-formed pair with a new key that is followed by a comma is committed, and the
parser is back in the key state. -/
theorem run_pair_comma (B : List Char) (p : Pair) (hp : p.wellFormed) (pos s0 : Nat)
    (out : Params) (hnew : Params.has out p.key = false) (hB : At B pos (p.text ++ [','])) :
    parseLoop B pos (p.text ++ [',']) (parserStateParsingToken NextFn.parsingKey s0 false) out =
      Except.ok (newParserStateParsingKey, Params.set out p.key p.value) := by
  by_cases hb : p.bare = true
  · have hB1 : At B (pos + p.spaces) p.key := by
      have := hB.left
      rw [Pair.text, List.append_assoc] at this
      have h2 := this.right
      rw [List.length_replicate] at h2
      exact h2.left
    have hB2 : At B (pos + (p.spaces + p.key.length + 1)) p.value := by
      have := hB.left
      rw [Pair.text_eq] at this
      have h2 := this.right
      rw [length_key_part] at h2
      simpa [Pair.valueText, hb] using h2
    have hv : isToken p.value := by
      have := hp.2; simpa [hb] using this
    rw [Pair.text_eq, List.append_assoc, parseLoop_append, run_key B _ _ hp.1 _ _ _ hB1]
    simp only [hnew, Bool.false_eq_true, if_false, Pair.valueText, hb, if_true,
      byteLen_key_part hp]
    exact run_bare_comma B _ _ hv _ _ hB2
  · simp only [Bool.not_eq_true] at hb
    rw [parseLoop_append, run_pair_quoted B p hp hb pos s0 out hnew hB.left]
    simp only [parseLoop]
    rw [step_delimiter _ _ _ _ _ (by decide)]


/-! ## The map -/

theorem Params.has_nil (k : GoString) : Params.has [] k = false := rfl

theorem Params.set_new (out : Params) (k v : GoString) (h : Params.has out k = false) :
    Params.set out k v = out ++ [(k, v)] := by
  induction out with
  | nil => rfl
  | cons e out ih =>
    obtain ⟨k1, v1⟩ := e
    simp only [Params.has, Params.get?] at h
    by_cases hk : k1 = k
    · simp [hk] at h
    · simp only [hk, if_false] at h
      simp only [Params.set, hk, if_false, List.cons_append, List.cons.injEq, true_and]
      exact ih h

theorem Params.has_append_single (out : Params) (k v k1 : GoString) :
    Params.has (out ++ [(k, v)]) k1 = (Params.has out k1 || decide (k = k1)) := by
  induction out with
  | nil =>
    by_cases hk : k = k1 <;> simp [Params.has, Params.get?, hk]
  | cons e out ih =>
    obtain ⟨k2, v2⟩ := e
    simp only [Params.has, List.cons_append, Params.get?] at ih ⊢
    by_cases hk : k2 = k1
    · simp [hk]
    · simp only [hk, if_false]; exact ih

theorem Params.has_entries (l : List Pair) (k : GoString) :
    Params.has (l.map Pair.entry) k = true ↔ k ∈ l.map Pair.key := by
  induction l with
  | nil => simp [Params.has, Params.get?]
  | cons p l ih =>
    simp only [Params.has, List.map_cons, Pair.entry, Params.get?] at ih ⊢
    by_cases hk : p.key = k
    · simp [hk]
    · simp only [hk, if_false, List.mem_cons, ih]
      constructor
      · intro h; exact Or.inr h
      · rintro (h | h)
        · exact absurd h.symm hk
        · exact h

/-! ## Runs over lists of pairs -/

theorem pairsComma_cons (p : Pair) (l : List Pair) :
    pairsComma (p :: l) = (p.text ++ [',']) ++ pairsComma l := by
  simp [pairsComma]

theorem pairsText_append (A : List Pair) (x : Pair) (l : List Pair) :
    pairsText (A ++ x :: l) = pairsComma A ++ pairsText (x :: l) := by
  induction A with
  | nil => simp [pairsComma]
  | cons p A ih =>
    cases A with
    | nil => simp [pairsText, pairsComma]
    | cons q A =>
      have e : pairsText (p :: q :: A ++ x :: l) =
          p.text ++ ',' :: pairsText (q :: A ++ x :: l) := rfl
      rw [e, ih, pairsComma_cons p]
      simp

theorem pairsText_cons (x : Pair) (l : List Pair) : ∃ tl, pairsText (x :: l) = x.text ++ tl := by
  cases l with
  | nil => exact ⟨[], by simp [pairsText]⟩
  | cons q l => exact ⟨',' :: pairsText (q :: l), by simp [pairsText]⟩

theorem pairsComma_ascii {l : List Pair} (h : ∀ p ∈ l, p.wellFormed) :
    isAscii (pairsComma l) := by
  intro c hc
  simp only [pairsComma, List.mem_flatMap, List.mem_append, List.mem_singleton] at hc
  obtain ⟨p, hp, hc | rfl⟩ := hc
  · exact Pair.text_ascii (h p hp) c hc
  · decide

/-- Well-formed pairs with new and distinct keys, each followed by a comma, are all
committed, in the order in which they are written. -/
theorem run_pairsComma (B : List Char) (l : List Pair) :
    ∀ (pos : Nat) (out : Params), (∀ p ∈ l, p.wellFormed) → (l.map Pair.key).Nodup →
      (∀ p ∈ l, Params.has out p.key = false) → At B pos (pairsComma l) →
      parseLoop B pos (pairsComma l) newParserStateParsingKey out =
        Except.ok (newParserStateParsingKey, out ++ l.map Pair.entry) := by
  induction l with
  | nil => intro pos out _ _ _ _; simp [pairsComma, parseLoop]
  | cons p l ih =>
    intro pos out hwf hnd hnew hB
    rw [pairsComma_cons] at hB ⊢
    have hp := hwf p (by simp)
    have hasc : isAscii (p.text ++ [',']) := by
      intro c hc
      simp only [List.mem_append, List.mem_singleton] at hc
      rcases hc with hc | rfl
      · exact Pair.text_ascii hp c hc
      · decide
    have hk : newParserStateParsingKey = parserStateParsingToken NextFn.parsingKey 0 false :=
      rfl
    rw [parseLoop_append, hk, run_pair_comma B p hp pos 0 out (hnew p (by simp)) hB.left]
    simp only [byteLen_ascii hasc]
    rw [Params.set_new _ _ _ (hnew p (by simp))]
    simp only [List.map_cons, List.nodup_cons] at hnd
    have := ih (pos + (p.text ++ [',']).length) (out ++ [(p.key, p.value)])
      (fun q hq => hwf q (by simp [hq])) hnd.2
      (fun q hq => by
        rw [Params.has_append_single, hnew q (by simp [hq])]
        have : p.key ≠ q.key := fun e => hnd.1 (e ▸ List.mem_map_of_mem _ hq)
        simp [this])
      hB.right
    rw [hk] at this
    rw [hk, this]
    simp [Pair.entry]

/-- Well-formed pairs, each followed by a comma, either end in an error or leave the parser
in the key state. -/
theorem run_pairsComma_total (B : List Char) (l : List Pair) :
    ∀ (pos : Nat) (out : Params), (∀ p ∈ l, p.wellFormed) → At B pos (pairsComma l) →
      (∃ e, parseLoop B pos (pairsComma l) newParserStateParsingKey out =
          Except.error (Outcome.error e)) ∨
        ∃ out1, parseLoop B pos (pairsComma l) newParserStateParsingKey out =
          Except.ok (newParserStateParsingKey, out1) := by
  induction l with
  | nil => intro pos out _ _; exact Or.inr ⟨out, by simp [pairsComma, parseLoop]⟩
  | cons p l ih =>
    intro pos out hwf hB
    rw [pairsComma_cons] at hB ⊢
    have hp := hwf p (by simp)
    by_cases hh : Params.has out p.key = true
    · left
      refine ⟨ParseError.duplicatedKey p.key, ?_⟩
      rw [List.append_assoc]
      exact run_pair_duplicate B p hp pos 0 out _ hh hB.left.left
    · simp only [Bool.not_eq_true] at hh
      have hk : newParserStateParsingKey = parserStateParsingToken NextFn.parsingKey 0 false :=
        rfl
      rw [parseLoop_append, hk, run_pair_comma B p hp pos 0 out hh hB.left]
      exact ih _ _ (fun q hq => hwf q (by simp [hq])) (by
        have hasc : isAscii (p.text ++ [',']) := by
          intro c hc
          simp only [List.mem_append, List.mem_singleton] at hc
          rcases hc with hc | rfl
          · exact Pair.text_ascii hp c hc
          · decide
        rw [byteLen_ascii hasc]; exact hB.right)


/-! ## From the header to the loop -/

theorem trimLeft_spaces (n : Nat) (c : Char) (rest : GoString) (hc : c ≠ ' ') :
    trimLeft (List.replicate n ' ' ++ c :: rest) = c :: rest := by
  induction n with
  | zero => simp [trimLeft, List.dropWhile_cons, hc]
  | succ n ih =>
    simp only [trimLeft] at ih
    simp [trimLeft, List.replicate_succ, List.dropWhile_cons, ih]

theorem trimLeft_all_spaces (n : Nat) : trimLeft (List.replicate n ' ') = [] := by
  induction n with
  | zero => rfl
  | succ n ih =>
    simp only [trimLeft] at ih
    simp [trimLeft, List.replicate_succ, List.dropWhile_cons, ih]

theorem trimLeft_key (n : Nat) (key rest : GoString) (hk : isToken key) :
    trimLeft (List.replicate n ' ' ++ key ++ rest) = key ++ rest := by
  obtain ⟨hne, htok⟩ := hk
  cases key with
  | nil => exact absurd rfl hne
  | cons c tok =>
    have := (tokenChar_facts (htok c (by simp))).1
    rw [List.append_assoc, List.cons_append, trimLeft_spaces _ _ _ this]

theorem trimLeft_pair (p : Pair) (rest : GoString) (hk : isToken p.key) :
    trimLeft (p.text ++ rest) = p.trim.text ++ rest := by
  have h1 : p.text ++ rest = List.replicate p.spaces ' ' ++ p.key ++ ('=' :: p.valueText ++ rest) := by
    simp [Pair.text]
  have h2 : p.trim.text ++ rest = p.key ++ ('=' :: p.valueText ++ rest) := by
    simp [Pair.text, Pair.trim, Pair.valueText]
  rw [h1, h2, trimLeft_key _ _ _ hk]

theorem trimLeft_pairsComma (l : List Pair) (tail : GoString) (hl : l ≠ [])
    (hk : ∀ p ∈ l, isToken p.key) :
    trimLeft (pairsComma l ++ tail) = pairsComma (headTrim l) ++ tail := by
  cases l with
  | nil => exact absurd rfl hl
  | cons p l =>
    simp only [headTrim, pairsComma_cons, List.append_assoc]
    exact trimLeft_pair p _ (hk p (by simp))

theorem headTrim_entry (l : List Pair) : (headTrim l).map Pair.entry = l.map Pair.entry := by
  cases l <;> simp [headTrim, Pair.trim, Pair.entry]

theorem headTrim_key (l : List Pair) : (headTrim l).map Pair.key = l.map Pair.key := by
  cases l <;> simp [headTrim, Pair.trim]

theorem trim_wellFormed {p : Pair} (h : p.wellFormed) : p.trim.wellFormed := h

theorem headTrim_wellFormed {l : List Pair} (h : ∀ p ∈ l, p.wellFormed) :
    ∀ p ∈ headTrim l, p.wellFormed := by
  cases l with
  | nil => simp [headTrim]
  | cons q l =>
    intro p hp
    simp only [headTrim, List.mem_cons] at hp
    rcases hp with rfl | hp
    · exact trim_wellFormed (h q (by simp))
    · exact h p (by simp [hp])

theorem hasPrefix_digest (t : GoString) : hasPrefix (digestLit ++ t) digestLit = true :=
  (hasPrefix_iff _ _).2 ⟨t, rfl⟩

/-- A header with the scheme literal and of at most 512 bytes goes to the loop, with the
literal and the spaces after it cut off. -/
theorem parse_digest (spare : List Char) (t : GoString) (hlen : byteLen (digestLit ++ t) ≤ 512) :
    parseWWWAuthenticate spare (digestLit ++ t) =
      parseRunes (trimLeft t ++ spare) (trimLeft t) := by
  unfold parseWWWAuthenticate
  simp only [hasPrefix_digest, Bool.not_true, Bool.false_eq_true, false_or, gt_iff_lt,
    Nat.not_lt.2 hlen, if_false, trimPrefix_append]

theorem At.zero (a b : List Char) : At (a ++ b) 0 a := ⟨b, rfl⟩

theorem header_ascii {l : List Pair} (h : ∀ p ∈ l, p.wellFormed) : isAscii (header l) := by
  intro c hc
  simp only [header, List.mem_append] at hc
  rcases hc with hc | hc
  · revert c; decide
  · induction l with
    | nil => simp [pairsText] at hc
    | cons p l ih =>
      cases l with
      | nil => exact Pair.text_ascii (h p (by simp)) c (by simpa [pairsText] using hc)
      | cons q l =>
        simp only [pairsText, List.mem_append, List.mem_cons] at hc
        rcases hc with hc | rfl | hc
        · exact Pair.text_ascii (h p (by simp)) c hc
        · decide
        · exact ih (fun x hx => h x (by simp [hx])) hc

/-- The loop over the text of a non-empty list of well-formed pairs with distinct keys, the
last of which has a quoted value. -/
theorem parseRunes_pairs (spare : List Char) (init : List Pair) (last : Pair)
    (hwf : ∀ p ∈ init ++ [last], p.wellFormed)
    (hnd : ((init ++ [last]).map Pair.key).Nodup) (hq : last.bare = false) :
    parseRunes (pairsComma init ++ last.text ++ spare) (pairsComma init ++ last.text) =
      Outcome.ok ((init ++ [last]).map Pair.entry) := by
  have hB : At (pairsComma init ++ last.text ++ spare) 0 (pairsComma init ++ last.text) :=
    At.zero _ _
  have hk : newParserStateParsingKey = parserStateParsingToken NextFn.parsingKey 0 false := rfl
  have hwi : ∀ p ∈ init, p.wellFormed := fun p hp => hwf p (by simp [hp])
  simp only [List.map_append, List.map_cons, List.map_nil] at hnd
  have hnd2 := List.nodup_append.1 hnd
  unfold parseRunes
  rw [parseLoop_append, run_pairsComma _ init 0 [] hwi hnd2.1 (fun _ _ => rfl) hB.left]
  simp only [List.nil_append, byteLen_ascii (pairsComma_ascii hwi)]
  have hnew : Params.has (init.map Pair.entry) last.key = false := by
    rw [Bool.eq_false_iff, ne_eq, Params.has_entries]
    intro hmem
    exact hnd2.2.2 hmem (by simp)
  rw [hk, run_pair_quoted _ last (hwf last (by simp)) hq _ 0 _ hnew hB.right]
  simp only [finish, ne_eq, not_true_eq_false, if_false]
  rw [Params.set_new _ _ _ hnew]
  simp [Pair.entry]

/-- Round trip for the headers of the grammar: a non-empty list of well-formed pairs with
distinct keys, the last of them with a quoted value, in a header of at most 512 characters,
is parsed to the map of its pairs. -/
theorem parse_header (spare : List Char) (l : List Pair) (hne : l ≠ [])
    (hwf : ∀ p ∈ l, p.wellFormed) (hnd : (l.map Pair.key).Nodup)
    (hlast : lastBare l = false) (hlen : (header l).length ≤ 512) :
    parseWWWAuthenticate spare (header l) = Outcome.ok (l.map Pair.entry) := by
  have hlen2 : byteLen (header l) ≤ 512 := by rw [byteLen_ascii (header_ascii hwf)]; exact hlen
  rcases List.eq_nil_or_concat l with rfl | ⟨init, last, rfl⟩
  · exact absurd rfl hne
  · simp only [List.concat_eq_append] at *
    have hq : last.bare = false := by simpa [lastBare] using hlast
    unfold header at hlen2 ⊢
    rw [parse_digest spare _ hlen2, pairsText_append]
    cases init with
    | nil =>
      have e : pairsComma [] ++ pairsText [last] = last.text ++ [] := by
        simp [pairsComma, pairsText]
      rw [e, trimLeft_pair _ _ (hwf last (by simp)).1, List.append_nil]
      have := parseRunes_pairs spare [] last.trim
        (by intro p hp; simp only [List.nil_append, List.mem_singleton] at hp
            subst hp; exact trim_wellFormed (hwf last (by simp)))
        (by simp) hq
      simpa [pairsComma, Pair.entry, Pair.trim] using this
    | cons p init =>
      have e : pairsText [last] = last.text := rfl
      rw [e, trimLeft_pairsComma _ _ (by simp)
        (fun x hx => (hwf x (List.mem_append_left [last] hx)).1)]
      have := parseRunes_pairs spare (headTrim (p :: init)) last
        (by
          intro x hx
          simp only [List.mem_append, List.mem_singleton] at hx
          rcases hx with hx | rfl
          · exact headTrim_wellFormed (fun y hy => hwf y (List.mem_append_left [last] hy)) x hx
          · exact hwf x (by simp))
        (by rw [List.map_append, headTrim_key, ← List.map_append]; exact hnd) hq
      rw [this, List.map_append, headTrim_entry, ← List.map_append]


/-- A well-formed pair with a bare value and a new key, with nothing after it: the loop ends
inside the token, and the value is not committed. -/
theorem run_pair_bare_end (B : List Char) (p : Pair) (hp : p.wellFormed) (hb : p.bare = true)
    (pos s0 : Nat) (out : Params) (hnew : Params.has out p.key = false)
    (hB : At B pos p.text) :
    parseLoop B pos p.text (parserStateParsingToken NextFn.parsingKey s0 false) out =
      Except.ok (parserStateParsingToken (NextFn.commitValue p.key)
        (pos + (p.spaces + p.key.length + 1)) true, out) := by
  have hB1 : At B (pos + p.spaces) p.key := by
    have := hB
    rw [Pair.text, List.append_assoc] at this
    have h2 := this.right
    rw [List.length_replicate] at h2
    exact h2.left
  have hv : isToken p.value := by
    have := hp.2; simpa [hb] using this
  rw [Pair.text_eq, parseLoop_append, run_key B _ _ hp.1 _ _ _ hB1]
  simp only [hnew, Bool.false_eq_true, if_false, Pair.valueText, hb, if_true,
    byteLen_key_part hp]
  exact run_bare B _ _ hv _ _

/-- The loop over the text of a non-empty list of well-formed pairs with distinct keys, the
last of which has a bare value: the loop ends inside that token. -/
theorem parseRunes_pairs_bare (spare : List Char) (init : List Pair) (last : Pair)
    (hwf : ∀ p ∈ init ++ [last], p.wellFormed)
    (hnd : ((init ++ [last]).map Pair.key).Nodup) (hb : last.bare = true) :
    ∃ s, parseRunes (pairsComma init ++ last.text ++ spare) (pairsComma init ++ last.text) =
      Outcome.error (ParseError.invalidEndState
        (parserStateParsingToken (NextFn.commitValue last.key) s true)) := by
  have hB : At (pairsComma init ++ last.text ++ spare) 0 (pairsComma init ++ last.text) :=
    At.zero _ _
  have hk : newParserStateParsingKey = parserStateParsingToken NextFn.parsingKey 0 false := rfl
  have hwi : ∀ p ∈ init, p.wellFormed := fun p hp => hwf p (by simp [hp])
  simp only [List.map_append, List.map_cons, List.map_nil] at hnd
  have hnd2 := List.nodup_append.1 hnd
  have hnew : Params.has (init.map Pair.entry) last.key = false := by
    rw [Bool.eq_false_iff, ne_eq, Params.has_entries]
    intro hmem
    exact hnd2.2.2 hmem (by simp)
  refine ⟨0 + (pairsComma init).length + (last.spaces + last.key.length + 1), ?_⟩
  unfold parseRunes
  rw [parseLoop_append, run_pairsComma _ init 0 [] hwi hnd2.1 (fun _ _ => rfl) hB.left]
  simp only [List.nil_append, byteLen_ascii (pairsComma_ascii hwi)]
  rw [hk, run_pair_bare_end _ last (hwf last (by simp)) hb _ 0 _ hnew hB.right]
  simp only [finish]

/-- A header of the grammar whose last pair has a bare value is rejected: the input ends
inside the token, which is an invalid end state. -/
theorem parse_header_bare (spare : List Char) (init : List Pair) (last : Pair)
    (hwf : ∀ p ∈ init ++ [last], p.wellFormed)
    (hnd : ((init ++ [last]).map Pair.key).Nodup) (hb : last.bare = true)
    (hlen : (header (init ++ [last])).length ≤ 512) :
    ∃ s, parseWWWAuthenticate spare (header (init ++ [last])) =
      Outcome.error (ParseError.invalidEndState
        (parserStateParsingToken (NextFn.commitValue last.key) s true)) := by
  have hlen2 : byteLen (header (init ++ [last])) ≤ 512 := by
    rw [byteLen_ascii (header_ascii hwf)]; exact hlen
  unfold header at hlen2 ⊢
  rw [parse_digest spare _ hlen2, pairsText_append]
  cases init with
  | nil =>
    have e : pairsComma [] ++ pairsText [last] = last.text ++ [] := by
      simp [pairsComma, pairsText]
    rw [e, trimLeft_pair _ _ (hwf last (by simp)).1, List.append_nil]
    have := parseRunes_pairs_bare spare [] last.trim
      (by intro p hp; simp only [List.nil_append, List.mem_singleton] at hp
          subst hp; exact trim_wellFormed (hwf last (by simp)))
      (by simp) hb
    simpa [pairsComma, Pair.trim] using this
  | cons p init =>
    have e : pairsText [last] = last.text := rfl
    rw [e, trimLeft_pairsComma _ _ (by simp)
      (fun x hx => (hwf x (List.mem_append_left [last] hx)).1)]
    exact parseRunes_pairs_bare spare (headTrim (p :: init)) last
      (by
        intro x hx
        simp only [List.mem_append, List.mem_singleton] at hx
        rcases hx with hx | rfl
        · exact headTrim_wellFormed (fun y hy => hwf y (List.mem_append_left [last] hy)) x hx
        · exact hwf x (by simp))
      (by rw [List.map_append, headTrim_key, ← List.map_append]; exact hnd) hb

/-- A list with a repeated key splits at the first pair whose key stood before. -/
theorem first_duplicate (l : List Pair) (h : ¬ (l.map Pair.key).Nodup) :
    ∃ A x R, l = A ++ x :: R ∧ (A.map Pair.key).Nodup ∧ x.key ∈ A.map Pair.key := by
  induction l using List.reverseRecOn with
  | nil => simp at h
  | append_singleton l z ih =>
    by_cases hl : (l.map Pair.key).Nodup
    · refine ⟨l, z, [], rfl, hl, ?_⟩
      by_contra hz
      apply h
      rw [List.map_append, List.nodup_append]
      refine ⟨hl, by simp, ?_⟩
      intro a ha hb
      simp only [List.map_cons, List.map_nil, List.mem_singleton] at hb
      subst hb; exact hz ha
    · obtain ⟨A, x, R, rfl, hA, hx⟩ := ih hl
      exact ⟨A, x, R ++ [z], by simp, hA, hx⟩

/-- A header of the grammar with a repeated key is rejected. -/
theorem parse_header_duplicate (spare : List Char) (l : List Pair)
    (hwf : ∀ p ∈ l, p.wellFormed) (hdup : ¬ (l.map Pair.key).Nodup) :
    parseWWWAuthenticate spare (header l) = Outcome.error (ParseError.invalidHeader (header l)) ∨
      ∃ k ∈ l.map Pair.key,
        parseWWWAuthenticate spare (header l) = Outcome.error (ParseError.duplicatedKey k) := by
  by_cases hlen : byteLen (header l) ≤ 512
  · right
    obtain ⟨A, x, R, rfl, hA, hx⟩ := first_duplicate l hdup
    refine ⟨x.key, by simp, ?_⟩
    have hAne : A ≠ [] := by rintro rfl; simp at hx
    obtain ⟨tl, htl⟩ := pairsText_cons x R
    unfold header at hlen ⊢
    rw [parse_digest spare _ hlen, pairsText_append, htl,
      trimLeft_pairsComma _ _ hAne (fun y hy => (hwf y (by simp [hy])).1)]
    have hB : At (pairsComma (headTrim A) ++ (x.text ++ tl) ++ spare) 0
        (pairsComma (headTrim A) ++ (x.text ++ tl)) := At.zero _ _
    have hwA : ∀ p ∈ headTrim A, p.wellFormed :=
      headTrim_wellFormed (fun y hy => hwf y (by simp [hy]))
    have hk : newParserStateParsingKey = parserStateParsingToken NextFn.parsingKey 0 false :=
      rfl
    unfold parseRunes
    rw [parseLoop_append, run_pairsComma _ (headTrim A) 0 [] hwA
      (by rw [headTrim_key]; exact hA) (fun _ _ => rfl) hB.left]
    simp only [List.nil_append, byteLen_ascii (pairsComma_ascii hwA)]
    rw [hk, run_pair_duplicate _ x (hwf x (by simp)) _ 0 _ tl
      (by rw [headTrim_entry, Params.has_entries]; exact hx) hB.right.left]
  · left
    unfold parseWWWAuthenticate
    simp [Nat.lt_of_not_le hlen]


/-! ## The state at the end of the input -/

/-- Without a double quote the parser never leaves an open quoted value. -/
theorem parseLoop_in_quote (B : List Char) (N : NextFn) (out : Params) (v : GoString)
    (hv : '"' ∉ v) :
    ∀ pos esc buf, ∃ esc1 buf1,
      parseLoop B pos v (parserStateParsingQuotedValue true esc buf N) out =
        Except.ok (parserStateParsingQuotedValue true esc1 buf1 N, out) := by
  induction v with
  | nil => intro pos esc buf; exact ⟨esc, buf, rfl⟩
  | cons c v ih =>
    intro pos esc buf
    have hc : c ≠ '"' := fun h => hv (by simp [h])
    have hv2 : '"' ∉ v := fun h => hv (by simp [h])
    simp only [parseLoop]
    cases esc
    · by_cases h1 : c = '\\'
      · have : step B pos c (parserStateParsingQuotedValue true false buf N) out =
            Step.next (parserStateParsingQuotedValue true true buf N) out := by
          simp [step, again, h1]
        rw [this]; exact ih hv2 _ _ _
      · have : step B pos c (parserStateParsingQuotedValue true false buf N) out =
            Step.next (parserStateParsingQuotedValue true false (buf ++ [c]) N) out := by
          simp [step, again, h1, hc]
        rw [this]; exact ih hv2 _ _ _
    · have : step B pos c (parserStateParsingQuotedValue true true buf N) out =
          Step.next (parserStateParsingQuotedValue true false (buf ++ [c]) N) out := by
        simp [step, again]
      rw [this]; exact ih hv2 _ _ _

theorem finish_ok {ps : parserState} {out m : Params} (h : finish ps out = Outcome.ok m) :
    (∃ nx, ps = parserStateParsingDelimiter ',' nx) ∧ m = out := by
  cases ps with
  | parserStateParsingDelimiter d nx =>
    simp only [finish] at h
    by_cases hd : d = ','
    · subst hd
      simp only [ne_eq, not_true_eq_false, if_false, Outcome.ok.injEq] at h
      exact ⟨⟨nx, rfl⟩, h.symm⟩
    · simp [hd] at h
  | parserStateParsingToken N s ok => simp [finish] at h
  | parserStateBranch iw k => simp [finish] at h
  | parserStateParsingQuotedValue ok e b N => simp [finish] at h

/-- A pass of the loop body that ends in the state that waits for `,`: the state was that
state already and the character is a space, or the character commits a value. -/
theorem step_to_comma_state (B : List Char) (pos : Nat) (c : Char) (ps : parserState)
    (out : Params) (nx : parserState) (out1 : Params) (hw : ps.wf)
    (h : step B pos c ps out = Step.next (parserStateParsingDelimiter ',' nx) out1) :
    (ps = parserStateParsingDelimiter ',' nx ∧ c = ' ' ∧ out1 = out) ∨
      ∃ key val, Commits B pos c ps key val ∧ out1 = Params.set out key val := by
  unfold step at h
  cases ps with
  | parserStateParsingToken N s ok =>
    simp only [again] at h
    by_cases h1 : ok = false ∧ c = ' '
    · simp [h1] at h
    · by_cases h2 : c.toNat < 32 ∨ isRfc2616Separator c = true
      · simp only [h1, h2, if_false, if_true] at h
        by_cases h3 : (if ok = true then s else pos) = pos
        · simp [h3] at h
        · simp only [h3, if_false] at h
          cases hs : sliceRunes B (if ok = true then s else pos) pos with
          | none => simp [hs] at h
          | some value =>
            simp only [hs] at h
            cases N with
            | parsingKey =>
              by_cases hh : Params.has out value = true
              · simp [NextFn.call, hh] at h
              · simp only [NextFn.call, hh, if_false] at h
                by_cases hc1 : c = ' '
                · simp [hc1, again] at h
                · by_cases hc2 : c = '='
                  · simp [hc2, again] at h
                  · simp [hc1, hc2, again] at h
            | commitValue key =>
              simp only [NextFn.call] at h
              by_cases hc1 : c = ' '
              · have hok : ok = true := by
                  cases ok
                  · exact absurd ⟨rfl, hc1⟩ h1
                  · rfl
                subst hok
                simp [hc1, again] at h
                right
                refine ⟨key, value, Or.inl ⟨s, rfl, hc1, ?_⟩, h.2.symm⟩
                simpa using hs
              · by_cases hc2 : c = ','
                · subst hc2
                  simp [newParserStateParsingKey, again] at h
                · simp [hc1, hc2, again] at h
      · simp [h1, h2] at h
  | parserStateParsingDelimiter d n1 =>
    simp only [again] at h
    by_cases hc1 : c = ' '
    · simp only [hc1, if_true, Step.next.injEq, parserStateParsingDelimiter.injEq] at h
      obtain ⟨⟨rfl, rfl⟩, rfl⟩ := h
      exact Or.inl ⟨rfl, hc1, rfl⟩
    · by_cases hc2 : c = d
      · subst hc2
        simp only [hc1, if_false, ne_eq, not_true_eq_false, Step.next.injEq] at h
        rcases hw with ⟨-, hn⟩ | ⟨-, key, hn⟩
        · rw [hn] at h; simp [newParserStateParsingKey] at h
        · rw [hn] at h; simp at h
      · simp [hc1, hc2] at h
  | parserStateBranch iw key =>
    simp only [again] at h
    by_cases h1 : iw = true ∧ c = ' '
    · simp [h1] at h
    · simp only [h1, if_false] at h
      unfold branchNext at h
      by_cases h2 : c = '"'
      · simp [h2, again] at h
      · simp only [h2, if_false] at h
        by_cases h3 : isRfc2616Separator c = true
        · simp [h3] at h
        · have hsp : c ≠ ' ' := by
            intro h; subst h; exact h3 (by decide)
          simp only [Bool.not_eq_true] at h3
          simp only [h3, Bool.not_false, if_true, again, hsp, and_false, if_false,
            Bool.false_eq_true, or_false] at h
          by_cases h4 : c.toNat < 32 <;> simp [h4] at h
  | parserStateParsingQuotedValue ok esc buf N =>
    simp only [again] at h
    cases ok
    · by_cases h0 : c = '"' <;> simp [h0] at h
    · cases esc
      · by_cases h1 : c = '\\'
        · simp [h1] at h
        · by_cases h2 : c = '"'
          · cases N with
            | parsingKey =>
              by_cases hh : Params.has out buf = true <;> simp [h2, NextFn.call, hh] at h
            | commitValue key =>
              simp only [h2, NextFn.call] at h
              simp at h
              right
              exact ⟨key, buf, Or.inr ⟨rfl, h2⟩, h.2.symm⟩
          · simp [h1, h2] at h
      · simp at h

/-- When the loop that starts in the key state ends in the state that waits for `,`, the
text ends right after a committed value, which may be followed by spaces. -/
theorem parseLoop_ends_after_commit (B : List Char) (raw : List Char) :
    ∀ (nx : parserState) (out : Params),
      parseLoop B 0 raw newParserStateParsingKey [] =
        Except.ok (parserStateParsingDelimiter ',' nx, out) →
      EndsAfterCommit B raw out := by
  induction raw using List.reverseRecOn with
  | nil =>
    intro nx out h
    simp [parseLoop, newParserStateParsingKey] at h
  | append_singleton raw c ih =>
    intro nx out h
    rw [parseLoop_append] at h
    cases h1 : parseLoop B 0 raw newParserStateParsingKey [] with
    | error o => simp [h1] at h
    | ok r =>
      obtain ⟨ps1, out1⟩ := r
      have hw : ps1.wf := parseLoop_wf _ _ _ _ _ _ _ (by trivial) h1
      simp only [h1, parseLoop, Nat.zero_add] at h
      cases hs : step B (byteLen raw) c ps1 out1 with
      | next ps2 out2 =>
        simp only [hs, Except.ok.injEq, Prod.mk.injEq] at h
        obtain ⟨rfl, rfl⟩ := h
        rcases step_to_comma_state _ _ _ _ _ _ _ hw hs with ⟨rfl, rfl, rfl⟩ | ⟨key, val, hc, rfl⟩
        · obtain ⟨pre, c1, n, ps0, out0, key, val, rfl, hp, hc, rfl⟩ := ih _ _ h1
          refine ⟨pre, c1, n + 1, ps0, out0, key, val, ?_, hp, hc, rfl⟩
          simp [List.replicate_succ']
        · exact ⟨raw, c, 0, ps1, out1, key, val, by simp, h1, hc, rfl⟩
      | parserFail ps2 => simp [hs] at h
      | ret e => simp [hs] at h
      | panic => simp [hs] at h
      | jumps => simp [hs] at h

/-- Only-if part of the end-of-input rule: a header that is parsed to a map ends right after
a committed value, which may be followed by spaces. -/
theorem parse_ok_ends_after_commit (spare : List Char) (h : GoString) (out : Params)
    (hok : parseWWWAuthenticate spare h = Outcome.ok out) :
    EndsAfterCommit (trimLeft (trimPrefix h digestLit) ++ spare)
      (trimLeft (trimPrefix h digestLit)) out := by
  unfold parseWWWAuthenticate at hok
  split at hok
  · cases hok
  · simp only [parseRunes] at hok
    cases h1 : parseLoop (trimLeft (trimPrefix h digestLit) ++ spare) 0
        (trimLeft (trimPrefix h digestLit)) newParserStateParsingKey [] with
    | error o =>
      rw [h1] at hok
      exact absurd hok (parseLoop_error_ne_ok _ _ _ _ _ _ _ h1)
    | ok r =>
      obtain ⟨ps1, out1⟩ := r
      rw [h1] at hok
      obtain ⟨⟨nx, rfl⟩, rfl⟩ := finish_ok hok
      exact parseLoop_ends_after_commit _ _ _ _ h1


/-- The scheme literal followed only by spaces is rejected: too long, or no pair at all. -/
theorem parse_digest_spaces (spare : List Char) (n : Nat) :
    parseWWWAuthenticate spare (digestLit ++ List.replicate n ' ') =
      if 506 < n then
        Outcome.error (ParseError.invalidHeader (digestLit ++ List.replicate n ' '))
      else Outcome.error (ParseError.invalidEndState newParserStateParsingKey) := by
  have hl : byteLen (digestLit ++ List.replicate n ' ') = 6 + n := by
    rw [byteLen_append, byteLen_spaces]; rfl
  by_cases hn : 506 < n
  · simp only [hn, if_true]
    unfold parseWWWAuthenticate
    have : byteLen (digestLit ++ List.replicate n ' ') > 512 := by omega
    simp [this]
  · simp only [hn, if_false]
    rw [parse_digest spare _ (by omega), trimLeft_all_spaces]
    rfl

/-- An input without the scheme literal, or of more than 512 bytes, is rejected before the
loop. -/
theorem parse_precondition (spare : List Char) (h : GoString)
    (hpre : hasPrefix h digestLit = false ∨ 512 < byteLen h) :
    parseWWWAuthenticate spare h = Outcome.error (ParseError.invalidHeader h) := by
  unfold parseWWWAuthenticate
  rcases hpre with hp | hl
  · simp [hp]
  · simp [hl]

theorem finish_in_quote (B : List Char) (N : NextFn) (out : Params) (v : GoString)
    (hv : '"' ∉ v) (pos : Nat) (esc : Bool) (buf : GoString) :
    ∃ e, (match parseLoop B pos v (parserStateParsingQuotedValue true esc buf N) out with
      | Except.ok (ps, out) => finish ps out
      | Except.error o => o) = Outcome.error e := by
  obtain ⟨esc1, buf1, hq⟩ := parseLoop_in_quote B N out v hv pos esc buf
  rw [hq]
  exact ⟨_, rfl⟩

/-- A quoted value that is never closed, after any number of well-formed pairs, is
rejected. -/
theorem parse_unterminated_quote (spare : List Char) (l : List Pair) (n : Nat)
    (k v : GoString) (hwf : ∀ p ∈ l, p.wellFormed) (hk : isToken k) (hv : '"' ∉ v) :
    ∃ e, parseWWWAuthenticate spare
      (digestLit ++ pairsComma l ++ List.replicate n ' ' ++ k ++ ['=', '"'] ++ v) =
        Outcome.error e := by
  by_cases hlen : byteLen
      (digestLit ++ pairsComma l ++ List.replicate n ' ' ++ k ++ ['=', '"'] ++ v) ≤ 512
  · have hform : ∃ l1 n1, (∀ p ∈ l1, p.wellFormed) ∧
        trimLeft (pairsComma l ++ (List.replicate n ' ' ++ k ++ (['='] ++ '"' :: v))) =
          pairsComma l1 ++ ((List.replicate n1 ' ' ++ k ++ ['=']) ++ '"' :: v) := by
      cases l with
      | nil =>
        refine ⟨[], 0, by simp, ?_⟩
        simp only [pairsComma, List.flatMap_nil, List.nil_append, List.replicate_zero]
        rw [trimLeft_key _ _ _ hk]
        simp
      | cons p l =>
        refine ⟨headTrim (p :: l), n, headTrim_wellFormed hwf, ?_⟩
        rw [trimLeft_pairsComma _ _ (by simp) (fun x hx => (hwf x hx).1)]
        simp
    obtain ⟨l1, n1, hwf1, hraw⟩ := hform
    have e1 : digestLit ++ pairsComma l ++ List.replicate n ' ' ++ k ++ ['=', '"'] ++ v =
        digestLit ++ (pairsComma l ++ (List.replicate n ' ' ++ k ++ (['='] ++ '"' :: v))) := by
      simp
    rw [e1] at hlen ⊢
    rw [parse_digest spare _ hlen, hraw]
    have hB : At (pairsComma l1 ++ ((List.replicate n1 ' ' ++ k ++ ['=']) ++ '"' :: v) ++ spare) 0
        (pairsComma l1 ++ ((List.replicate n1 ' ' ++ k ++ ['=']) ++ '"' :: v)) := At.zero _ _
    generalize pairsComma l1 ++ ((List.replicate n1 ' ' ++ k ++ ['=']) ++ '"' :: v) ++ spare = B
      at hB ⊢
    have hk0 : newParserStateParsingKey = parserStateParsingToken NextFn.parsingKey 0 false :=
      rfl
    unfold parseRunes
    rw [parseLoop_append]
    rcases run_pairsComma_total _ l1 0 [] hwf1 hB.left with ⟨e, he⟩ | ⟨out1, ho⟩
    · rw [he]; exact ⟨e, rfl⟩
    · rw [ho]
      simp only [byteLen_ascii (pairsComma_ascii hwf1)]
      have hB2 : At B (0 + (pairsComma l1).length + n1) k := by
        have h2 := hB.right.left.left.right
        rw [List.length_replicate] at h2
        exact h2
      rw [parseLoop_append, hk0, run_key _ n1 k hk _ 0 out1 hB2]
      by_cases hh : Params.has out1 k = true
      · simp only [hh, if_true]; exact ⟨_, rfl⟩
      · simp only [hh, if_false, parseLoop, step_branch_quote]
        exact finish_in_quote _ _ _ _ hv _ _ _
  · exact ⟨_, parse_precondition spare _ (Or.inr (Nat.lt_of_not_le hlen))⟩


/-! ## The precondition error -/

theorem call_error (N : NextFn) (out : Params) (v : GoString) (e : ParseError)
    (h : NextFn.call N out v = Except.error e) : ∃ k, e = ParseError.duplicatedKey k := by
  cases N with
  | parsingKey =>
    simp only [NextFn.call] at h
    split at h
    · cases h; exact ⟨_, rfl⟩
    · cases h
  | commitValue key => simp [NextFn.call] at h

theorem again_one_ret (B : List Char) (pos : Nat) (c : Char) (ps : parserState) (out : Params)
    (e : ParseError) (hd : (∃ d nx, ps = parserStateParsingDelimiter d nx) ∨
      ∃ ok esc buf N, ps = parserStateParsingQuotedValue ok esc buf N)
    (h : again B pos c 1 ps out = Step.ret e) : ∃ k, e = ParseError.duplicatedKey k := by
  rcases hd with ⟨d, nx, rfl⟩ | ⟨ok, esc, buf, N, rfl⟩
  · simp only [again] at h
    by_cases h1 : c = ' '
    · simp [h1] at h
    · by_cases h2 : c = d
      · subst h2; simp [h1] at h
      · simp [h1, h2] at h
  · simp only [again] at h
    cases ok
    · by_cases h0 : c = '"' <;> simp [h0] at h
    cases esc <;> simp at h
    by_cases h1 : c = '\\'
    · simp [h1] at h
    · by_cases h2 : c = '"'
      · rw [if_neg h1, if_pos h2] at h
        cases hc : NextFn.call N out buf with
        | error e1 =>
          simp only [hc, Step.ret.injEq] at h
          subst h
          exact call_error _ _ _ _ hc
        | ok r => simp [hc] at h
      · simp [h1, h2] at h

/-- The only error that the loop body returns itself is the one of a duplicated key. -/
theorem step_ret (B : List Char) (pos : Nat) (c : Char) (ps : parserState) (out : Params)
    (e : ParseError) (h : step B pos c ps out = Step.ret e) :
    ∃ k, e = ParseError.duplicatedKey k := by
  unfold step at h
  cases ps with
  | parserStateParsingToken N s ok =>
    simp only [again] at h
    by_cases h1 : ok = false ∧ c = ' '
    · simp [h1] at h
    · by_cases h2 : c.toNat < 32 ∨ isRfc2616Separator c = true
      · simp only [h1, h2, if_false, if_true] at h
        by_cases h3 : (if ok = true then s else pos) = pos
        · simp [h3] at h
        · simp only [h3, if_false] at h
          cases hs : sliceRunes B (if ok = true then s else pos) pos with
          | none => simp [hs] at h
          | some value =>
            simp only [hs] at h
            cases hc : NextFn.call N out value with
            | error e1 =>
              simp only [hc, Step.ret.injEq] at h
              subst h
              exact call_error _ _ _ _ hc
            | ok r =>
              obtain ⟨ps2, out2⟩ := r
              simp only [hc] at h
              obtain ⟨d, nx, rfl, -⟩ := call_wf _ _ _ _ _ hc
              exact again_one_ret _ _ _ _ _ _ (Or.inl ⟨d, nx, rfl⟩) h
      · simp [h1, h2] at h
  | parserStateParsingDelimiter d nx =>
    exact again_one_ret _ _ _ _ _ _ (Or.inl ⟨d, nx, rfl⟩)
      (((again_delimiter_fuel B pos c 1 d nx out).1).symm.trans h)
  | parserStateBranch iw key =>
    simp only [again] at h
    by_cases h1 : iw = true ∧ c = ' '
    · simp [h1] at h
    · simp only [h1, if_false] at h
      unfold branchNext at h
      by_cases h2 : c = '"'
      · simp only [h2, if_true] at h
        exact again_one_ret _ _ _ _ _ _ (Or.inr ⟨_, _, _, _, rfl⟩) h
      · simp only [h2, if_false] at h
        by_cases h3 : isRfc2616Separator c = true
        · simp [h3] at h
        · simp only [Bool.not_eq_true] at h3
          have hsp : c ≠ ' ' := by
            intro h; subst h; exact absurd h3 (by decide)
          simp only [h3, Bool.not_false, if_true, again, hsp, and_false, if_false,
            Bool.false_eq_true, or_false] at h
          by_cases h4 : c.toNat < 32
          · simp [h4] at h
          · simp [h4] at h
  | parserStateParsingQuotedValue ok esc buf N =>
    exact again_one_ret _ _ _ _ _ _ (Or.inr ⟨ok, esc, buf, N, rfl⟩)
      (((again_quoted_fuel B pos c 1 ok esc buf N out).1).symm.trans h)

/-- The loop never leaves the function with the error of the precondition. -/
theorem parseLoop_not_invalidHeader (B : List Char) (xs : List Char) :
    ∀ (pos : Nat) (ps : parserState) (out : Params) (h : GoString),
      parseLoop B pos xs ps out ≠ Except.error (Outcome.error (ParseError.invalidHeader h)) := by
  induction xs with
  | nil => intro pos ps out h; simp [parseLoop]
  | cons c xs ih =>
    intro pos ps out h hx
    simp only [parseLoop] at hx
    cases hs : step B pos c ps out with
    | next ps1 out1 =>
      rw [hs] at hx
      exact ih _ _ _ _ hx
    | parserFail p => rw [hs] at hx; cases hx
    | ret e =>
      rw [hs] at hx
      obtain ⟨k, rfl⟩ := step_ret _ _ _ _ _ _ hs
      cases hx
    | panic => rw [hs] at hx; cases hx
    | jumps => rw [hs] at hx; cases hx

/-- The precondition error is returned exactly for the inputs that do not begin with
`Digest` or that are longer than 512 bytes. -/
theorem invalidHeader_iff (spare : List Char) (h h1 : GoString) :
    parseWWWAuthenticate spare h = Outcome.error (ParseError.invalidHeader h1) ↔
      (hasPrefix h digestLit = false ∨ 512 < byteLen h) ∧ h1 = h := by
  constructor
  · intro hx
    unfold parseWWWAuthenticate at hx
    by_cases hp : (!hasPrefix h digestLit) = true ∨ byteLen h > 512
    · rw [if_pos hp] at hx
      simp only [Outcome.error.injEq, ParseError.invalidHeader.injEq] at hx
      refine ⟨?_, hx.symm⟩
      rcases hp with hp | hp
      · exact Or.inl (by simpa using hp)
      · exact Or.inr hp
    · rw [if_neg hp] at hx
      simp only [] at hx
      unfold parseRunes at hx
      cases hl : parseLoop (trimLeft (trimPrefix h digestLit) ++ spare) 0
          (trimLeft (trimPrefix h digestLit)) newParserStateParsingKey [] with
      | error o =>
        rw [hl] at hx
        simp only [] at hx
        subst hx
        exact absurd hl (parseLoop_not_invalidHeader _ _ _ _ _ _)
      | ok r =>
        obtain ⟨ps1, out1⟩ := r
        rw [hl] at hx
        simp only [] at hx
        unfold finish at hx
        split at hx
        · split at hx <;> cases hx
        · cases hx
  · rintro ⟨hp, rfl⟩
    exact parse_precondition spare h1 hp

/-! ## The claims about the parser -/

/-- C1 (parser round trip): for every non-empty list of pairs with pairwise distinct keys,
each key a non-empty token, each value an ASCII string written as a quoted string with every
`"` and `\` escaped, or written bare when it is a non-empty token and the pair is followed by
a comma, serialised as `Digest k1=<v1>, k2=<v2>, ...` (with any number of spaces, one for
example, before each key) in at most 512 characters, `parseWWWAuthenticate` succeeds and
returns exactly the mapping of the pairs. -/
theorem parser_round_trip (spare : List Char) (l : List Pair) (hne : l ≠ [])
    (hwf : ∀ p ∈ l, p.wellFormed) (hnd : (l.map Pair.key).Nodup)
    (hlast : lastBare l = false) (hlen : (header l).length ≤ 512) :
    parseWWWAuthenticate spare (header l) = Outcome.ok (l.map Pair.entry) :=
  parse_header spare l hne hwf hnd hlast hlen

/-- Witness of C1: the headers of `TestDigestAuthParser_Unquoted` and
`TestDigestAuthParser_Evil`. -/
theorem parser_round_trip_witness :
    (header [⟨1, "token".data, "value".data, false⟩, ⟨1, "hello".data, "world".data, true⟩,
        ⟨1, "nonce".data, "nonce".data, false⟩] =
      "Digest token=\"value\", hello=world, nonce=\"nonce\"".data ∧
     parseWWWAuthenticate []
        (header [⟨1, "token".data, "value".data, false⟩, ⟨1, "hello".data, "world".data, true⟩,
          ⟨1, "nonce".data, "nonce".data, false⟩]) =
      Outcome.ok [("token".data, "value".data), ("hello".data, "world".data),
        ("nonce".data, "nonce".data)]) ∧
    (header [⟨1, "token".data, "value1\",\"value2\"".data, false⟩,
        ⟨1, "hello".data, ",,world\"".data, false⟩] =
      "Digest token=\"value1\\\",\\\"value2\\\"\", hello=\",,world\\\"\"".data ∧
     parseWWWAuthenticate []
        (header [⟨1, "token".data, "value1\",\"value2\"".data, false⟩,
          ⟨1, "hello".data, ",,world\"".data, false⟩]) =
      Outcome.ok [("token".data, "value1\",\"value2\"".data),
        ("hello".data, ",,world\"".data)]) :=
  ⟨⟨by decide, parser_round_trip [] _ (by decide) (by decide) (by decide) (by decide)
      (by decide)⟩,
   ⟨by decide, parser_round_trip [] _ (by decide) (by decide) (by decide) (by decide)
      (by decide)⟩⟩

theorem parseLoop_kept (B : List Char) (N : NextFn) (s : Nat) (out : Params)
    (tok : List Char) (ht : ∀ c ∈ tok, ¬ c.toNat < 32 ∧ isRfc2616Separator c = false) :
    ∀ pos, parseLoop B pos tok (parserStateParsingToken N s true) out =
      Except.ok (parserStateParsingToken N s true, out) := by
  induction tok with
  | nil => intro pos; rfl
  | cons c tok ih =>
    intro pos
    have h1 : step B pos c (parserStateParsingToken N s true) out =
        Step.next (parserStateParsingToken N s true) out := by
      simp [step, again, (ht c (by simp)).1, (ht c (by simp)).2]
    simp only [parseLoop, h1]
    exact ih (fun x hx => ht x (by simp [hx])) _

/-- A first key that ends at a byte offset beyond the capacity of the rune slice: the slice
expression panics. -/
theorem parseLoop_key_out_of_range (B : List Char) (c : Char) (tok rest : List Char)
    (hc : ¬ c.toNat < 32 ∧ isRfc2616Separator c = false)
    (ht : ∀ x ∈ tok, ¬ x.toNat < 32 ∧ isRfc2616Separator x = false)
    (hB : B.length < runeLen c + byteLen tok) :
    parseLoop B 0 (c :: (tok ++ '=' :: rest)) newParserStateParsingKey [] =
      Except.error Outcome.panic := by
  have hsp : c ≠ ' ' := by
    rintro rfl; exact absurd hc.2 (by decide)
  have hstart : step B 0 c newParserStateParsingKey [] =
      Step.next (parserStateParsingToken NextFn.parsingKey 0 true) [] := by
    simp [step, again, newParserStateParsingKey, hc.1, hc.2, hsp]
  have hpos : 0 < runeLen c := by unfold runeLen; split_ifs <;> omega
  have hslice : sliceRunes B 0 (runeLen c + byteLen tok) = none := by
    simp only [sliceRunes]
    rw [if_neg]
    omega
  have hstop : step B (runeLen c + byteLen tok) '='
      (parserStateParsingToken NextFn.parsingKey 0 true) [] = Step.panic := by
    have h2 : isRfc2616Separator '=' = true := by decide
    have h3 : ¬ (0 = runeLen c + byteLen tok) := by omega
    simp [step, again, h2, hslice, h3]
  simp only [parseLoop, hstart, Nat.zero_add]
  rw [parseLoop_append, parseLoop_kept _ _ _ _ _ ht]
  simp only [parseLoop, hstop]

/-- C4 (totality on hostile input), refuted: on the header `Digest `, 100 times `é`, `=x`
the token ends at byte offset 200 of a text of 102 characters, and the slice
`rawParamsRunes[0:200]` is out of range: the call panics, for every spare capacity of the
rune slice below 98. -/
theorem hostile_input_panics (spare : List Char) (hspare : spare.length < 98) :
    parseWWWAuthenticate spare
        (digestLit ++ (' ' :: ('é' :: (List.replicate 99 'é' ++ ['=', 'x'])))) =
      Outcome.panic := by
  have hb99 : byteLen (List.replicate 99 'é') = 198 := by decide
  have hlen : byteLen (digestLit ++ (' ' :: ('é' :: (List.replicate 99 'é' ++ ['=', 'x']))))
      ≤ 512 := by
    rw [byteLen_append, show ' ' :: ('é' :: (List.replicate 99 'é' ++ ['=', 'x'])) =
      [' ', 'é'] ++ (List.replicate 99 'é' ++ ['=', 'x']) from rfl, byteLen_append,
      byteLen_append, hb99]
    decide
  rw [parse_digest spare _ hlen]
  have hraw : trimLeft (' ' :: ('é' :: (List.replicate 99 'é' ++ ['=', 'x']))) =
      'é' :: (List.replicate 99 'é' ++ ['=', 'x']) :=
    trimLeft_spaces 1 'é' (List.replicate 99 'é' ++ ['=', 'x']) (by decide)
  rw [hraw]
  unfold parseRunes
  rw [parseLoop_key_out_of_range _ 'é' (List.replicate 99 'é') ['x'] (by decide)
    (by intro c hc; rw [List.eq_of_mem_replicate hc]; decide)
    (by rw [hb99]
        simp only [List.length_append, List.length_cons, List.length_replicate,
          List.length_nil]
        have : runeLen 'é' = 2 := by decide
        omega)]

/-- Witness of C4 with no spare capacity. -/
theorem hostile_input_panics_witness :
    parseWWWAuthenticate []
        (digestLit ++ (' ' :: ('é' :: (List.replicate 99 'é' ++ ['=', 'x'])))) =
      Outcome.panic :=
  hostile_input_panics [] (by decide)

/-- C5 (a bare token as the last value), refuted: every header of the grammar with distinct
keys whose last pair has a bare-token value is rejected, because the input ends inside the
token and the value is never committed; so are `Digest a=b` and
`Digest realm="x", algorithm=MD5`. -/
theorem bare_final_value_rejected (spare : List Char) (init : List Pair) (last : Pair)
    (hwf : ∀ p ∈ init ++ [last], p.wellFormed)
    (hnd : ((init ++ [last]).map Pair.key).Nodup) (hb : last.bare = true)
    (hlen : (header (init ++ [last])).length ≤ 512) :
    ∃ s, parseWWWAuthenticate spare (header (init ++ [last])) =
      Outcome.error (ParseError.invalidEndState
        (parserStateParsingToken (NextFn.commitValue last.key) s true)) :=
  parse_header_bare spare init last hwf hnd hb hlen

/-- Witness of C5: the two headers named in the claim. -/
theorem bare_final_value_rejected_witness :
    (header ([] ++ [⟨1, "a".data, "b".data, true⟩]) = "Digest a=b".data ∧
      ∃ s, parseWWWAuthenticate [] (header ([] ++ [⟨1, "a".data, "b".data, true⟩])) =
        Outcome.error (ParseError.invalidEndState
          (parserStateParsingToken (NextFn.commitValue "a".data) s true))) ∧
    (header ([⟨1, "realm".data, "x".data, false⟩] ++ [⟨1, "algorithm".data, "MD5".data, true⟩]) =
        "Digest realm=\"x\", algorithm=MD5".data ∧
      ∃ s, parseWWWAuthenticate []
          (header ([⟨1, "realm".data, "x".data, false⟩] ++
            [⟨1, "algorithm".data, "MD5".data, true⟩])) =
        Outcome.error (ParseError.invalidEndState
          (parserStateParsingToken (NextFn.commitValue "algorithm".data) s true))) :=
  ⟨⟨by decide, bare_final_value_rejected [] [] _ (by decide) (by decide) (by decide)
      (by decide)⟩,
   ⟨by decide, bare_final_value_rejected [] _ _ (by decide) (by decide) (by decide)
      (by decide)⟩⟩

/-- The header `Digest a="1", b=2, a="3"`, with a repeated key and ASCII values, is
rejected. -/
theorem duplicate_key_ascii_example :
    header [⟨1, "a".data, "1".data, false⟩, ⟨1, "b".data, "2".data, true⟩,
        ⟨1, "a".data, "3".data, false⟩] = "Digest a=\"1\", b=2, a=\"3\"".data ∧
    parseWWWAuthenticate [] (header [⟨1, "a".data, "1".data, false⟩,
        ⟨1, "b".data, "2".data, true⟩, ⟨1, "a".data, "3".data, false⟩]) =
      Outcome.error (ParseError.duplicatedKey "a".data) :=
  ⟨by decide, by decide⟩

/-- C6 (duplicate keys are rejected), refuted at `Digest nonce="é", nonce="2"`: the key
`nonce` stands twice, but after the two-byte character `é` the second key is cut one
character to the right, as `once=`, which is not in the map; the duplicate is not seen and the
call returns a map, whatever the spare capacity of the slice. For the headers whose quoted
values are ASCII the claim holds (`parse_header_duplicate`). -/
theorem duplicate_key_missed (spare : List Char) :
    parseWWWAuthenticate spare "Digest nonce=\"é\", nonce=\"2\"".data =
      Outcome.ok [("nonce".data, "é".data), ("once=".data, "2".data)] := by
  rfl


theorem parse_digest_spaces_error (spare : List Char) (n : Nat) :
    ∃ e, parseWWWAuthenticate spare (digestLit ++ List.replicate n ' ') = Outcome.error e := by
  rw [parse_digest_spaces]
  split <;> exact ⟨_, rfl⟩

/-- The input `Digest a="b"` followed by two spaces ends after a committed value, and
`Digest token="", hello="world` is rejected. -/
theorem end_of_input_ascii_example :
    EndsAfterCommit (trimLeft (trimPrefix "Digest a=\"b\"  ".data digestLit) ++ [])
        (trimLeft (trimPrefix "Digest a=\"b\"  ".data digestLit)) [("a".data, "b".data)] ∧
    (digestLit ++ pairsComma [⟨1, "token".data, [], false⟩] ++ List.replicate 1 ' ' ++
        "hello".data ++ ['=', '"'] ++ "world".data =
      "Digest token=\"\", hello=\"world".data ∧
     ∃ e, parseWWWAuthenticate []
        (digestLit ++ pairsComma [⟨1, "token".data, [], false⟩] ++ List.replicate 1 ' ' ++
          "hello".data ++ ['=', '"'] ++ "world".data) = Outcome.error e) :=
  ⟨parse_ok_ends_after_commit [] _ _ (by decide),
   by decide,
   parse_unterminated_quote [] _ 1 _ _ (by decide) (by decide) (by decide)⟩

/-- A key that ends at a byte offset beyond the capacity of the rune slice, after pairs that
have been read: the slice expression panics. -/
theorem step_key_out_of_range (B : List Char) (pos s : Nat) (out : Params)
    (hs : s ≠ pos) (hB : B.length < pos) :
    step B pos '=' (parserStateParsingToken NextFn.parsingKey s true) out = Step.panic := by
  have h2 : isRfc2616Separator '=' = true := by decide
  have hslice : sliceRunes B s pos = none := by
    simp only [sliceRunes]
    rw [if_neg]
    omega
  simp [step, again, h2, hslice, hs]

/-- C8 (valid end-of-input state), refuted at `Digest a="é…é", k="v` with 100 times `é`:
the quoted value of `k` is never closed, but the call does not return an error: the key `k`
ends at byte offset 207 of a text of 110 characters, the slice `rawParamsRunes[206:207]` is
out of range and the call panics, for every spare capacity of the rune slice below 97. The
other two parts of the claim hold on every input (`parse_ok_ends_after_commit`,
`parse_digest_spaces_error`), and this part holds after pairs whose quoted values are ASCII
(`parse_unterminated_quote`). -/
theorem unterminated_quote_panics (spare : List Char) (hspare : spare.length < 97) :
    parseWWWAuthenticate spare
        (digestLit ++ (' ' :: ("a=".data ++ (quotedString (List.replicate 100 'é') ++
          ", k=\"v".data)))) =
      Outcome.panic := by
  have hb : byteLen (quotedString (List.replicate 100 'é')) = 202 := by decide
  have hl : (quotedString (List.replicate 100 'é')).length = 102 := by decide
  have hlen : byteLen (digestLit ++ (' ' :: ("a=".data ++
      (quotedString (List.replicate 100 'é') ++ ", k=\"v".data)))) ≤ 512 := by
    rw [byteLen_append, show ' ' :: ("a=".data ++ (quotedString (List.replicate 100 'é') ++
        ", k=\"v".data)) = " a=".data ++ (quotedString (List.replicate 100 'é') ++
        ", k=\"v".data) from rfl, byteLen_append, byteLen_append, hb]
    decide
  rw [parse_digest spare _ hlen]
  have hraw : trimLeft (' ' :: ("a=".data ++ (quotedString (List.replicate 100 'é') ++
      ", k=\"v".data))) =
      "a=".data ++ (quotedString (List.replicate 100 'é') ++ ", k=\"v".data) :=
    trimLeft_spaces 1 'a' _ (by decide)
  rw [hraw]
  unfold parseRunes
  generalize hB : "a=".data ++ (quotedString (List.replicate 100 'é') ++ ", k=\"v".data) ++
    spare = B
  have hBlen : B.length < 207 := by
    rw [← hB]
    simp only [List.length_append, hl]
    simp
    omega
  have hAt : At B (0 + 0) "a".data := by
    rw [← hB]
    exact ⟨_, rfl⟩
  have hkey := run_key B 0 "a".data (by decide) 0 0 [] hAt
  have e1 : "a=".data = List.replicate 0 ' ' ++ "a".data ++ ['='] := rfl
  have hk0 : newParserStateParsingKey = parserStateParsingToken NextFn.parsingKey 0 false :=
    rfl
  rw [hk0, e1, parseLoop_append, hkey]
  simp only [Params.has, Params.get?, Option.isSome_none, Bool.false_eq_true, if_false]
  rw [parseLoop_append, run_quoted]
  simp only [hb]
  have hcomma : step B (0 + byteLen (List.replicate 0 ' ' ++ "a".data ++ ['=']) + 202) ','
      (parserStateParsingDelimiter ',' newParserStateParsingKey)
      (Params.set [] "a".data (List.replicate 100 'é')) =
      Step.next newParserStateParsingKey (Params.set [] "a".data (List.replicate 100 'é')) :=
    step_delimiter _ _ _ _ _ (by decide)
  have hspace : ∀ pos out, step B pos ' ' newParserStateParsingKey out =
      Step.next newParserStateParsingKey out := by
    intro pos out
    simp [step, again, newParserStateParsingKey]
  have hk : ∀ pos out, step B pos 'k' newParserStateParsingKey out =
      Step.next (parserStateParsingToken NextFn.parsingKey pos true) out := by
    intro pos out
    exact step_token_start _ _ _ _ _ _ (by decide)
  have hpos : 0 + byteLen (List.replicate 0 ' ' ++ "a".data ++ ['=']) + 202 + runeLen ',' +
      runeLen ' ' + runeLen 'k' = 207 := by decide
  have hpos2 : 0 + byteLen (List.replicate 0 ' ' ++ "a".data ++ ['=']) + 202 + runeLen ',' +
      runeLen ' ' = 206 := by decide
  show (match parseLoop B _ (',' :: ' ' :: 'k' :: '=' :: "\"v".data) _ _ with
    | Except.ok (ps, out) => finish ps out
    | Except.error o => o) = Outcome.panic
  have hrk : 206 + runeLen 'k' = 207 := by decide
  simp only [parseLoop, hcomma, hspace, hk, hpos, hpos2, hrk,
    step_key_out_of_range B 207 206 _ (by decide) hBlen]

/-- Witness of C8: the input has 117 characters, and with a spare capacity of two the call
panics. -/
theorem unterminated_quote_panics_witness :
    (digestLit ++ (' ' :: ("a=".data ++ (quotedString (List.replicate 100 'é') ++
        ", k=\"v".data)))).length = 117 ∧
    parseWWWAuthenticate ['x', 'x']
        (digestLit ++ (' ' :: ("a=".data ++ (quotedString (List.replicate 100 'é') ++
          ", k=\"v".data)))) =
      Outcome.panic :=
  ⟨by decide, unterminated_quote_panics ['x', 'x'] (by decide)⟩

set_option maxRecDepth 1000000 in
/-- Counterexample to C9 as it is worded, with the size in characters: the header
`Digest a="v"` where `v` is 501 times `é` has exactly 512 characters and 1013 bytes; the loop
and the final check accept its parameters (`parseRunes` returns the map), but
`parseWWWAuthenticate` rejects the header with the error of the precondition, for its
size. -/
theorem size_limit_counts_bytes :
    (header [⟨1, "a".data, List.replicate 501 'é', false⟩]).length = 512 ∧
    byteLen (header [⟨1, "a".data, List.replicate 501 'é', false⟩]) = 1013 ∧
    hasPrefix (header [⟨1, "a".data, List.replicate 501 'é', false⟩]) digestLit = true ∧
    parseRunes (trimLeft (trimPrefix (header [⟨1, "a".data, List.replicate 501 'é', false⟩])
        digestLit))
      (trimLeft (trimPrefix (header [⟨1, "a".data, List.replicate 501 'é', false⟩])
        digestLit)) = Outcome.ok [("a".data, List.replicate 501 'é')] ∧
    parseWWWAuthenticate [] (header [⟨1, "a".data, List.replicate 501 'é', false⟩]) =
      Outcome.error (ParseError.invalidHeader
        (header [⟨1, "a".data, List.replicate 501 'é', false⟩])) :=
  ⟨by decide, by decide, by decide, by decide, by decide⟩

/-- C9 (preconditions of the parser), with the size counted in bytes: every input that does
not begin with the literal `Digest`, and every input of more than 512 bytes (so every input
of more than 512 characters), is rejected with the error of the precondition, whatever the
rest of its content; an input that begins with `Digest` and has at most 512 bytes is never
rejected with that error; and a header of the grammar (ASCII, so its characters are its
bytes) of exactly 512 characters is parsed to the map of its pairs. -/
theorem parser_preconditions :
    (∀ (spare : List Char) (h : GoString), hasPrefix h digestLit = false →
      parseWWWAuthenticate spare h = Outcome.error (ParseError.invalidHeader h)) ∧
    (∀ (spare : List Char) (h : GoString), 512 < h.length ∨ 512 < byteLen h →
      parseWWWAuthenticate spare h = Outcome.error (ParseError.invalidHeader h)) ∧
    (∀ (spare : List Char) (h h1 : GoString), hasPrefix h digestLit = true → byteLen h ≤ 512 →
      parseWWWAuthenticate spare h ≠ Outcome.error (ParseError.invalidHeader h1)) ∧
    (∀ (spare : List Char) (l : List Pair), l ≠ [] → (∀ p ∈ l, p.wellFormed) →
      (l.map Pair.key).Nodup → lastBare l = false → (header l).length = 512 →
      parseWWWAuthenticate spare (header l) = Outcome.ok (l.map Pair.entry)) :=
  ⟨fun spare h hp => parse_precondition spare h (Or.inl hp),
   fun spare h hl => parse_precondition spare h
    (Or.inr (hl.elim (fun h1 => Nat.lt_of_lt_of_le h1 (byteLen_ge_length h)) id)),
   fun spare h h1 hp hl hx =>
    (((invalidHeader_iff spare h h1).1 hx).1).elim
      (fun h2 => Bool.noConfusion (hp.symm.trans h2))
      (fun h2 => absurd h2 (Nat.not_lt.2 hl)),
   fun spare l hne hwf hnd hlast hlen => parse_header spare l hne hwf hnd hlast (le_of_eq hlen)⟩

set_option maxRecDepth 1000000 in
/-- Witness of C9: the lower-case scheme `digest a="b"` is rejected; a header of 513
characters is rejected; a header of 262 characters and exactly 512 bytes is not rejected
with the error of the precondition; and an ASCII header of exactly 512 characters is
parsed. -/
theorem parser_preconditions_witness :
    parseWWWAuthenticate [] "digest a=\"b\"".data =
      Outcome.error (ParseError.invalidHeader "digest a=\"b\"".data) ∧
    parseWWWAuthenticate [] (header [⟨1, "a".data, List.replicate 502 'x', false⟩]) =
      Outcome.error (ParseError.invalidHeader
        (header [⟨1, "a".data, List.replicate 502 'x', false⟩])) ∧
    (byteLen (header [⟨1, "a".data, List.replicate 250 'é' ++ ['x'], false⟩]) = 512 ∧
      parseWWWAuthenticate [] (header [⟨1, "a".data, List.replicate 250 'é' ++ ['x'], false⟩]) ≠
        Outcome.error (ParseError.invalidHeader
          (header [⟨1, "a".data, List.replicate 250 'é' ++ ['x'], false⟩]))) ∧
    parseWWWAuthenticate [] (header [⟨1, "a".data, List.replicate 501 'x', false⟩]) =
      Outcome.ok [("a".data, List.replicate 501 'x')] :=
  ⟨parser_preconditions.1 [] _ (by decide),
   parser_preconditions.2.1 [] _ (Or.inl (by decide)),
   ⟨by decide, parser_preconditions.2.2.1 [] _ _ (by decide) (by decide)⟩,
   parser_preconditions.2.2.2 [] _ (by decide) (by decide) (by decide) (by decide) (by decide)⟩


/-! ## The claims about `ComputeResponse` -/

set_option maxRecDepth 1000000 in
/-- C2 (final response digest), refuted at the challenge
`Digest realm="cam", nonce="AbC", qop="auth"`, request URI `/x`, credentials `u:p`: the call
succeeds, the Authorization value carries `nonce="AbC"`, `nc="00000001"`, the client nonce and
`response="fe88e3fc0cc2c7a29655021bf3763ccd"`; the formula of the claim with the carried
values, `MD5(HA1:AbC:00000001:cnonce:auth:HA2)`, is `6efc8948a3f35a37092b72982747f5d7`; the
response placed in the value is the digest of the same text with the nonce lower-cased. -/
theorem response_digest_lowers_nonce :
    newDigestAuthStateFromChallenge [] 0
        "Digest realm=\"cam\", nonce=\"AbC\", qop=\"auth\"".data =
      Except.ok { params := [("realm".data, "cam".data), ("nonce".data, "AbC".data),
                    ("qop".data, "auth".data)], nonceCount := 0, createdAt := 0 } ∧
    (DigestAuthState.ComputeResponse fixedEnv
        { params := [("realm".data, "cam".data), ("nonce".data, "AbC".data),
            ("qop".data, "auth".data)], nonceCount := 0, createdAt := 0 }
        "/x".data ⟨"u".data, "p".data, true⟩).1 =
      ("Digest realm=\"cam\", nonce=\"AbC\", qop=\"auth\", cnonce=\"4ae71336e44bf9bf79d2752e234818a5\", username=\"u\", nc=\"00000001\", uri=\"/x\", response=\"fe88e3fc0cc2c7a29655021bf3763ccd\"".data,
        none) ∧
    mkMd5 "u:cam:p".data = "44aeebe158642b436b684cd3a503330d".data ∧
    mkMd5 "GET:/x".data = "39703b9244f1eabf92f738ac2f185993".data ∧
    mkMd5 "44aeebe158642b436b684cd3a503330d:AbC:00000001:4ae71336e44bf9bf79d2752e234818a5:auth:39703b9244f1eabf92f738ac2f185993".data =
      "6efc8948a3f35a37092b72982747f5d7".data ∧
    mkMd5 "44aeebe158642b436b684cd3a503330d:abc:00000001:4ae71336e44bf9bf79d2752e234818a5:auth:39703b9244f1eabf92f738ac2f185993".data =
      "fe88e3fc0cc2c7a29655021bf3763ccd".data := by
  refine ⟨by decide, by decide, by decide, by decide, by decide, by decide⟩

set_option maxRecDepth 1000000 in
/-- C3 (HA1), refuted at the challenge `Digest realm="Cam", nonce="abc"`, request URI `/x`,
credentials `u:p`: the Authorization value carries `realm="Cam"`, but the HA1 that is used is
`MD5("u:cam:p")`, not `MD5("u:Cam:p")`; and at the challenge
`Digest realm="cam", nonce="AbC", algorithm="MD5-sess"` the HA1 that is used is
`MD5(MD5("u:cam:p"):abc:cnonce)`, with the nonce lower-cased, not
`MD5(MD5("u:cam:p"):AbC:cnonce)`. -/
theorem ha1_lowers_realm_and_nonce :
    (computeDigest fixedEnv [("realm".data, "Cam".data), ("nonce".data, "abc".data)] 1
        "/x".data ⟨"u".data, "p".data, true⟩ =
      Except.ok
        { cnonce := "4ae71336e44bf9bf79d2752e234818a5".data,
          ha1 := "44aeebe158642b436b684cd3a503330d".data,
          ha2 := "39703b9244f1eabf92f738ac2f185993".data,
          response := "1f76daa8376c2164ee68eb0b539af145".data,
          params := [("realm".data, "Cam".data), ("nonce".data, "abc".data),
            ("username".data, "u".data), ("nc".data, "00000001".data), ("uri".data, "/x".data),
            ("response".data, "1f76daa8376c2164ee68eb0b539af145".data)] } ∧
      mkMd5 "u:cam:p".data = "44aeebe158642b436b684cd3a503330d".data ∧
      mkMd5 "u:Cam:p".data = "7ff1a51951aea7f0b73fa759d897e822".data) ∧
    (computeDigest fixedEnv [("realm".data, "cam".data), ("nonce".data, "AbC".data),
          ("algorithm".data, "MD5-sess".data)] 1 "/x".data ⟨"u".data, "p".data, true⟩ =
      Except.ok
        { cnonce := "4ae71336e44bf9bf79d2752e234818a5".data,
          ha1 := "c3bfbd212a9de25a6795ad87657fefd3".data,
          ha2 := "39703b9244f1eabf92f738ac2f185993".data,
          response := "028bb25bdcfb5ed06cb277380f9b9a94".data,
          params := [("realm".data, "cam".data), ("nonce".data, "AbC".data),
            ("algorithm".data, "MD5-sess".data),
            ("cnonce".data, "4ae71336e44bf9bf79d2752e234818a5".data),
            ("username".data, "u".data), ("nc".data, "00000001".data), ("uri".data, "/x".data),
            ("response".data, "028bb25bdcfb5ed06cb277380f9b9a94".data)] } ∧
      mkMd5 "44aeebe158642b436b684cd3a503330d:abc:4ae71336e44bf9bf79d2752e234818a5".data =
        "c3bfbd212a9de25a6795ad87657fefd3".data ∧
      mkMd5 "44aeebe158642b436b684cd3a503330d:AbC:4ae71336e44bf9bf79d2752e234818a5".data =
        "448b255398bf97d4e67236ce24332744".data) := by
  refine ⟨⟨by decide, by decide, by decide⟩, ⟨by decide, by decide, by decide⟩⟩

set_option maxRecDepth 1000000 in
/-- The constant of the `auth-int` branch is the MD5 digest of the empty string. -/
theorem emptyBodyMd5_eq : mkMd5 [] = emptyBodyMd5 := by decide

theorem ComputeResponse_nonceCount (env : Env) (s : DigestAuthState) (requestUri : GoString)
    (credentials : Userinfo) :
    (s.ComputeResponse env requestUri credentials).2.nonceCount = s.nonceCount + 1 := by
  unfold DigestAuthState.ComputeResponse
  simp only []
  split <;> rfl

theorem computeResponses_nonceCount (calls : List (Env × GoString × Userinfo)) :
    ∀ s : DigestAuthState, (computeResponses s calls).nonceCount = s.nonceCount + calls.length := by
  induction calls with
  | nil => intro s; rfl
  | cons c calls ih =>
    intro s
    obtain ⟨env, uri, cred⟩ := c
    simp only [computeResponses, ih, ComputeResponse_nonceCount, List.length_cons]
    omega

/-- C10 (nonce count and freshness): for a state newly built from a parsed challenge and
every sequence of `k` calls of `ComputeResponse` (so for every `k ≥ 1`), with any arguments
and whether each call succeeds or fails, the nonce count after the calls is exactly `k`, and
`IsFresh()` is true if and only if `k = 1`. -/
theorem nonce_count_and_freshness (spare : List Char) (now : Nat) (challenge : GoString)
    (s : DigestAuthState)
    (hs : newDigestAuthStateFromChallenge spare now challenge = Except.ok s)
    (calls : List (Env × GoString × Userinfo)) :
    (computeResponses s calls).nonceCount = calls.length ∧
      ((computeResponses s calls).IsFresh = true ↔ calls.length = 1) := by
  have h0 : s.nonceCount = 0 := by
    unfold newDigestAuthStateFromChallenge at hs
    split at hs
    · cases hs; rfl
    · cases hs
  have hn : (computeResponses s calls).nonceCount = calls.length := by
    rw [computeResponses_nonceCount, h0, Nat.zero_add]
  exact ⟨hn, by simp [DigestAuthState.IsFresh, hn]⟩

set_option maxRecDepth 1000000 in
/-- Witness of C10: one successful call, then a call that fails because `rand.Read` fails,
on the state parsed from `Digest realm="cam", nonce="abc"`. -/
theorem nonce_count_and_freshness_witness :
    ((computeResponses
        { params := [("realm".data, "cam".data), ("nonce".data, "abc".data)],
          nonceCount := 0, createdAt := 7 }
        [(fixedEnv, "/x".data, ⟨"u".data, "p".data, true⟩)]).nonceCount = 1 ∧
      ((computeResponses
        { params := [("realm".data, "cam".data), ("nonce".data, "abc".data)],
          nonceCount := 0, createdAt := 7 }
        [(fixedEnv, "/x".data, ⟨"u".data, "p".data, true⟩)]).IsFresh = true ↔ 1 = 1)) ∧
    ((computeResponses
        { params := [("realm".data, "cam".data), ("nonce".data, "abc".data)],
          nonceCount := 0, createdAt := 7 }
        [(fixedEnv, "/x".data, ⟨"u".data, "p".data, true⟩),
         ({ fixedEnv with randRead := none }, "/x".data, ⟨"u".data, "p".data, true⟩)]).nonceCount
        = 2 ∧
      ((computeResponses
        { params := [("realm".data, "cam".data), ("nonce".data, "abc".data)],
          nonceCount := 0, createdAt := 7 }
        [(fixedEnv, "/x".data, ⟨"u".data, "p".data, true⟩),
         ({ fixedEnv with randRead := none }, "/x".data, ⟨"u".data, "p".data, true⟩)]).IsFresh
        = true ↔ 2 = 1)) :=
  ⟨nonce_count_and_freshness [] 7 "Digest realm=\"cam\", nonce=\"abc\"".data _ (by decide)
      [(fixedEnv, "/x".data, ⟨"u".data, "p".data, true⟩)],
   nonce_count_and_freshness [] 7 "Digest realm=\"cam\", nonce=\"abc\"".data _ (by decide)
      [(fixedEnv, "/x".data, ⟨"u".data, "p".data, true⟩),
       ({ fixedEnv with randRead := none }, "/x".data, ⟨"u".data, "p".data, true⟩)]⟩

/-! ## The map after `ComputeResponse` -/

theorem Params.get?_set_same (m : Params) (k v : GoString) :
    Params.get? (Params.set m k v) k = some v := by
  induction m with
  | nil => simp [Params.set, Params.get?]
  | cons e m ih =>
    obtain ⟨k1, v1⟩ := e
    by_cases h : k1 = k
    · simp [Params.set, Params.get?, h]
    · simp [Params.set, Params.get?, h, ih]

theorem Params.get?_set_other (m : Params) (k v k1 : GoString) (h : k ≠ k1) :
    Params.get? (Params.set m k v) k1 = Params.get? m k1 := by
  induction m with
  | nil => simp [Params.set, Params.get?, h]
  | cons e m ih =>
    obtain ⟨k2, v2⟩ := e
    by_cases h2 : k2 = k
    · subst h2
      simp [Params.set, Params.get?, h]
    · by_cases h3 : k2 = k1
      · subst h3
        simp [Params.set, Params.get?, h2]
      · simp [Params.set, Params.get?, h2, h3, ih]

theorem Params.mem_of_get? (m : Params) (k v : GoString) (h : Params.get? m k = some v) :
    (k, v) ∈ m := by
  induction m with
  | nil => simp [Params.get?] at h
  | cons e m ih =>
    obtain ⟨k1, v1⟩ := e
    by_cases h1 : k1 = k
    · simp only [Params.get?, h1, if_true, Option.some.injEq] at h
      simp [h1, h]
    · simp only [Params.get?, h1, if_false] at h
      exact List.mem_cons_of_mem _ (ih h)

/-- The keys that `ComputeResponse` writes. -/
theorem writtenKeys_ne :
    digestAuthParamClientNonce ≠ digestAuthParamUsername ∧
    digestAuthParamClientNonce ≠ digestAuthParamNonceCount ∧
    digestAuthParamClientNonce ≠ digestAuthParamUri ∧
    digestAuthParamClientNonce ≠ digestAuthParamResponse ∧
    digestAuthParamUsername ≠ digestAuthParamNonceCount ∧
    digestAuthParamUsername ≠ digestAuthParamUri ∧
    digestAuthParamUsername ≠ digestAuthParamResponse ∧
    digestAuthParamNonceCount ≠ digestAuthParamUri ∧
    digestAuthParamNonceCount ≠ digestAuthParamResponse ∧
    digestAuthParamUri ≠ digestAuthParamResponse := by decide

theorem computeHa1_params (algo realm nonce cnonce pass : GoString) (cr : Userinfo)
    (params : Params) (ha1 : GoString) (p1 : Params)
    (h : computeHa1 algo realm nonce cnonce pass cr params = Except.ok (ha1, p1)) :
    p1 = params ∨ p1 = Params.set params digestAuthParamClientNonce cnonce := by
  unfold computeHa1 at h
  by_cases h1 : algo = digestAuthAlgoMd5 ∨ algo = digestAuthAlgoMd5Sess ∨
      algo = digestAuthAlgoUnspecified
  · rw [if_pos h1] at h
    by_cases h2 : algo = digestAuthAlgoMd5Sess
    · simp only [] at h
      rw [if_pos h2] at h
      simp only [Except.ok.injEq, Prod.mk.injEq] at h
      exact Or.inr h.2.symm
    · simp only [] at h
      rw [if_neg h2] at h
      simp only [Except.ok.injEq, Prod.mk.injEq] at h
      exact Or.inl h.2.symm
  · rw [if_neg h1] at h
    cases h

theorem computeResponseParam_params (ha1 nonce nc cnonce qop ha2 : GoString) (p1 : Params) :
    (computeResponseParam ha1 nonce nc cnonce qop ha2 p1).2 = p1 ∨
      (computeResponseParam ha1 nonce nc cnonce qop ha2 p1).2 =
        Params.set p1 digestAuthParamClientNonce cnonce := by
  unfold computeResponseParam
  split
  · exact Or.inr rfl
  · exact Or.inl rfl

/-- What a successful `computeDigest` leaves in the map: the map `p1` after the writes of
`cnonce`, if any, then the four writes. -/
theorem computeDigest_ok (env : Env) (params : Params) (n : Nat) (uri : GoString)
    (cr : Userinfo) (d : Digest) (h : computeDigest env params n uri cr = Except.ok d) :
    ∃ p1, (∀ k, k ≠ digestAuthParamClientNonce → Params.get? p1 k = Params.get? params k) ∧
      d.params = Params.set (Params.set (Params.set (Params.set p1
        digestAuthParamUsername cr.Username) digestAuthParamNonceCount (sprintf08x n))
        digestAuthParamUri uri) digestAuthParamResponse d.response := by
  unfold computeDigest at h
  simp only [] at h
  cases hr : env.randRead with
  | none => simp [hr] at h
  | some buf =>
    simp only [hr] at h
    cases h1 : computeHa1 (toLower env (params.get digestAuthParamAlgorithm))
        (toLower env (params.get digestAuthParamRealm))
        (toLower env (params.get digestAuthParamNonce)) (hexEncodeToString (md5Sum buf))
        cr.Password.1 cr params with
    | error e => simp [h1] at h
    | ok r =>
      obtain ⟨ha1, p1⟩ := r
      simp only [h1] at h
      cases h2 : computeHa2 (toLower env (params.get digestAuthParamQop)) uri with
      | error e => simp [h2] at h
      | ok ha2 =>
        simp only [h2, Except.ok.injEq] at h
        subst h
        refine ⟨_, ?_, rfl⟩
        intro k hk
        have e1 : Params.get? p1 k = Params.get? params k := by
          rcases computeHa1_params _ _ _ _ _ _ _ _ _ h1 with rfl | rfl
          · rfl
          · exact Params.get?_set_other _ _ _ _ (Ne.symm hk)
        rcases computeResponseParam_params ha1 (toLower env (params.get digestAuthParamNonce))
          (sprintf08x n) (hexEncodeToString (md5Sum buf))
          (toLower env (params.get digestAuthParamQop)) ha2 p1 with e2 | e2
        · rw [e2, e1]
        · rw [e2, Params.get?_set_other _ _ _ _ (Ne.symm hk), e1]

/-- The state and the header after a successful call. -/
theorem ComputeResponse_ok (env : Env) (s : DigestAuthState) (uri : GoString) (cr : Userinfo)
    (h : (s.ComputeResponse env uri cr).1.2 = none) :
    ∃ d, computeDigest env s.params (s.nonceCount + 1) uri cr = Except.ok d ∧
      (s.ComputeResponse env uri cr).1.1 =
        ['D', 'i', 'g', 'e', 's', 't', ' '] ++ joinPieces (pieces env d.params) ∧
      (s.ComputeResponse env uri cr).2.params = d.params := by
  unfold DigestAuthState.ComputeResponse at h ⊢
  simp only [] at h ⊢
  cases hd : computeDigest env s.params (s.nonceCount + 1) uri cr with
  | error e =>
    obtain ⟨e1, p⟩ := e
    simp [hd] at h
  | ok d => exact ⟨d, rfl, rfl, rfl⟩

theorem computeHa1_error_iff (algo realm nonce cnonce pass : GoString) (cr : Userinfo)
    (params : Params) :
    (∃ e, computeHa1 algo realm nonce cnonce pass cr params = Except.error e) ↔
      ¬ (algo = digestAuthAlgoMd5 ∨ algo = digestAuthAlgoMd5Sess ∨
        algo = digestAuthAlgoUnspecified) := by
  unfold computeHa1
  by_cases h1 : algo = digestAuthAlgoMd5 ∨ algo = digestAuthAlgoMd5Sess ∨
      algo = digestAuthAlgoUnspecified
  · rw [if_pos h1]
    simp only [h1, not_true_eq_false, iff_false, not_exists]
    intro e
    split <;> simp
  · rw [if_neg h1]
    simp [h1]

theorem computeHa2_error_iff (qop uri : GoString) :
    (∃ e, computeHa2 qop uri = Except.error e) ↔
      ¬ (qop = digestAuthQopAuth ∨ qop = digestAuthQopUnspecified ∨
        qop = digestAuthQopAuthInt) := by
  unfold computeHa2
  by_cases h1 : qop = digestAuthQopAuth ∨ qop = digestAuthQopUnspecified
  · rw [if_pos h1]
    have : qop = digestAuthQopAuth ∨ qop = digestAuthQopUnspecified ∨
        qop = digestAuthQopAuthInt := by tauto
    simp [this]
  · rw [if_neg h1]
    by_cases h2 : qop = digestAuthQopAuthInt
    · rw [if_pos h2]; simp [h2]
    · rw [if_neg h2]
      have : ¬ (qop = digestAuthQopAuth ∨ qop = digestAuthQopUnspecified ∨
          qop = digestAuthQopAuthInt) := by tauto
      simp [this]

/-- With randomness, `computeDigest` fails exactly on an unknown algorithm or qop. -/
theorem computeDigest_error_iff (env : Env) (params : Params) (n : Nat) (uri : GoString)
    (cr : Userinfo) (buf : List Nat) (hr : env.randRead = some buf) :
    (∃ e, computeDigest env params n uri cr = Except.error e) ↔
      ¬ (toLower env (Params.get params digestAuthParamAlgorithm) = digestAuthAlgoMd5 ∨
          toLower env (Params.get params digestAuthParamAlgorithm) = digestAuthAlgoMd5Sess ∨
          toLower env (Params.get params digestAuthParamAlgorithm) =
            digestAuthAlgoUnspecified) ∨
        ¬ (toLower env (Params.get params digestAuthParamQop) = digestAuthQopAuth ∨
          toLower env (Params.get params digestAuthParamQop) = digestAuthQopUnspecified ∨
          toLower env (Params.get params digestAuthParamQop) = digestAuthQopAuthInt) := by
  rw [← computeHa1_error_iff _ (toLower env (params.get digestAuthParamRealm))
    (toLower env (params.get digestAuthParamNonce)) (hexEncodeToString (md5Sum buf))
    cr.Password.1 cr params, ← computeHa2_error_iff _ uri]
  unfold computeDigest
  simp only [hr]
  cases h1 : computeHa1 (toLower env (params.get digestAuthParamAlgorithm))
      (toLower env (params.get digestAuthParamRealm))
      (toLower env (params.get digestAuthParamNonce)) (hexEncodeToString (md5Sum buf))
      cr.Password.1 cr params with
  | error e => simp
  | ok r =>
    obtain ⟨ha1, p1⟩ := r
    simp only []
    cases h2 : computeHa2 (toLower env (params.get digestAuthParamQop)) uri with
    | error e => simp
    | ok ha2 => simp

/-- C11 (unsupported algorithm or qop): when `rand.Read` succeeds, `ComputeResponse` returns an
error if and only if the lower-cased `algorithm` value is not one of `""`, `md5`, `md5-sess`
or the lower-cased `qop` value is not one of `""`, `auth`, `auth-int` (the value of a missing
key is `""`); and whenever it returns an error, the returned string is empty. -/
theorem unsupported_algorithm_or_qop (env : Env) (s : DigestAuthState) (uri : GoString)
    (cr : Userinfo) (buf : List Nat) (hr : env.randRead = some buf) :
    ((s.ComputeResponse env uri cr).1.2 ≠ none ↔
      (toLower env (Params.get s.params digestAuthParamAlgorithm) ∉
          [digestAuthAlgoUnspecified, digestAuthAlgoMd5, digestAuthAlgoMd5Sess] ∨
        toLower env (Params.get s.params digestAuthParamQop) ∉
          [digestAuthQopUnspecified, digestAuthQopAuth, digestAuthQopAuthInt])) ∧
    ((s.ComputeResponse env uri cr).1.2 ≠ none → (s.ComputeResponse env uri cr).1.1 = []) := by
  have key := computeDigest_error_iff env s.params (s.nonceCount + 1) uri cr buf hr
  unfold DigestAuthState.ComputeResponse
  simp only []
  cases hd : computeDigest env s.params (s.nonceCount + 1) uri cr with
  | error e =>
    obtain ⟨e1, p⟩ := e
    have h := key.1 ⟨_, hd⟩
    simp only [ne_eq, reduceCtorEq, not_false_eq_true, true_iff, implies_true, and_true]
    simp only [List.mem_cons, List.mem_singleton, List.not_mem_nil, or_false]
    tauto
  | ok d =>
    have h : ¬ ∃ e, computeDigest env s.params (s.nonceCount + 1) uri cr = Except.error e := by
      rw [hd]; simp
    rw [key] at h
    simp only [ne_eq, not_true_eq_false, false_iff, false_implies, and_true]
    simp only [List.mem_cons, List.mem_singleton, List.not_mem_nil, or_false]
    tauto

set_option maxRecDepth 1000000 in
/-- Witness of C11: the algorithm `SHA-256` is an error with an empty string, and so is the
qop `auth-conf`; `MD5` with `auth` is not. -/
theorem unsupported_algorithm_or_qop_witness :
    ((DigestAuthState.ComputeResponse fixedEnv
        { params := [("realm".data, "cam".data), ("nonce".data, "abc".data),
            ("algorithm".data, "SHA-256".data)], nonceCount := 0, createdAt := 0 }
        "/x".data ⟨"u".data, "p".data, true⟩).1 = ([], some (ResponseError.unknownAlgo "sha-256".data))) ∧
    ((DigestAuthState.ComputeResponse fixedEnv
        { params := [("realm".data, "cam".data), ("nonce".data, "abc".data),
            ("algorithm".data, "MD5".data), ("qop".data, "auth".data)],
          nonceCount := 0, createdAt := 0 }
        "/x".data ⟨"u".data, "p".data, true⟩).1.2 ≠ none ↔
      (toLower fixedEnv (Params.get [("realm".data, "cam".data), ("nonce".data, "abc".data),
            ("algorithm".data, "MD5".data), ("qop".data, "auth".data)]
            digestAuthParamAlgorithm) ∉
          [digestAuthAlgoUnspecified, digestAuthAlgoMd5, digestAuthAlgoMd5Sess] ∨
        toLower fixedEnv (Params.get [("realm".data, "cam".data), ("nonce".data, "abc".data),
            ("algorithm".data, "MD5".data), ("qop".data, "auth".data)] digestAuthParamQop) ∉
          [digestAuthQopUnspecified, digestAuthQopAuth, digestAuthQopAuthInt])) :=
  ⟨by decide,
   (unsupported_algorithm_or_qop fixedEnv
      { params := [("realm".data, "cam".data), ("nonce".data, "abc".data),
          ("algorithm".data, "MD5".data), ("qop".data, "auth".data)],
        nonceCount := 0, createdAt := 0 }
      "/x".data ⟨"u".data, "p".data, true⟩ (List.replicate 16 0) rfl).1⟩

theorem joinPieces_contains (p : GoString) (ps : List GoString) (h : p ∈ ps) :
    p <:+: joinPieces ps := by
  induction ps with
  | nil => simp at h
  | cons q ps ih =>
    cases ps with
    | nil =>
      simp only [List.mem_singleton] at h
      subst h
      exact List.infix_refl _
    | cons q2 ps =>
      simp only [joinPieces]
      rcases List.mem_cons.1 h with rfl | h2
      · exact (List.prefix_append _ _).isInfix.trans (List.prefix_append _ _).isInfix
      · exact (ih h2).trans (List.suffix_append _ _).isInfix

theorem piece_mem_pieces (env : Env) (m : Params) (kv : GoString × GoString)
    (hperm : (env.rangeOrder m).Perm m) (h : kv ∈ m) : piece kv ∈ pieces env m :=
  List.mem_map_of_mem _ (hperm.mem_iff.2 h)

theorem piece_infix_header (env : Env) (m : Params) (k v : GoString)
    (hperm : (env.rangeOrder m).Perm m) (h : Params.get? m k = some v) :
    piece (k, v) <:+: ['D', 'i', 'g', 'e', 's', 't', ' '] ++ joinPieces (pieces env m) :=
  (joinPieces_contains _ _ (piece_mem_pieces env m _ hperm (Params.mem_of_get? m k v h))).trans
    (List.suffix_append _ _).isInfix

/-- The entries of the map after a successful `computeDigest`. -/
theorem computeDigest_entries (env : Env) (params : Params) (n : Nat) (uri : GoString)
    (cr : Userinfo) (d : Digest) (h : computeDigest env params n uri cr = Except.ok d) :
    (∀ k, k ∉ [digestAuthParamUsername, digestAuthParamUri, digestAuthParamResponse,
        digestAuthParamNonceCount, digestAuthParamClientNonce] →
      Params.get? d.params k = Params.get? params k) ∧
    Params.get? d.params digestAuthParamUsername = some cr.Username ∧
    Params.get? d.params digestAuthParamUri = some uri ∧
    Params.get? d.params digestAuthParamNonceCount = some (sprintf08x n) ∧
    Params.get? d.params digestAuthParamResponse = some d.response := by
  obtain ⟨p1, hp1, hd⟩ := computeDigest_ok env params n uri cr d h
  obtain ⟨-, -, -, -, h5, h6, h7, h8, h9, h10⟩ := writtenKeys_ne
  rw [hd]
  refine ⟨?_, ?_, ?_, ?_, ?_⟩
  · intro k hk
    simp only [List.mem_cons, List.mem_singleton, List.not_mem_nil, or_false, not_or] at hk
    obtain ⟨k1, k2, k3, k4, k5⟩ := hk
    rw [Params.get?_set_other _ _ _ _ (Ne.symm k3), Params.get?_set_other _ _ _ _ (Ne.symm k2),
      Params.get?_set_other _ _ _ _ (Ne.symm k4), Params.get?_set_other _ _ _ _ (Ne.symm k1),
      hp1 k k5]
  · rw [Params.get?_set_other _ _ _ _ h7.symm, Params.get?_set_other _ _ _ _ h6.symm,
      Params.get?_set_other _ _ _ _ h5.symm, Params.get?_set_same]
  · rw [Params.get?_set_other _ _ _ _ h10.symm, Params.get?_set_same]
  · rw [Params.get?_set_other _ _ _ _ h9.symm, Params.get?_set_other _ _ _ _ h8.symm,
      Params.get?_set_same]
  · rw [Params.get?_set_same]

theorem hexLen_le (fuel : Nat) : ∀ (n k : Nat), 1 ≤ k → n < 16 ^ k → hexLen fuel n ≤ k := by
  induction fuel with
  | zero => intro n k hk _; simpa [hexLen] using hk
  | succ fuel ih =>
    intro n k hk hn
    unfold hexLen
    split
    · exact hk
    · rename_i h16
      obtain ⟨j, rfl⟩ : ∃ j, k = j + 1 := ⟨k - 1, by omega⟩
      have hj : 1 ≤ j := by
        rcases Nat.eq_zero_or_pos j with rfl | hj
        · simp at hn; omega
        · exact hj
      have : n / 16 < 16 ^ j := by
        rw [Nat.div_lt_iff_lt_mul (by norm_num)]
        rw [pow_succ] at hn
        exact hn
      have := ih (n / 16) j hj this
      omega

theorem hexLow_length (k n : Nat) : (hexLow k n).length = k := by
  induction k with
  | zero => rfl
  | succ k ih => simp [hexLow, ih]

theorem hexDigit_mem (d : Nat) (h : d < 16) : hexDigit d ∈ hextable := by
  interval_cases d <;> decide

theorem indexOf_hexDigit (d : Nat) (h : d < 16) : hextable.indexOf (hexDigit d) = d := by
  interval_cases d <;> decide

theorem hexLow_mem (k n : Nat) : ∀ c ∈ hexLow k n, c ∈ hextable := by
  induction k with
  | zero => intro c hc; simp [hexLow] at hc
  | succ k ih =>
    intro c hc
    simp only [hexLow, List.mem_cons] at hc
    rcases hc with rfl | hc
    · exact hexDigit_mem _ (Nat.mod_lt _ (by norm_num))
    · exact ih c hc

theorem foldl_hexLow (k n : Nat) : ∀ a : Nat,
    (hexLow k n).foldl (fun a c => 16 * a + hextable.indexOf c) a = a * 16 ^ k + n % 16 ^ k := by
  induction k with
  | zero => intro a; simp [hexLow, Nat.mod_one]
  | succ k ih =>
    intro a
    simp only [hexLow, List.foldl_cons]
    rw [ih, indexOf_hexDigit _ (Nat.mod_lt _ (by norm_num)), Nat.mod_pow_succ]
    ring

theorem hexValue_hexLow (k n : Nat) : hexValue (hexLow k n) = n % 16 ^ k := by
  simp [hexValue, foldl_hexLow]

/-- The string `%08x` of a count below `2^32`: eight lower-case hexadecimal digits whose
value is the count. -/
theorem sprintf08x_spec (n : Nat) (hn : n < 2 ^ 32) :
    sprintf08x n = hexLow 8 n ∧ (sprintf08x n).length = 8 ∧
      (∀ c ∈ sprintf08x n, c ∈ hextable) ∧ hexValue (sprintf08x n) = n := by
  have h8 : hexLen n n ≤ 8 := hexLen_le n n 8 (by norm_num) (by norm_num at hn ⊢; exact hn)
  have e : sprintf08x n = hexLow 8 n := by
    unfold sprintf08x
    rw [max_eq_left h8]
  rw [e]
  refine ⟨rfl, hexLow_length 8 n, hexLow_mem 8 n, ?_⟩
  rw [hexValue_hexLow]
  exact Nat.mod_eq_of_lt (by norm_num at hn ⊢; exact hn)

/-- C14 (rendering of `nc`): for every successful call whose incremented nonce count `n`
satisfies `1 ≤ n < 2^32`, the `nc` parameter written by `ComputeResponse` is a string of
exactly 8 characters, each in `0-9` or `a-f`, whose value read as a hexadecimal number is
`n`. -/
theorem nc_rendering (env : Env) (s : DigestAuthState) (uri : GoString) (cr : Userinfo)
    (hok : (s.ComputeResponse env uri cr).1.2 = none) (hn : s.nonceCount + 1 < 2 ^ 32) :
    (s.ComputeResponse env uri cr).2.nonceCount = s.nonceCount + 1 ∧
    Params.get? (s.ComputeResponse env uri cr).2.params digestAuthParamNonceCount =
      some (sprintf08x (s.nonceCount + 1)) ∧
    (sprintf08x (s.nonceCount + 1)).length = 8 ∧
    (∀ c ∈ sprintf08x (s.nonceCount + 1), c ∈ hextable) ∧
    hexValue (sprintf08x (s.nonceCount + 1)) = s.nonceCount + 1 := by
  obtain ⟨d, hd, -, hp⟩ := ComputeResponse_ok env s uri cr hok
  obtain ⟨-, -, -, e4, -⟩ := computeDigest_entries env _ _ _ _ d hd
  obtain ⟨-, h2, h3, h4⟩ := sprintf08x_spec (s.nonceCount + 1) hn
  exact ⟨ComputeResponse_nonceCount env s uri cr, by rw [hp]; exact e4, h2, h3, h4⟩

set_option maxRecDepth 1000000 in
/-- Witness of C14: the call that takes the count from 26 to 27 writes `nc="0000001b"`. -/
theorem nc_rendering_witness :
    Params.get? (DigestAuthState.ComputeResponse fixedEnv
        { params := [("realm".data, "Cam".data), ("nonce".data, "abc".data)],
          nonceCount := 26, createdAt := 0 } "/x".data ⟨"u".data, "p".data, true⟩).2.params
        digestAuthParamNonceCount = some (sprintf08x (26 + 1)) ∧
    sprintf08x (26 + 1) = "0000001b".data ∧
    hexValue (sprintf08x (26 + 1)) = 26 + 1 :=
  ⟨(nc_rendering fixedEnv
      { params := [("realm".data, "Cam".data), ("nonce".data, "abc".data)],
        nonceCount := 26, createdAt := 0 } "/x".data ⟨"u".data, "p".data, true⟩ (by decide)
      (by decide)).2.1,
   by decide,
   (nc_rendering fixedEnv
      { params := [("realm".data, "Cam".data), ("nonce".data, "abc".data)],
        nonceCount := 26, createdAt := 0 } "/x".data ⟨"u".data, "p".data, true⟩ (by decide)
      (by decide)).2.2.2.2⟩

/-! ## The requestor: one step -/

theorem gets_append (A B : List Event) : gets (A ++ B) = gets A ++ gets B := by
  induction A with
  | nil => rfl
  | cons e A ih => cases e <;> simp [gets, ih]

theorem lastAuthOkFrom_append (A B : List Event) :
    ∀ acc, lastAuthOkFrom acc (A ++ B) = lastAuthOkFrom (lastAuthOkFrom acc A) B := by
  induction A with
  | nil => intro acc; rfl
  | cons e A ih =>
    intro acc
    cases e with
    | transport req answer =>
      by_cases ha : req.authorization.isSome = true
      · simp [lastAuthOkFrom, ha, ih]
      · simp [lastAuthOkFrom, ha, ih]
    | load h => simp [lastAuthOkFrom, ih]
    | delete h => simp [lastAuthOkFrom, ih]
    | store h s => simp [lastAuthOkFrom, ih]
    | hook s => simp [lastAuthOkFrom, ih]

theorem Cache.Load_Delete (c : Cache) (host : GoString) :
    Cache.Load (Cache.Delete c host) host = none := by
  induction c with
  | nil => rfl
  | cons e c ih =>
    obtain ⟨h, s⟩ := e
    by_cases hh : h = host
    · simpa [Cache.Delete, List.filter, hh] using ih
    · have : Cache.Delete ((h, s) :: c) host = (h, s) :: Cache.Delete c host := by
        simp [Cache.Delete, List.filter, hh]
      rw [this]
      simp [Cache.Load, hh, ih]

theorem Cache.Load_Store (c : Cache) (host : GoString) (s : DigestAuthState) :
    Cache.Load (Cache.Store c host s) host = some s := by
  simp [Cache.Store, Cache.Load]

theorem newDigestAuthState_nonceCount {spare : List Char} {now : Nat} {challenge : GoString}
    {s : DigestAuthState}
    (hs : newDigestAuthStateFromChallenge spare now challenge = Except.ok s) :
    s.nonceCount = 0 := by
  unfold newDigestAuthStateFromChallenge at hs
  split at hs
  · cases hs; rfl
  · cases hs

/-- The events of the cache lookup. -/
theorem cacheLookup_spec (r : DigestAuthRequestor) (origUri : URL) (sys : Sys) :
    (∃ T, (cacheLookup r origUri sys).2.trace = sys.trace ++ T ∧
      (T = [] ∨ T = [Event.load origUri.Host] ∨
        T = [Event.load origUri.Host, Event.delete origUri.Host])) ∧
    (∀ state, (cacheLookup r origUri sys).1 = some state →
      r.EnablePerHostAuthStateCache = true ∧ Cache.Load sys.cache origUri.Host = some state ∧
      (cacheLookup r origUri sys).2.cache = sys.cache) ∧
    ((cacheLookup r origUri sys).1 = none → r.EnablePerHostAuthStateCache = true →
      Cache.Load (cacheLookup r origUri sys).2.cache origUri.Host = none) := by
  unfold cacheLookup
  cases he : r.EnablePerHostAuthStateCache
  · simp
  · simp only [if_true]
    cases hl : Cache.Load sys.cache origUri.Host with
    | none => simp [hl]
    | some st =>
      simp only []
      cases hp : r.NonceReusePolicy with
      | none => simp [Cache.Load_Delete]
      | some f =>
        cases hf : f origUri st
        · simp [hf, Cache.Load_Delete]
        · simp [hf]

/-- What `retrieveChallenge` returns and adds to the events. -/
theorem retrieveChallenge_spec {r : DigestAuthRequestor} {w : World} {uri : URL} {sys sys1 : Sys}
    {challenge : GoString} {response : Option Response} {err : Option RequestError}
    (h : retrieveChallenge r w uri sys = some ((challenge, response, err), sys1)) :
    sys1.cache = sys.cache ∧ err ≠ some RequestError.ErrDigestAuthMissingCredentials ∧
    ((sys1.trace = sys.trace ∧ err ≠ none) ∨
      ∃ answer, sys1.trace = sys.trace ++
          [Event.transport { uri := uri, authorization := none } answer] ∧
        (err = none → challenge ≠ [] → ∃ res, answer = some res ∧ res.StatusCode = 401 ∧
          challenge = trimSpace res.wwwAuthenticate)) := by
  unfold retrieveChallenge at h
  by_cases hu : uri.User ≠ none
  · simp [hu] at h
  · rw [if_neg hu] at h
    by_cases hn : w.newRequest uri = false
    · rw [if_pos hn] at h
      simp only [Option.some.injEq, Prod.mk.injEq] at h
      obtain ⟨⟨-, -, rfl⟩, rfl⟩ := h
      simp
    · rw [if_neg hn] at h
      simp only [] at h
      cases ha : r.Client sys.trace { uri := uri, authorization := none } with
      | none =>
        simp only [ha, Option.some.injEq, Prod.mk.injEq] at h
        obtain ⟨⟨-, -, rfl⟩, rfl⟩ := h
        simp
      | some res =>
        simp only [ha] at h
        by_cases h2 : 200 ≤ res.StatusCode ∧ res.StatusCode ≤ 299
        · rw [if_pos h2] at h
          simp only [Option.some.injEq, Prod.mk.injEq] at h
          obtain ⟨⟨rfl, -, rfl⟩, rfl⟩ := h
          simp
        · rw [if_neg h2] at h
          unfold challengeFromResponse at h
          by_cases h4 : res.StatusCode ≠ 401 ∨ trimSpace res.wwwAuthenticate = []
          · simp only [h4, if_true, Option.some.injEq, Prod.mk.injEq] at h
            obtain ⟨⟨-, -, rfl⟩, rfl⟩ := h
            simp
          · simp only [h4, if_false, Option.some.injEq, Prod.mk.injEq] at h
            obtain ⟨⟨rfl, -, rfl⟩, rfl⟩ := h
            refine ⟨rfl, by simp, Or.inr ⟨some res, rfl, ?_⟩⟩
            intro _ _
            refine ⟨res, rfl, ?_, rfl⟩
            by_contra hne
            exact h4 (Or.inl hne)

/-- A cold start that returns. -/
theorem coldStart_final {r : DigestAuthRequestor} {w : World} {origUri : URL}
    {credentials : Userinfo} {sys sys1 : Sys} {res : Result}
    (h : coldStart r w origUri credentials sys = Sum.inl (res, sys1)) :
    res ≠ Result.unfinished ∧
    (∀ x, res ≠ Result.ret x (some RequestError.ErrDigestAuthMissingCredentials)) ∧
    sys1.cache = sys.cache ∧
    ∃ T, sys1.trace = sys.trace ++ T ∧ (T = [] ∨ ∃ answer,
      T = [Event.transport { uri := { origUri with User := none }, authorization := none }
        answer]) := by
  unfold coldStart at h
  simp only [] at h
  cases hr : retrieveChallenge r w { origUri with User := none } sys with
  | none =>
    simp only [hr, Sum.inl.injEq, Prod.mk.injEq] at h
    obtain ⟨rfl, rfl⟩ := h
    exact ⟨by simp, by simp, rfl, [], by simp, Or.inl rfl⟩
  | some out =>
    obtain ⟨⟨challenge, response, err⟩, sys2⟩ := out
    simp only [hr] at h
    obtain ⟨hc, hm, ht⟩ := retrieveChallenge_spec hr
    have hT : ∃ T, sys2.trace = sys.trace ++ T ∧ (T = [] ∨ ∃ answer,
        T = [Event.transport { uri := { origUri with User := none }, authorization := none }
          answer]) := by
      rcases ht with ⟨ht, -⟩ | ⟨answer, ht, -⟩
      · exact ⟨[], by simp [ht], Or.inl rfl⟩
      · exact ⟨_, ht, Or.inr ⟨answer, rfl⟩⟩
    cases err with
    | some e =>
      simp only [Sum.inl.injEq, Prod.mk.injEq] at h
      obtain ⟨rfl, rfl⟩ := h
      refine ⟨by simp, ?_, hc, hT⟩
      intro x hx
      simp only [Result.ret.injEq] at hx
      exact hm hx.2
    | none =>
      simp only [] at h
      by_cases hch : challenge = []
      · rw [if_pos hch] at h
        simp only [Sum.inl.injEq, Prod.mk.injEq] at h
        obtain ⟨rfl, rfl⟩ := h
        exact ⟨by simp, by simp, hc, hT⟩
      · rw [if_neg hch] at h
        cases hp : newDigestAuthStateFromChallenge (w.spare challenge) (w.now sys2.trace)
            challenge with
        | ok st => simp [hp] at h
        | error o =>
          cases o with
          | error e =>
            simp only [hp, Sum.inl.injEq, Prod.mk.injEq] at h
            obtain ⟨rfl, rfl⟩ := h
            exact ⟨by simp, by simp, hc, hT⟩
          | panic =>
            simp only [hp, Sum.inl.injEq, Prod.mk.injEq] at h
            obtain ⟨rfl, rfl⟩ := h
            exact ⟨by simp, by simp, hc, hT⟩
          | ok p =>
            simp only [hp, Sum.inl.injEq, Prod.mk.injEq] at h
            obtain ⟨rfl, rfl⟩ := h
            exact ⟨by simp, by simp, hc, hT⟩

/-- A cold start that goes on to the label `computeResponseAndFetch`. -/
theorem coldStart_jump {r : DigestAuthRequestor} {w : World} {origUri : URL}
    {credentials : Userinfo} {sys sys1 : Sys} {label : Label}
    (h : coldStart r w origUri credentials sys = Sum.inr (label, sys1)) :
    sys1.cache = sys.cache ∧
    (∃ res, res.StatusCode = 401 ∧ sys1.trace = sys.trace ++
      [Event.transport { uri := { origUri with User := none }, authorization := none }
        (some res)] ∧
      ∃ state, label = Label.computeResponseAndFetch credentials state false ∧
        newDigestAuthStateFromChallenge (w.spare (trimSpace res.wwwAuthenticate))
          (w.now sys1.trace) (trimSpace res.wwwAuthenticate) = Except.ok state) := by
  unfold coldStart at h
  simp only [] at h
  cases hr : retrieveChallenge r w { origUri with User := none } sys with
  | none => simp [hr] at h
  | some out =>
    obtain ⟨⟨challenge, response, err⟩, sys2⟩ := out
    simp only [hr] at h
    obtain ⟨hc, -, ht⟩ := retrieveChallenge_spec hr
    cases err with
    | some e => simp at h
    | none =>
      simp only [] at h
      by_cases hch : challenge = []
      · rw [if_pos hch] at h
        simp at h
      · rw [if_neg hch] at h
        cases hp : newDigestAuthStateFromChallenge (w.spare challenge) (w.now sys2.trace)
            challenge with
        | error o => cases o <;> simp [hp] at h
        | ok st =>
          simp only [hp, Sum.inr.injEq, Prod.mk.injEq] at h
          obtain ⟨rfl, rfl⟩ := h
          rcases ht with ⟨-, hne⟩ | ⟨answer, ht, hans⟩
          · exact absurd rfl hne
          · obtain ⟨res, rfl, h401, rfl⟩ := hans rfl hch
            exact ⟨hc, res, h401, ht, st, rfl, hp⟩

/-- An arrival at `computeResponseAndFetch` that returns. -/
theorem requestFetch_final {r : DigestAuthRequestor} {w : World} {origUri : URL}
    {credentials : Userinfo} {state : DigestAuthState} {shared : Bool} {sys sys1 : Sys}
    {res : Result}
    (h : requestFetch r w origUri credentials state shared sys = Sum.inl (res, sys1)) :
    res ≠ Result.unfinished ∧
    (∀ x, res ≠ Result.ret x (some RequestError.ErrDigestAuthMissingCredentials)) ∧
    ∃ T, sys1.trace = sys.trace ++ T ∧
      (((∀ e ∈ T, e.persists = false) ∧ (gets T = [] ∨ ∃ s, gets T = [(true, s)]) ∧
          (r.EnablePerHostAuthStateCache = true → lastAuthOk T = false)) ∨
        (r.EnablePerHostAuthStateCache = true ∧ ∃ req resp,
          req.authorization = some (state.ComputeResponse (w.env sys.trace)
            ({ origUri with User := none } : URL).RequestURI credentials).1.1 ∧
          (200 ≤ resp.StatusCode ∧ resp.StatusCode ≤ 299) ∧
          res = Result.ret (some resp) none ∧
          T = Event.transport req (some resp) :: persistTail r origUri.Host
            (state.ComputeResponse (w.env sys.trace)
              ({ origUri with User := none } : URL).RequestURI credentials).2 ∧
          Cache.Load sys1.cache origUri.Host = some (persisted r
            (state.ComputeResponse (w.env sys.trace)
              ({ origUri with User := none } : URL).RequestURI credentials).2))) := by
  unfold requestFetch at h
  simp only [] at h
  cases hc : state.ComputeResponse (w.env sys.trace)
      ({ origUri with User := none } : URL).RequestURI credentials with
  | mk a st1 =>
  obtain ⟨hdr, oerr⟩ := a
  simp only [hc] at h
  generalize hs0 : (if shared = true then
      ({ sys with cache := Cache.Store sys.cache origUri.Host st1 } : Sys) else sys) = sys0 at h
  have ht0 : sys0.trace = sys.trace := by
    rw [← hs0]; cases shared <;> rfl
  cases oerr with
  | some e =>
    simp only [Sum.inl.injEq, Prod.mk.injEq] at h
    obtain ⟨rfl, rfl⟩ := h
    exact ⟨by simp, by simp, [], by simp [ht0], Or.inl ⟨by simp, Or.inl rfl, fun _ => rfl⟩⟩
  | none =>
    simp only [] at h
    by_cases hn : w.newRequest { origUri with User := none } = false
    · rw [if_pos hn] at h
      simp only [Sum.inl.injEq, Prod.mk.injEq] at h
      obtain ⟨rfl, rfl⟩ := h
      exact ⟨by simp, by simp, [], by simp [ht0], Or.inl ⟨by simp, Or.inl rfl, fun _ => rfl⟩⟩
    · rw [if_neg hn] at h
      generalize hreq : ({ uri := { origUri with User := none }, authorization := some hdr } :
        HttpRequest) = req at h
      have hra : req.authorization = some hdr := by rw [← hreq]
      cases ha : r.Client sys0.trace req with
      | none =>
        simp only [ha, Sum.inl.injEq, Prod.mk.injEq] at h
        obtain ⟨rfl, rfl⟩ := h
        refine ⟨by simp, by simp, [Event.transport req none], by simp [ht0], Or.inl ⟨?_, ?_, ?_⟩⟩
        · simp [Event.persists]
        · exact Or.inr ⟨none, by simp [gets, hra]⟩
        · intro _
          simp [lastAuthOk, lastAuthOkFrom]
      | some resp =>
        simp only [ha] at h
        by_cases he : r.EnablePerHostAuthStateCache = false
        · rw [if_pos he] at h
          simp only [Sum.inl.injEq, Prod.mk.injEq] at h
          obtain ⟨rfl, rfl⟩ := h
          refine ⟨by simp, by simp, [Event.transport req (some resp)], by simp [ht0],
            Or.inl ⟨?_, ?_, ?_⟩⟩
          · simp [Event.persists]
          · exact Or.inr ⟨some resp.StatusCode, by simp [gets, hra]⟩
          · intro h1
            rw [h1] at he
            cases he
        · rw [if_neg he] at h
          have he1 : r.EnablePerHostAuthStateCache = true := by
            cases hb : r.EnablePerHostAuthStateCache
            · exact absurd hb he
            · rfl
          by_cases h401 : resp.StatusCode = 401 ∧ st1.IsFresh = false
          · rw [if_pos h401] at h
            cases hch : challengeFromResponse resp with
            | error e => simp [hch] at h
            | ok challenge =>
              simp only [hch] at h
              cases hp : newDigestAuthStateFromChallenge (w.spare challenge)
                  (w.now (sys0.trace ++ [Event.transport req (some resp)] ++
                    [Event.delete origUri.Host])) challenge with
              | ok st => rw [hp] at h; cases h
              | error o =>
                cases o with
                | panic =>
                  simp only [hp, Sum.inl.injEq, Prod.mk.injEq] at h
                  obtain ⟨rfl, rfl⟩ := h
                  refine ⟨by simp, by simp,
                    [Event.transport req (some resp), Event.delete origUri.Host],
                    by simp [ht0], Or.inl ⟨?_, ?_, ?_⟩⟩
                  · simp [Event.persists]
                  · exact Or.inr ⟨some resp.StatusCode, by simp [gets, hra]⟩
                  · intro _
                    simp [lastAuthOk, lastAuthOkFrom, h401.1]
                | error e => rw [hp] at h; cases h
                | ok p => rw [hp] at h; cases h
          · rw [if_neg h401] at h
            by_cases h2 : 200 ≤ resp.StatusCode ∧ resp.StatusCode ≤ 299
            · rw [if_pos h2] at h
              cases hh : r.BeforePersistState with
              | some f =>
                simp only [hh, Sum.inl.injEq, Prod.mk.injEq] at h
                obtain ⟨rfl, rfl⟩ := h
                refine ⟨by simp, by simp,
                  Event.transport req (some resp) :: persistTail r origUri.Host st1,
                  by simp [ht0, persistTail, hh],
                  Or.inr ⟨he1, req, resp, hra, h2, rfl, rfl, ?_⟩⟩
                simp [persisted, hh, Cache.Load_Store]
              | none =>
                simp only [hh, Sum.inl.injEq, Prod.mk.injEq] at h
                obtain ⟨rfl, rfl⟩ := h
                refine ⟨by simp, by simp,
                  Event.transport req (some resp) :: persistTail r origUri.Host st1,
                  by simp [ht0, persistTail, hh],
                  Or.inr ⟨he1, req, resp, hra, h2, rfl, rfl, ?_⟩⟩
                simp [persisted, hh, Cache.Load_Store]
            · rw [if_neg h2] at h
              simp only [Sum.inl.injEq, Prod.mk.injEq] at h
              obtain ⟨rfl, rfl⟩ := h
              refine ⟨by simp, by simp, [Event.transport req (some resp)], by simp [ht0],
                Or.inl ⟨?_, ?_, ?_⟩⟩
              · simp [Event.persists]
              · exact Or.inr ⟨some resp.StatusCode, by simp [gets, hra]⟩
              · intro _
                simp only [lastAuthOk, lastAuthOkFrom, hra, Option.isSome_some, if_true]
                simpa using h2

/-- An arrival at `computeResponseAndFetch` that jumps: the state is a reused one, the GET was
answered 401, and the entry for the host is gone from the cache. -/
theorem requestFetch_jump {r : DigestAuthRequestor} {w : World} {origUri : URL}
    {credentials : Userinfo} {state : DigestAuthState} {shared : Bool} {sys sys1 : Sys}
    {label : Label}
    (h : requestFetch r w origUri credentials state shared sys = Sum.inr (label, sys1)) :
    r.EnablePerHostAuthStateCache = true ∧ state.nonceCount ≠ 0 ∧
    Cache.Load sys1.cache origUri.Host = none ∧
    (∃ req resp, req.authorization.isSome = true ∧ resp.StatusCode = 401 ∧
      sys1.trace = sys.trace ++ [Event.transport req (some resp), Event.delete origUri.Host]) ∧
    (label = Label.Request ∨
      ∃ st, label = Label.computeResponseAndFetch credentials st false ∧ st.nonceCount = 0) := by
  unfold requestFetch at h
  simp only [] at h
  have hcount := ComputeResponse_nonceCount (w.env sys.trace) state
      ({ origUri with User := none } : URL).RequestURI credentials
  cases hc : state.ComputeResponse (w.env sys.trace)
      ({ origUri with User := none } : URL).RequestURI credentials with
  | mk a st1 =>
  obtain ⟨hdr, oerr⟩ := a
  simp only [hc] at h hcount
  generalize hs0 : (if shared = true then
      ({ sys with cache := Cache.Store sys.cache origUri.Host st1 } : Sys) else sys) = sys0 at h
  have ht0 : sys0.trace = sys.trace := by
    rw [← hs0]; cases shared <;> rfl
  cases oerr with
  | some e => simp at h
  | none =>
    simp only [] at h
    by_cases hn : w.newRequest { origUri with User := none } = false
    · rw [if_pos hn] at h
      simp at h
    · rw [if_neg hn] at h
      generalize hreq : ({ uri := { origUri with User := none }, authorization := some hdr } :
        HttpRequest) = req at h
      have hra : req.authorization = some hdr := by rw [← hreq]
      cases ha : r.Client sys0.trace req with
      | none => simp [ha] at h
      | some resp =>
        simp only [ha] at h
        by_cases he : r.EnablePerHostAuthStateCache = false
        · rw [if_pos he] at h
          simp at h
        · rw [if_neg he] at h
          have he1 : r.EnablePerHostAuthStateCache = true := by
            cases hb : r.EnablePerHostAuthStateCache
            · exact absurd hb he
            · rfl
          by_cases h401 : resp.StatusCode = 401 ∧ st1.IsFresh = false
          · rw [if_pos h401] at h
            have hnz : state.nonceCount ≠ 0 := by
              intro h0
              have := h401.2
              simp [DigestAuthState.IsFresh, hcount, h0] at this
            have hfacts : ∀ sys2 : Sys, sys2 = Sys.mk (Cache.Delete sys0.cache origUri.Host)
                  (sys0.trace ++ [Event.transport req (some resp)] ++
                    [Event.delete origUri.Host]) →
                Cache.Load sys2.cache origUri.Host = none ∧
                ∃ req resp, req.authorization.isSome = true ∧ resp.StatusCode = 401 ∧
                  sys2.trace = sys.trace ++
                    [Event.transport req (some resp), Event.delete origUri.Host] := by
              intro sys2 h2
              subst h2
              exact ⟨Cache.Load_Delete _ _, req, resp, by simp [hra], h401.1, by simp [ht0]⟩
            cases hch : challengeFromResponse resp with
            | error e =>
              simp only [hch, Sum.inr.injEq, Prod.mk.injEq] at h
              obtain ⟨rfl, rfl⟩ := h
              obtain ⟨h1, h2⟩ := hfacts _ rfl
              exact ⟨he1, hnz, h1, h2, Or.inl rfl⟩
            | ok challenge =>
              simp only [hch] at h
              cases hp : newDigestAuthStateFromChallenge (w.spare challenge)
                  (w.now (sys0.trace ++ [Event.transport req (some resp)] ++
                    [Event.delete origUri.Host])) challenge with
              | ok st =>
                simp only [hp, Sum.inr.injEq, Prod.mk.injEq] at h
                obtain ⟨rfl, rfl⟩ := h
                obtain ⟨h1, h2⟩ := hfacts _ rfl
                exact ⟨he1, hnz, h1, h2, Or.inr ⟨st, rfl, newDigestAuthState_nonceCount hp⟩⟩
              | error o =>
                cases o with
                | panic => rw [hp] at h; cases h
                | error e =>
                  simp only [hp, Sum.inr.injEq, Prod.mk.injEq] at h
                  obtain ⟨rfl, rfl⟩ := h
                  obtain ⟨h1, h2⟩ := hfacts _ rfl
                  exact ⟨he1, hnz, h1, h2, Or.inl rfl⟩
                | ok p =>
                  simp only [hp, Sum.inr.injEq, Prod.mk.injEq] at h
                  obtain ⟨rfl, rfl⟩ := h
                  obtain ⟨h1, h2⟩ := hfacts _ rfl
                  exact ⟨he1, hnz, h1, h2, Or.inl rfl⟩
          · rw [if_neg h401] at h
            by_cases h2 : 200 ≤ resp.StatusCode ∧ resp.StatusCode ≤ 299
            · rw [if_pos h2] at h
              cases hh : r.BeforePersistState <;> simp [hh] at h
            · rw [if_neg h2] at h
              simp at h

/-! ## The requestor: the entry, and the run -/

/-- An arrival at the entry of `Request` that returns. -/
theorem requestEntry_final {r : DigestAuthRequestor} {w : World} {origUri : URL}
    {sys sys1 : Sys} {res : Result}
    (h : requestEntry r w origUri sys = Sum.inl (res, sys1)) :
    res ≠ Result.unfinished ∧
    (origUri.User ≠ none →
      ∀ x, res ≠ Result.ret x (some RequestError.ErrDigestAuthMissingCredentials)) ∧
    ∃ T, sys1.trace = sys.trace ++ T ∧ (∀ e ∈ T, e.persists = false) ∧
      (gets T = [] ∨ ∃ s, gets T = [(false, s)]) ∧ lastAuthOk T = false := by
  unfold requestEntry at h
  cases hu : origUri.User with
  | none =>
    simp only [hu, Sum.inl.injEq, Prod.mk.injEq] at h
    obtain ⟨rfl, rfl⟩ := h
    exact ⟨by simp, fun hne => absurd rfl hne, [], by simp, by simp, Or.inl rfl, rfl⟩
  | some credentials =>
    simp only [hu] at h
    obtain ⟨⟨T1, ht1, hT1⟩, hsome, -⟩ := cacheLookup_spec r origUri sys
    cases hl : cacheLookup r origUri sys with
    | mk o sys2 =>
    rw [hl] at h ht1
    cases o with
    | some st => cases h
    | none =>
      simp only [] at h
      obtain ⟨h1, h2, -, T2, ht2, hT2⟩ := coldStart_final h
      refine ⟨h1, fun _ => h2, T1 ++ T2, by rw [ht2, ht1, List.append_assoc], ?_⟩
      rcases hT1 with rfl | rfl | rfl <;> rcases hT2 with rfl | ⟨answer, rfl⟩ <;>
        simp [gets, Event.persists, lastAuthOk, lastAuthOkFrom]

/-- An arrival at the entry of `Request` that goes on to `computeResponseAndFetch`: with the
cached state and no GET so far, or with a new state after the GET for the challenge. -/
theorem requestEntry_jump {r : DigestAuthRequestor} {w : World} {origUri : URL}
    {sys sys1 : Sys} {label : Label}
    (h : requestEntry r w origUri sys = Sum.inr (label, sys1)) :
    ∃ T, sys1.trace = sys.trace ++ T ∧ (∀ e ∈ T, e.persists = false) ∧ lastAuthOk T = false ∧
      ∃ credentials state,
        (label = Label.computeResponseAndFetch credentials state true ∧ gets T = [] ∧
          r.EnablePerHostAuthStateCache = true ∧
          Cache.Load sys.cache origUri.Host = some state) ∨
        (label = Label.computeResponseAndFetch credentials state false ∧
          state.nonceCount = 0 ∧ ∃ s, gets T = [(false, s)]) := by
  unfold requestEntry at h
  cases hu : origUri.User with
  | none => simp [hu] at h
  | some credentials =>
    simp only [hu] at h
    obtain ⟨⟨T1, ht1, hT1⟩, hsome, -⟩ := cacheLookup_spec r origUri sys
    cases hl : cacheLookup r origUri sys with
    | mk o sys2 =>
    rw [hl] at h ht1 hsome
    cases o with
    | some st =>
      simp only [Sum.inr.injEq, Prod.mk.injEq] at h
      obtain ⟨rfl, rfl⟩ := h
      obtain ⟨he, hload, -⟩ := hsome st rfl
      refine ⟨T1, ht1, ?_, ?_, credentials, st, Or.inl ⟨rfl, ?_, he, hload⟩⟩ <;>
        rcases hT1 with rfl | rfl | rfl <;>
        simp [gets, Event.persists, lastAuthOk, lastAuthOkFrom]
    | none =>
      simp only [] at h
      obtain ⟨-, res, -, ht2, st, rfl, hst⟩ := coldStart_jump h
      refine ⟨T1 ++ [Event.transport
          { uri := { origUri with User := none }, authorization := none } (some res)],
        by rw [ht2, ht1, List.append_assoc], ?_, ?_, credentials, st,
        Or.inr ⟨rfl, newDigestAuthState_nonceCount hst, some res.StatusCode, ?_⟩⟩ <;>
        rcases hT1 with rfl | rfl | rfl <;>
        simp [gets, Event.persists, lastAuthOk, lastAuthOkFrom]

theorem rank_pos (r : DigestAuthRequestor) (origUri : URL) (label : Label) (sys : Sys) :
    0 < rank r origUri label sys := by
  cases label <;> simp only [rank] <;> split <;> decide

theorem rank_le (r : DigestAuthRequestor) (origUri : URL) (label : Label) (sys : Sys) :
    rank r origUri label sys ≤ 4 := by
  cases label <;> simp only [rank] <;> split <;> decide

/-- Every jump leads to a label of smaller rank. -/
theorem step_rank {r : DigestAuthRequestor} {w : World} {origUri : URL} {label label1 : Label}
    {sys sys1 : Sys} (h : requestStep r w origUri label sys = Sum.inr (label1, sys1)) :
    rank r origUri label1 sys1 < rank r origUri label sys := by
  cases label with
  | Request =>
    obtain ⟨T, -, -, -, credentials, state, hc⟩ := requestEntry_jump h
    rcases hc with ⟨rfl, -, he, hload⟩ | ⟨rfl, h0, -⟩
    · have : rank r origUri Label.Request sys = 4 := by simp [rank, he, hload]
      rw [this]
      simp only [rank]
      split <;> decide
    · have h1 : rank r origUri (Label.computeResponseAndFetch credentials state false) sys1 = 1 := by
        simp [rank, h0]
      rw [h1]
      simp only [rank]
      split <;> decide
  | computeResponseAndFetch credentials state shared =>
    obtain ⟨-, hnz, hload, -, hl⟩ := requestFetch_jump h
    have : rank r origUri (Label.computeResponseAndFetch credentials state shared) sys = 3 := by
      simp [rank, hnz]
    rw [this]
    rcases hl with rfl | ⟨st, rfl, h0⟩
    · simp [rank, hload]
    · simp [rank, h0]

/-- Induction over a run: a property that holds of the returns and is handed back over the
jumps holds of every run with fuel for its rank. -/
theorem run_induct (r : DigestAuthRequestor) (w : World) (origUri : URL)
    (P : Label → Sys → Result × Sys → Prop)
    (hfinal : ∀ label sys out, requestStep r w origUri label sys = Sum.inl out → P label sys out)
    (hjump : ∀ label sys label1 sys1 out,
      requestStep r w origUri label sys = Sum.inr (label1, sys1) →
      P label1 sys1 out → P label sys out) :
    ∀ fuel label sys, rank r origUri label sys ≤ fuel →
      P label sys (run r w origUri fuel label sys) := by
  intro fuel
  induction fuel with
  | zero =>
    intro label sys h
    have := rank_pos r origUri label sys
    omega
  | succ fuel ih =>
    intro label sys h
    unfold run
    cases hs : requestStep r w origUri label sys with
    | inl out => exact hfinal label sys out hs
    | inr next =>
      obtain ⟨label1, sys1⟩ := next
      have := step_rank hs
      exact hjump label sys label1 sys1 _ hs (ih label1 sys1 (by omega))

/-- More fuel does not change a run that has returned. -/
theorem run_succ (r : DigestAuthRequestor) (w : World) (origUri : URL) :
    ∀ fuel label sys, (run r w origUri fuel label sys).1 ≠ Result.unfinished →
      run r w origUri (fuel + 1) label sys = run r w origUri fuel label sys := by
  intro fuel
  induction fuel with
  | zero => intro label sys h; exact absurd rfl h
  | succ fuel ih =>
    intro label sys h
    rw [run] at h ⊢
    cases hs : requestStep r w origUri label sys with
    | inl out => simp [run, hs]
    | inr next =>
      obtain ⟨label1, sys1⟩ := next
      rw [hs] at h
      simp only [] at h ⊢
      have := ih label1 sys1 h
      rw [this]
      conv_rhs => rw [run]
      simp [hs]

/-! ## The requestor: whole calls -/

theorem getsShape_entry (r : DigestAuthRequestor) (origUri : URL) (sys : Sys)
    (g : List (Bool × Option Nat)) (h : getsShape 2 g) :
    getsShape (rank r origUri Label.Request sys) g := by
  simp only [rank]
  split
  · exact Or.inr h
  · exact h

theorem getsShape_fetch (r : DigestAuthRequestor) (origUri : URL) (sys : Sys)
    (credentials : Userinfo) (state : DigestAuthState) (shared : Bool)
    (g : List (Bool × Option Nat)) (h : getsShape 1 g) :
    getsShape (rank r origUri (Label.computeResponseAndFetch credentials state shared) sys) g := by
  simp only [rank]
  split
  · exact h
  · exact Or.inl h

theorem gets_persistTail (r : DigestAuthRequestor) (host : GoString) (state : DigestAuthState) :
    gets (persistTail r host state) = [] := by
  unfold persistTail
  cases r.BeforePersistState <;> rfl

theorem lastAuthOkFrom_persistTail (r : DigestAuthRequestor) (host : GoString)
    (state : DigestAuthState) (acc : Bool) :
    lastAuthOkFrom acc (persistTail r host state) = acc := by
  unfold persistTail
  cases r.BeforePersistState <;> rfl

theorem store_mem_persistTail (r : DigestAuthRequestor) (host : GoString)
    (state : DigestAuthState) :
    Event.store host (persisted r state) ∈ persistTail r host state := by
  unfold persistTail persisted
  cases r.BeforePersistState <;> simp

/-- The GET requests of a run, by the rank of its label. -/
theorem run_gets (r : DigestAuthRequestor) (w : World) (origUri : URL) :
    ∀ fuel label sys, rank r origUri label sys ≤ fuel →
      (run r w origUri fuel label sys).1 ≠ Result.unfinished ∧
      ∃ T, (run r w origUri fuel label sys).2.trace = sys.trace ++ T ∧
        getsShape (rank r origUri label sys) (gets T) := by
  apply run_induct r w origUri (fun label sys out => out.1 ≠ Result.unfinished ∧
    ∃ T, out.2.trace = sys.trace ++ T ∧ getsShape (rank r origUri label sys) (gets T))
  · intro label sys out h
    obtain ⟨res, sys1⟩ := out
    cases label with
    | Request =>
      obtain ⟨h1, -, T, ht, -, hg, -⟩ := requestEntry_final h
      refine ⟨h1, T, ht, getsShape_entry _ _ _ _ ?_⟩
      rcases hg with hg | ⟨s, hg⟩
      · exact Or.inl hg
      · exact Or.inr (Or.inl ⟨s, hg⟩)
    | computeResponseAndFetch credentials state shared =>
      obtain ⟨h1, -, T, ht, hT⟩ := requestFetch_final h
      refine ⟨h1, T, ht, getsShape_fetch _ _ _ _ _ _ _ ?_⟩
      rcases hT with ⟨-, hg, -⟩ | ⟨-, req, resp, hra, -, -, rfl, -⟩
      · exact hg
      · exact Or.inr ⟨some resp.StatusCode, by simp [gets, hra, gets_persistTail]⟩
  · intro label sys label1 sys1 out h hP
    obtain ⟨h1, T1, ht1, hg1⟩ := hP
    refine ⟨h1, ?_⟩
    cases label with
    | Request =>
      obtain ⟨T, ht, -, -, credentials, state, hc⟩ := requestEntry_jump h
      refine ⟨T ++ T1, by rw [ht1, ht, List.append_assoc], ?_⟩
      rw [gets_append]
      rcases hc with ⟨rfl, hg, he, hload⟩ | ⟨rfl, h0, s, hg⟩
      · have hr : rank r origUri Label.Request sys = 4 := by simp [rank, he, hload]
        rw [hr, hg, List.nil_append]
        simp only [rank] at hg1
        split at hg1
        · exact Or.inl (Or.inl hg1)
        · exact Or.inl hg1
      · apply getsShape_entry
        have hr : rank r origUri (Label.computeResponseAndFetch credentials state false) sys1
            = 1 := by simp [rank, h0]
        rw [hr] at hg1
        rw [hg]
        simp only [getsShape, getsFresh] at hg1
        rcases hg1 with hg1 | ⟨s1, hg1⟩
        · exact Or.inr (Or.inl ⟨s, by rw [hg1]; rfl⟩)
        · exact Or.inr (Or.inr ⟨s, s1, by rw [hg1]; rfl⟩)
    | computeResponseAndFetch credentials state shared =>
      obtain ⟨-, hnz, hload, ⟨req, resp, hra, h401, ht⟩, hl⟩ := requestFetch_jump h
      refine ⟨[Event.transport req (some resp), Event.delete origUri.Host] ++ T1,
        by rw [ht1, ht, List.append_assoc], ?_⟩
      have hr : rank r origUri (Label.computeResponseAndFetch credentials state shared) sys
          = 3 := by simp [rank, hnz]
      rw [hr, gets_append]
      refine Or.inr ⟨gets T1, by simp [gets, hra, h401], ?_⟩
      rcases hl with rfl | ⟨st, rfl, h0⟩
      · have hr1 : rank r origUri Label.Request sys1 = 2 := by simp [rank, hload]
        rw [hr1] at hg1
        exact Or.inr hg1
      · have hr1 : rank r origUri (Label.computeResponseAndFetch credentials st false) sys1
            = 1 := by simp [rank, h0]
        rw [hr1] at hg1
        exact Or.inl hg1

theorem recoveryShape_of_getsShape (g : List (Bool × Option Nat)) (h : getsShape 4 g) :
    recoveryShape g ∧ g.length ≤ 3 := by
  unfold recoveryShape
  simp only [getsShape, getsReuse, getsFresh, getsCold] at h
  rcases h with ((h | ⟨s, h⟩) | ⟨g1, h, (h1 | ⟨s, h1⟩) | (h1 | ⟨s, h1⟩ | ⟨s, s1, h1⟩)⟩) |
    (h | ⟨s, h⟩ | ⟨s, s1, h⟩)
  all_goals subst_vars
  all_goals simp

/-- The events of persisting, along a run with caching enabled. -/
theorem run_persists (r : DigestAuthRequestor) (w : World) (origUri : URL)
    (he : r.EnablePerHostAuthStateCache = true) :
    ∀ fuel label sys, rank r origUri label sys ≤ fuel →
      ∃ T, (run r w origUri fuel label sys).2.trace = sys.trace ++ T ∧
        (((∀ e ∈ T, e.persists = false) ∧ lastAuthOk T = false) ∨
          ∃ (T0 : List Event) (req : HttpRequest) (resp : Response) (state0 : DigestAuthState)
              (events : List Event) (credentials : Userinfo),
            (∀ e ∈ T0, e.persists = false) ∧
            req.authorization = some (state0.ComputeResponse (w.env events)
              ({ origUri with User := none } : URL).RequestURI credentials).1.1 ∧
            (200 ≤ resp.StatusCode ∧ resp.StatusCode ≤ 299) ∧
            (run r w origUri fuel label sys).1 = Result.ret (some resp) none ∧
            T = T0 ++ Event.transport req (some resp) :: persistTail r origUri.Host
              (state0.ComputeResponse (w.env events)
                ({ origUri with User := none } : URL).RequestURI credentials).2 ∧
            Cache.Load (run r w origUri fuel label sys).2.cache origUri.Host =
              some (persisted r (state0.ComputeResponse (w.env events)
                ({ origUri with User := none } : URL).RequestURI credentials).2)) := by
  apply run_induct r w origUri (fun label sys out =>
    ∃ T, out.2.trace = sys.trace ++ T ∧
        (((∀ e ∈ T, e.persists = false) ∧ lastAuthOk T = false) ∨
          ∃ (T0 : List Event) (req : HttpRequest) (resp : Response) (state0 : DigestAuthState)
              (events : List Event) (credentials : Userinfo),
            (∀ e ∈ T0, e.persists = false) ∧
            req.authorization = some (state0.ComputeResponse (w.env events)
              ({ origUri with User := none } : URL).RequestURI credentials).1.1 ∧
            (200 ≤ resp.StatusCode ∧ resp.StatusCode ≤ 299) ∧
            out.1 = Result.ret (some resp) none ∧
            T = T0 ++ Event.transport req (some resp) :: persistTail r origUri.Host
              (state0.ComputeResponse (w.env events)
                ({ origUri with User := none } : URL).RequestURI credentials).2 ∧
            Cache.Load out.2.cache origUri.Host =
              some (persisted r (state0.ComputeResponse (w.env events)
                ({ origUri with User := none } : URL).RequestURI credentials).2)))
  · intro label sys out h
    obtain ⟨res, sys1⟩ := out
    cases label with
    | Request =>
      obtain ⟨-, -, T, ht, hp, -, hl⟩ := requestEntry_final h
      exact ⟨T, ht, Or.inl ⟨hp, hl⟩⟩
    | computeResponseAndFetch credentials state shared =>
      obtain ⟨-, -, T, ht, hT⟩ := requestFetch_final h
      refine ⟨T, ht, ?_⟩
      rcases hT with ⟨hp, -, hl⟩ | ⟨-, req, resp, hra, h2, hres, hT, hc⟩
      · exact Or.inl ⟨hp, hl he⟩
      · exact Or.inr ⟨[], req, resp, state, sys.trace, credentials, by simp, hra, h2, hres,
          by simpa using hT, hc⟩
  · intro label sys label1 sys1 out h hP
    obtain ⟨T1, ht1, hT1⟩ := hP
    have hstep : ∃ T, sys1.trace = sys.trace ++ T ∧ (∀ e ∈ T, e.persists = false) ∧
        lastAuthOk T = false := by
      cases label with
      | Request =>
        obtain ⟨T, ht, hp, hl, -⟩ := requestEntry_jump h
        exact ⟨T, ht, hp, hl⟩
      | computeResponseAndFetch credentials state shared =>
        obtain ⟨-, -, -, ⟨req, resp, hra, h401, ht⟩, -⟩ := requestFetch_jump h
        refine ⟨_, ht, by simp [Event.persists], ?_⟩
        simp [lastAuthOk, lastAuthOkFrom, hra, h401]
    obtain ⟨T, ht, hp, hl⟩ := hstep
    refine ⟨T ++ T1, by rw [ht1, ht, List.append_assoc], ?_⟩
    rcases hT1 with ⟨hp1, hl1⟩ | ⟨T0, req, resp, state0, events, credentials, hp0, hra, h2, hres,
      hT, hc⟩
    · refine Or.inl ⟨?_, ?_⟩
      · intro e hmem
        rcases List.mem_append.1 hmem with hm | hm
        · exact hp e hm
        · exact hp1 e hm
      · unfold lastAuthOk at hl hl1 ⊢
        rw [lastAuthOkFrom_append, hl, hl1]
    · refine Or.inr ⟨T ++ T0, req, resp, state0, events, credentials, ?_, hra, h2, hres,
        by rw [hT, List.append_assoc], hc⟩
      intro e hmem
      rcases List.mem_append.1 hmem with hm | hm
      · exact hp e hm
      · exact hp0 e hm

/-! ## Claims about `Request` -/

theorem newDigestAuthState_nil (spare : List Char) (now : Nat) (state : DigestAuthState) :
    newDigestAuthStateFromChallenge spare now [] ≠ Except.ok state := by
  simp [newDigestAuthStateFromChallenge, parseWWWAuthenticate, hasPrefix, digestLit]

/-- Without caching, a run has no call of the hook and no store. -/
theorem run_disabled (r : DigestAuthRequestor) (w : World) (origUri : URL)
    (he : r.EnablePerHostAuthStateCache = false) :
    ∀ fuel label sys, rank r origUri label sys ≤ fuel →
      ∃ T, (run r w origUri fuel label sys).2.trace = sys.trace ++ T ∧
        ∀ e ∈ T, e.persists = false := by
  apply run_induct r w origUri (fun label sys out =>
    ∃ T, out.2.trace = sys.trace ++ T ∧ ∀ e ∈ T, e.persists = false)
  · intro label sys out h
    obtain ⟨res, sys1⟩ := out
    cases label with
    | Request =>
      obtain ⟨-, -, T, ht, hp, -, -⟩ := requestEntry_final h
      exact ⟨T, ht, hp⟩
    | computeResponseAndFetch credentials state shared =>
      obtain ⟨-, -, T, ht, hT⟩ := requestFetch_final h
      rcases hT with ⟨hp, -, -⟩ | ⟨he1, -⟩
      · exact ⟨T, ht, hp⟩
      · rw [he] at he1
        cases he1
  · intro label sys label1 sys1 out h hP
    obtain ⟨T1, ht1, hp1⟩ := hP
    cases label with
    | Request =>
      obtain ⟨T, ht, hp, -, -⟩ := requestEntry_jump h
      refine ⟨T ++ T1, by rw [ht1, ht, List.append_assoc], ?_⟩
      intro e hmem
      rcases List.mem_append.1 hmem with hm | hm
      · exact hp e hm
      · exact hp1 e hm
    | computeResponseAndFetch credentials state shared =>
      obtain ⟨he1, -⟩ := requestFetch_jump h
      rw [he] at he1
      cases he1

/-- C19 (missing credentials): for a target without user information `Request` returns
`ErrDigestAuthMissingCredentials` and no response and leaves the cache and the events as
they were (no call of the transport, no load from the cache); and `Request` returns that
error only for a target without user information. -/
theorem missing_credentials (r : DigestAuthRequestor) (w : World) (origUri : URL) (sys : Sys) :
    r.Request w { origUri with User := none } sys =
      (Result.ret none (some RequestError.ErrDigestAuthMissingCredentials), sys) ∧
    ((∃ x, (r.Request w origUri sys).1 =
        Result.ret x (some RequestError.ErrDigestAuthMissingCredentials)) ↔
      origUri.User = none) := by
  refine ⟨rfl, ?_, ?_⟩
  · rintro ⟨x, hx⟩
    by_contra hne
    have := run_induct r w origUri
      (fun _ _ out => ∀ x, out.1 ≠ Result.ret x (some RequestError.ErrDigestAuthMissingCredentials))
      (by
        intro label sys out h
        obtain ⟨res, sys1⟩ := out
        cases label with
        | Request => exact (requestEntry_final h).2.1 hne
        | computeResponseAndFetch credentials state shared => exact (requestFetch_final h).2.1)
      (fun _ _ _ _ _ _ hP => hP) 4 Label.Request sys (rank_le _ _ _ _)
    exact this x hx
  · intro hu
    obtain ⟨user, host, uri⟩ := origUri
    simp only at hu
    subst hu
    exact ⟨none, rfl⟩

/-! ## The requestor: the outcome of the last attempt, salvage and restart -/

theorem transports_append (A B : List Event) :
    transports (A ++ B) = transports A ++ transports B := by
  induction A with
  | nil => rfl
  | cons e A ih => cases e <;> simp [transports, ih]

theorem gets_eq_map_transports (T : List Event) :
    gets T = (transports T).map
      (fun p => (p.1.authorization.isSome, p.2.map Response.StatusCode)) := by
  induction T with
  | nil => rfl
  | cons e T ih => cases e <;> simp [gets, transports, ih]

theorem transports_persistTail (r : DigestAuthRequestor) (host : GoString)
    (state : DigestAuthState) : transports (persistTail r host state) = [] := by
  unfold persistTail
  cases r.BeforePersistState <;> rfl

theorem transports_nil_of_gets {T : List Event} (h : gets T = []) : transports T = [] := by
  rw [gets_eq_map_transports] at h
  exact List.map_eq_nil_iff.1 h

theorem transports_of_gets_single {T : List Event} {a : Bool} {s : Option Nat}
    (h : gets T = [(a, s)]) :
    ∃ req answer, transports T = [(req, answer)] ∧ req.authorization.isSome = a := by
  rw [gets_eq_map_transports] at h
  cases ht : transports T with
  | nil => rw [ht] at h; cases h
  | cons p rest =>
    rw [ht] at h
    cases rest with
    | nil =>
      simp only [List.map, List.cons.injEq, Prod.mk.injEq, and_true] at h
      exact ⟨p.1, p.2, rfl, h.1⟩
    | cons q rest => simp at h

/-- An arrival at `computeResponseAndFetch` that returns: no GET was made (the response
could not be computed, or the request could not be built), or the one GET of the arrival
carries the computed header and its outcome is returned, or a reused state was answered 401
and the call panics in the parser of the challenge. -/
theorem requestFetch_outcome {r : DigestAuthRequestor} {w : World} {origUri : URL}
    {credentials : Userinfo} {state : DigestAuthState} {shared : Bool} {sys sys1 : Sys}
    {res : Result}
    (h : requestFetch r w origUri credentials state shared sys = Sum.inl (res, sys1)) :
    ∃ T, sys1.trace = sys.trace ++ T ∧
      ((transports T = [] ∧
          ((state.ComputeResponse (w.env sys.trace)
              ({ origUri with User := none } : URL).RequestURI credentials).1.2 ≠ none ∨
            w.newRequest { origUri with User := none } = false)) ∨
        (transports T =
            [({ uri := { origUri with User := none },
                authorization := some (state.ComputeResponse (w.env sys.trace)
                  ({ origUri with User := none } : URL).RequestURI credentials).1.1 },
              r.Client sys.trace
                { uri := { origUri with User := none },
                  authorization := some (state.ComputeResponse (w.env sys.trace)
                    ({ origUri with User := none } : URL).RequestURI credentials).1.1 })] ∧
          (res = attemptOutcome (r.Client sys.trace
                { uri := { origUri with User := none },
                  authorization := some (state.ComputeResponse (w.env sys.trace)
                    ({ origUri with User := none } : URL).RequestURI credentials).1.1 }) ∨
            (state.nonceCount ≠ 0 ∧ gets T = [(true, some 401)])))) := by
  unfold requestFetch at h
  simp only [] at h
  have hcount := ComputeResponse_nonceCount (w.env sys.trace) state
      ({ origUri with User := none } : URL).RequestURI credentials
  cases hc : state.ComputeResponse (w.env sys.trace)
      ({ origUri with User := none } : URL).RequestURI credentials with
  | mk a st1 =>
  obtain ⟨hdr, oerr⟩ := a
  simp only [hc] at h hcount ⊢
  generalize hs0 : (if shared = true then
      ({ sys with cache := Cache.Store sys.cache origUri.Host st1 } : Sys) else sys) = sys0 at h
  have ht0 : sys0.trace = sys.trace := by
    rw [← hs0]; cases shared <;> rfl
  cases oerr with
  | some e =>
    simp only [Sum.inl.injEq, Prod.mk.injEq] at h
    obtain ⟨rfl, rfl⟩ := h
    exact ⟨[], by simp [ht0], Or.inl ⟨rfl, Or.inl (by simp)⟩⟩
  | none =>
    simp only [] at h
    by_cases hn : w.newRequest { origUri with User := none } = false
    · rw [if_pos hn] at h
      simp only [Sum.inl.injEq, Prod.mk.injEq] at h
      obtain ⟨rfl, rfl⟩ := h
      exact ⟨[], by simp [ht0], Or.inl ⟨rfl, Or.inr hn⟩⟩
    · rw [if_neg hn, ht0] at h
      generalize hreq : ({ uri := { origUri with User := none }, authorization := some hdr } :
        HttpRequest) = req at h ⊢
      have hra : req.authorization = some hdr := by rw [← hreq]
      cases ha : r.Client sys.trace req with
      | none =>
        simp only [ha, Sum.inl.injEq, Prod.mk.injEq] at h
        obtain ⟨rfl, rfl⟩ := h
        exact ⟨[Event.transport req none], by simp [ht0], Or.inr ⟨rfl, Or.inl rfl⟩⟩
      | some resp =>
        simp only [ha] at h
        by_cases he : r.EnablePerHostAuthStateCache = false
        · rw [if_pos he] at h
          simp only [Sum.inl.injEq, Prod.mk.injEq] at h
          obtain ⟨rfl, rfl⟩ := h
          exact ⟨[Event.transport req (some resp)], by simp [ht0], Or.inr ⟨rfl, Or.inl rfl⟩⟩
        · rw [if_neg he] at h
          by_cases h401 : resp.StatusCode = 401 ∧ st1.IsFresh = false
          · rw [if_pos h401] at h
            have hnz : state.nonceCount ≠ 0 := by
              intro h0
              have := h401.2
              simp [DigestAuthState.IsFresh, hcount, h0] at this
            cases hch : challengeFromResponse resp with
            | error e => simp [hch] at h
            | ok challenge =>
              simp only [hch] at h
              cases hp : newDigestAuthStateFromChallenge (w.spare challenge)
                  (w.now (sys.trace ++ [Event.transport req (some resp)] ++
                    [Event.delete origUri.Host])) challenge with
              | ok st => rw [hp] at h; cases h
              | error o =>
                cases o with
                | panic =>
                  simp only [hp, Sum.inl.injEq, Prod.mk.injEq] at h
                  obtain ⟨rfl, rfl⟩ := h
                  refine ⟨[Event.transport req (some resp), Event.delete origUri.Host],
                    by simp [ht0], Or.inr ⟨rfl, Or.inr ⟨hnz, ?_⟩⟩⟩
                  simp [gets, hra, h401.1]
                | error e => rw [hp] at h; cases h
                | ok p => rw [hp] at h; cases h
          · rw [if_neg h401] at h
            by_cases h2 : 200 ≤ resp.StatusCode ∧ resp.StatusCode ≤ 299
            · rw [if_pos h2] at h
              cases hh : r.BeforePersistState with
              | some f =>
                simp only [hh, Sum.inl.injEq, Prod.mk.injEq] at h
                obtain ⟨rfl, rfl⟩ := h
                exact ⟨[Event.transport req (some resp), Event.hook st1,
                    Event.store origUri.Host (f st1)], by simp [ht0], Or.inr ⟨rfl, Or.inl rfl⟩⟩
              | none =>
                simp only [hh, Sum.inl.injEq, Prod.mk.injEq] at h
                obtain ⟨rfl, rfl⟩ := h
                exact ⟨[Event.transport req (some resp), Event.store origUri.Host st1],
                  by simp [ht0], Or.inr ⟨rfl, Or.inl rfl⟩⟩
            · rw [if_neg h2] at h
              simp only [Sum.inl.injEq, Prod.mk.injEq] at h
              obtain ⟨rfl, rfl⟩ := h
              exact ⟨[Event.transport req (some resp)], by simp [ht0], Or.inr ⟨rfl, Or.inl rfl⟩⟩

theorem run_step_inr {r : DigestAuthRequestor} {w : World} {origUri : URL} {label label1 : Label}
    {sys sys1 : Sys} (fuel : Nat)
    (h : requestStep r w origUri label sys = Sum.inr (label1, sys1)) :
    run r w origUri (fuel + 1) label sys = run r w origUri fuel label1 sys1 := by
  rw [run, h]

theorem run_step_inl {r : DigestAuthRequestor} {w : World} {origUri : URL} {label : Label}
    {sys : Sys} {out : Result × Sys} (fuel : Nat)
    (h : requestStep r w origUri label sys = Sum.inl out) :
    run r w origUri (fuel + 1) label sys = out := by
  rw [run, h]

/-- The outcome of the last GET of a run, when that GET carries an `Authorization` header:
it is what the run returns, unless the run made a single GET, with a state that had been used
before, and that GET was answered 401. -/
theorem run_outcome (r : DigestAuthRequestor) (w : World) (origUri : URL) :
    ∀ fuel label sys, rank r origUri label sys ≤ fuel →
      ∃ T, (run r w origUri fuel label sys).2.trace = sys.trace ++ T ∧
        ∀ req answer, (transports T).getLast? = some (req, answer) →
          req.authorization.isSome = true →
          (rank r origUri label sys ≤ 2 ∨ gets T ≠ [(true, some 401)]) →
          (run r w origUri fuel label sys).1 = attemptOutcome answer := by
  apply run_induct r w origUri (fun label sys out =>
    ∃ T, out.2.trace = sys.trace ++ T ∧
      ∀ req answer, (transports T).getLast? = some (req, answer) →
        req.authorization.isSome = true →
        (rank r origUri label sys ≤ 2 ∨ gets T ≠ [(true, some 401)]) →
        out.1 = attemptOutcome answer)
  · intro label sys out h
    obtain ⟨res, sys1⟩ := out
    cases label with
    | Request =>
      obtain ⟨-, -, T, ht, -, hg, -⟩ := requestEntry_final h
      refine ⟨T, ht, ?_⟩
      intro req answer hlast hauth _
      rcases hg with hg | ⟨s, hg⟩
      · rw [transports_nil_of_gets hg] at hlast
        cases hlast
      · obtain ⟨req1, answer1, ht1, ha1⟩ := transports_of_gets_single hg
        rw [ht1] at hlast
        simp only [List.getLast?_singleton, Option.some.injEq, Prod.mk.injEq] at hlast
        rw [hlast.1, hauth] at ha1
        cases ha1
    | computeResponseAndFetch credentials state shared =>
      obtain ⟨T, ht, hT⟩ := requestFetch_outcome h
      refine ⟨T, ht, ?_⟩
      intro req answer hlast hauth hcond
      rcases hT with ⟨hnil, -⟩ | ⟨hone, hres | ⟨hnz, hg⟩⟩
      · rw [hnil] at hlast
        cases hlast
      · rw [hone] at hlast
        simp only [List.getLast?_singleton, Option.some.injEq, Prod.mk.injEq] at hlast
        rw [← hlast.2]
        exact hres
      · rcases hcond with hr | hne
        · simp [rank, hnz] at hr
        · exact absurd hg hne
  · intro label sys label1 sys1 out h hP
    obtain ⟨T1, ht1, hT1⟩ := hP
    cases label with
    | Request =>
      obtain ⟨T, ht, -, -, credentials, state, hc⟩ := requestEntry_jump h
      refine ⟨T ++ T1, by rw [ht1, ht, List.append_assoc], ?_⟩
      intro req answer hlast hauth hcond
      rw [transports_append] at hlast
      rcases hc with ⟨rfl, hg, he, hload⟩ | ⟨rfl, h0, s, hg⟩
      · have hr : rank r origUri Label.Request sys = 4 := by simp [rank, he, hload]
        rw [transports_nil_of_gets hg, List.nil_append] at hlast
        rw [hr, gets_append, hg, List.nil_append] at hcond
        refine hT1 req answer hlast hauth (Or.inr ?_)
        rcases hcond with hr | hne
        · omega
        · exact hne
      · have hr1 : rank r origUri (Label.computeResponseAndFetch credentials state false) sys1
            = 1 := by simp [rank, h0]
        obtain ⟨req0, answer0, ht0, ha0⟩ := transports_of_gets_single hg
        rw [ht0, List.getLast?_append] at hlast
        cases hl1 : (transports T1).getLast? with
        | none =>
          rw [hl1] at hlast
          simp only [Option.or, List.getLast?_singleton, Option.some.injEq,
            Prod.mk.injEq] at hlast
          rw [hlast.1, hauth] at ha0
          cases ha0
        | some p =>
          rw [hl1] at hlast
          simp only [Option.or, Option.some.injEq] at hlast
          subst hlast
          exact hT1 req answer hl1 hauth (Or.inl (by rw [hr1]; decide))
    | computeResponseAndFetch credentials state shared =>
      obtain ⟨-, hnz, hload, ⟨req0, resp, hra, h401, ht⟩, hl⟩ := requestFetch_jump h
      refine ⟨[Event.transport req0 (some resp), Event.delete origUri.Host] ++ T1,
        by rw [ht1, ht, List.append_assoc], ?_⟩
      intro req answer hlast hauth hcond
      have hr : rank r origUri (Label.computeResponseAndFetch credentials state shared) sys
          = 3 := by simp [rank, hnz]
      have hr1 : rank r origUri label1 sys1 ≤ 2 := by
        rcases hl with rfl | ⟨st, rfl, h0⟩
        · simp [rank, hload]
        · simp [rank, h0]
      rw [hr] at hcond
      have hne : gets T1 ≠ [] := by
        intro hnil
        rcases hcond with hc | hc
        · omega
        · apply hc
          rw [gets_append, hnil]
          simp [gets, hra, h401]
      rw [transports_append, List.getLast?_append] at hlast
      cases hl1 : (transports T1).getLast? with
      | none =>
        rw [List.getLast?_eq_none_iff] at hl1
        exfalso
        apply hne
        rw [gets_eq_map_transports, hl1]
        rfl
      | some p =>
        rw [hl1] at hlast
        simp only [Option.or, Option.some.injEq] at hlast
        subst hlast
        exact hT1 req answer hl1 hauth (Or.inl hr1)

/-- A reused state answered 401 with a usable challenge: the call goes on with the state
made from that challenge, makes one more GET with the header computed from it, and returns
the outcome of that GET. -/
theorem salvage_run (r : DigestAuthRequestor) (w : World) (origUri : URL) (sys sys1 : Sys)
    (credentials : Userinfo) (state0 state0a state1 state1a : DigestAuthState)
    (header0 header1 challenge : GoString) (res1 : Response)
    (hU : origUri.User = some credentials)
    (hlook : cacheLookup r origUri sys = (some state0, sys1))
    (hcomp0 : state0.ComputeResponse (w.env sys1.trace)
      ({ origUri with User := none } : URL).RequestURI credentials = ((header0, none), state0a))
    (hnew : w.newRequest { origUri with User := none } = true)
    (h1 : r.Client sys1.trace
      { uri := { origUri with User := none }, authorization := some header0 } = some res1)
    (h401 : res1.StatusCode = 401)
    (hstale : state0a.IsFresh = false)
    (hch : challengeFromResponse res1 = Except.ok challenge)
    (hst : newDigestAuthStateFromChallenge (w.spare challenge)
      (w.now (sys1.trace ++ [Event.transport
          { uri := { origUri with User := none }, authorization := some header0 } (some res1),
        Event.delete origUri.Host])) challenge = Except.ok state1)
    (hcomp1 : state1.ComputeResponse (w.env (sys1.trace ++ [Event.transport
          { uri := { origUri with User := none }, authorization := some header0 } (some res1),
        Event.delete origUri.Host]))
      ({ origUri with User := none } : URL).RequestURI credentials = ((header1, none), state1a)) :
    (r.Request w origUri sys).1 = attemptOutcome (r.Client (sys1.trace ++ [Event.transport
          { uri := { origUri with User := none }, authorization := some header0 } (some res1),
        Event.delete origUri.Host])
      { uri := { origUri with User := none }, authorization := some header1 }) ∧
    ∃ T, (r.Request w origUri sys).2.trace = sys.trace ++ T ∧
      transports T =
        [({ uri := { origUri with User := none }, authorization := some header0 }, some res1),
         ({ uri := { origUri with User := none }, authorization := some header1 },
          r.Client (sys1.trace ++ [Event.transport
              { uri := { origUri with User := none }, authorization := some header0 }
              (some res1),
            Event.delete origUri.Host])
            { uri := { origUri with User := none }, authorization := some header1 })] := by
  have he : r.EnablePerHostAuthStateCache = true :=
    ((cacheLookup_spec r origUri sys).2.1 state0 (by rw [hlook])).1
  obtain ⟨T1, hT1, hT1s⟩ := (cacheLookup_spec r origUri sys).1
  rw [hlook] at hT1
  simp only at hT1
  have htr1 : transports T1 = [] := by
    rcases hT1s with rfl | rfl | rfl <;> rfl
  have hentry : requestStep r w origUri Label.Request sys =
      Sum.inr (Label.computeResponseAndFetch credentials state0 true, sys1) := by
    simp [requestStep, requestEntry, hU, hlook]
  have hfetch0 : requestStep r w origUri (Label.computeResponseAndFetch credentials state0 true)
      sys1 = Sum.inr (Label.computeResponseAndFetch credentials state1 false,
        Sys.mk (Cache.Delete (Cache.Store sys1.cache origUri.Host state0a) origUri.Host)
          (sys1.trace ++ [Event.transport
            { uri := { origUri with User := none }, authorization := some header0 } (some res1),
          Event.delete origUri.Host])) := by
    simp [requestStep, requestFetch, hcomp0, hnew, h1, he, h401, hstale, hch, hst]
  have e1 : run r w origUri 4 Label.Request sys =
      run r w origUri 3 (Label.computeResponseAndFetch credentials state0 true) sys1 :=
    run_step_inr 3 hentry
  have e2 : run r w origUri 3 (Label.computeResponseAndFetch credentials state0 true) sys1 =
      run r w origUri 2 (Label.computeResponseAndFetch credentials state1 false)
        (Sys.mk (Cache.Delete (Cache.Store sys1.cache origUri.Host state0a) origUri.Host)
          (sys1.trace ++ [Event.transport
            { uri := { origUri with User := none }, authorization := some header0 } (some res1),
          Event.delete origUri.Host])) :=
    run_step_inr 2 hfetch0
  cases hs : requestFetch r w origUri credentials state1 false
      (Sys.mk (Cache.Delete (Cache.Store sys1.cache origUri.Host state0a) origUri.Host)
        (sys1.trace ++ [Event.transport
          { uri := { origUri with User := none }, authorization := some header0 } (some res1),
        Event.delete origUri.Host])) with
  | inr next =>
    obtain ⟨label, sys4⟩ := next
    exact absurd (newDigestAuthState_nonceCount hst) (requestFetch_jump hs).2.1
  | inl out =>
    obtain ⟨res, sys4⟩ := out
    have e3 : run r w origUri 2 (Label.computeResponseAndFetch credentials state1 false)
        (Sys.mk (Cache.Delete (Cache.Store sys1.cache origUri.Host state0a) origUri.Host)
          (sys1.trace ++ [Event.transport
            { uri := { origUri with User := none }, authorization := some header0 } (some res1),
          Event.delete origUri.Host])) = (res, sys4) :=
      run_step_inl 1 hs
    have hreq : r.Request w origUri sys = (res, sys4) := by
      unfold DigestAuthRequestor.Request
      rw [e1, e2, e3]
    obtain ⟨T, ht, hT⟩ := requestFetch_outcome hs
    rw [hcomp1] at hT
    simp only at hT ht
    rw [hreq]
    rcases hT with ⟨-, hbad | hbad⟩ | ⟨hone, hres | ⟨hnz, -⟩⟩
    · exact absurd rfl hbad
    · rw [hnew] at hbad
      cases hbad
    · refine ⟨hres, T1 ++ [Event.transport
          { uri := { origUri with User := none }, authorization := some header0 } (some res1),
        Event.delete origUri.Host] ++ T, ?_, ?_⟩
      · simp only [ht, hT1, List.append_assoc]
      · rw [transports_append, transports_append, htr1, hone]
        rfl
    · exact absurd (newDigestAuthState_nonceCount hst) hnz

/-- A reused state answered 401 without a usable challenge: the call is the call of
`Request` from its entry, on the cache without the entry for the host; that call finds no
state in the cache and makes the GET requests of a cold start. -/
theorem restart_run (r : DigestAuthRequestor) (w : World) (origUri : URL) (sys sys1 : Sys)
    (credentials : Userinfo) (state0 state0a : DigestAuthState)
    (header0 : GoString) (res1 : Response)
    (hU : origUri.User = some credentials)
    (hlook : cacheLookup r origUri sys = (some state0, sys1))
    (hcomp0 : state0.ComputeResponse (w.env sys1.trace)
      ({ origUri with User := none } : URL).RequestURI credentials = ((header0, none), state0a))
    (hnew : w.newRequest { origUri with User := none } = true)
    (h1 : r.Client sys1.trace
      { uri := { origUri with User := none }, authorization := some header0 } = some res1)
    (h401 : res1.StatusCode = 401)
    (hstale : state0a.IsFresh = false)
    (hbad : (∃ e, challengeFromResponse res1 = Except.error e) ∨
      ∃ challenge e, challengeFromResponse res1 = Except.ok challenge ∧
        newDigestAuthStateFromChallenge (w.spare challenge)
          (w.now (sys1.trace ++ [Event.transport
              { uri := { origUri with User := none }, authorization := some header0 }
              (some res1),
            Event.delete origUri.Host])) challenge = Except.error (Outcome.error e)) :
    r.Request w origUri sys = r.Request w origUri
      (Sys.mk (Cache.Delete (Cache.Store sys1.cache origUri.Host state0a) origUri.Host)
        (sys1.trace ++ [Event.transport
          { uri := { origUri with User := none }, authorization := some header0 } (some res1),
        Event.delete origUri.Host])) ∧
    (cacheLookup r origUri
      (Sys.mk (Cache.Delete (Cache.Store sys1.cache origUri.Host state0a) origUri.Host)
        (sys1.trace ++ [Event.transport
          { uri := { origUri with User := none }, authorization := some header0 } (some res1),
        Event.delete origUri.Host]))).1 = none ∧
    ∃ T, (r.Request w origUri
      (Sys.mk (Cache.Delete (Cache.Store sys1.cache origUri.Host state0a) origUri.Host)
        (sys1.trace ++ [Event.transport
          { uri := { origUri with User := none }, authorization := some header0 } (some res1),
        Event.delete origUri.Host]))).2.trace =
        (sys1.trace ++ [Event.transport
          { uri := { origUri with User := none }, authorization := some header0 } (some res1),
        Event.delete origUri.Host]) ++ T ∧ getsCold (gets T) := by
  have he : r.EnablePerHostAuthStateCache = true :=
    ((cacheLookup_spec r origUri sys).2.1 state0 (by rw [hlook])).1
  generalize hsys3 : (Sys.mk (Cache.Delete (Cache.Store sys1.cache origUri.Host state0a)
      origUri.Host) (sys1.trace ++ [Event.transport
          { uri := { origUri with User := none }, authorization := some header0 } (some res1),
        Event.delete origUri.Host])) = sys3
  have hload : Cache.Load sys3.cache origUri.Host = none := by
    rw [← hsys3]
    exact Cache.Load_Delete _ _
  have htrace : sys3.trace = sys1.trace ++ [Event.transport
          { uri := { origUri with User := none }, authorization := some header0 } (some res1),
        Event.delete origUri.Host] := by
    rw [← hsys3]
  have hentry : requestStep r w origUri Label.Request sys =
      Sum.inr (Label.computeResponseAndFetch credentials state0 true, sys1) := by
    simp [requestStep, requestEntry, hU, hlook]
  have hfetch0 : requestStep r w origUri (Label.computeResponseAndFetch credentials state0 true)
      sys1 = Sum.inr (Label.Request, sys3) := by
    rw [← hsys3]
    rcases hbad with ⟨e, hch⟩ | ⟨challenge, e, hch, hst⟩
    · simp [requestStep, requestFetch, hcomp0, hnew, h1, he, h401, hstale, hch]
    · simp [requestStep, requestFetch, hcomp0, hnew, h1, he, h401, hstale, hch, hst]
  have e1 : run r w origUri 4 Label.Request sys =
      run r w origUri 3 (Label.computeResponseAndFetch credentials state0 true) sys1 :=
    run_step_inr 3 hentry
  have e2 : run r w origUri 3 (Label.computeResponseAndFetch credentials state0 true) sys1 =
      run r w origUri 2 Label.Request sys3 :=
    run_step_inr 2 hfetch0
  have hrank : rank r origUri Label.Request sys3 = 2 := by simp [rank, hload]
  have h2 := (run_gets r w origUri 2 Label.Request sys3 (by rw [hrank])).1
  have h3 := (run_gets r w origUri 3 Label.Request sys3 (by rw [hrank]; decide)).1
  have e3 : run r w origUri 3 Label.Request sys3 = run r w origUri 2 Label.Request sys3 :=
    run_succ r w origUri 2 Label.Request sys3 h2
  have e4 : run r w origUri 4 Label.Request sys3 = run r w origUri 3 Label.Request sys3 :=
    run_succ r w origUri 3 Label.Request sys3 h3
  obtain ⟨-, T, ht, hg⟩ := run_gets r w origUri 4 Label.Request sys3 (rank_le _ _ _ _)
  rw [hrank] at hg
  refine ⟨?_, ?_, T, ?_, hg⟩
  · unfold DigestAuthRequestor.Request
    rw [e1, e2, e4, e3]
  · simp [cacheLookup, he, hload]
  · rw [← htrace]
    exact ht

/-- C16 (bounded recovery): a call of `Request` arrives at most four times at a label, so it
returns or panics whatever the transport does (more fuel than 4 changes nothing, and the
result is not `unfinished`). The GET requests it makes are at most three, in one of the
shapes of `recoveryShape`: a second authenticated attempt is made only after a first one that
was answered 401, and nothing follows it. The outcome of the last GET, when that GET carries
an `Authorization` header, is what the call returns: the response and no error, also when it
is a 401 again, and the error `request failed` when the transport fails; the one exception is
a call whose only GET used a state that had been used before and was answered 401, which ends
in the parser of the challenge, in `ComputeResponse` or in the restart without a further GET.
When the GET with the header computed from the cached state is answered 401 and the state
is not fresh, then: if the 401 carries a challenge from which a state is made and
`ComputeResponse` succeeds on it, the second and last GET carries the header computed from
that state, and its outcome is returned (salvage); if the 401 carries no challenge, or one
that the parser rejects, the call is the call of `Request` from its entry on the cache
without the entry for the host, which finds no cached state and makes the GET requests of a
cold start (restart). -/
theorem bounded_recovery (r : DigestAuthRequestor) (w : World) (origUri : URL) (sys : Sys) :
    (∀ n, run r w origUri (4 + n) Label.Request sys = r.Request w origUri sys) ∧
    (r.Request w origUri sys).1 ≠ Result.unfinished ∧
    (∃ T, (r.Request w origUri sys).2.trace = sys.trace ++ T ∧ recoveryShape (gets T) ∧
      (gets T).length ≤ 3 ∧
      ∀ req answer, (transports T).getLast? = some (req, answer) →
        req.authorization.isSome = true → gets T ≠ [(true, some 401)] →
        (r.Request w origUri sys).1 = attemptOutcome answer) ∧
    (∀ (sys1 : Sys) (credentials : Userinfo) (state0 state0a : DigestAuthState)
        (header0 : GoString) (res1 : Response),
      origUri.User = some credentials →
      cacheLookup r origUri sys = (some state0, sys1) →
      state0.ComputeResponse (w.env sys1.trace)
        ({ origUri with User := none } : URL).RequestURI credentials =
          ((header0, none), state0a) →
      w.newRequest { origUri with User := none } = true →
      r.Client sys1.trace
        { uri := { origUri with User := none }, authorization := some header0 } = some res1 →
      res1.StatusCode = 401 →
      state0a.IsFresh = false →
      (∀ (challenge : GoString) (state1 state1a : DigestAuthState) (header1 : GoString)
          (answer : Option Response),
        challengeFromResponse res1 = Except.ok challenge →
        newDigestAuthStateFromChallenge (w.spare challenge)
          (w.now (sys1.trace ++ [Event.transport
              { uri := { origUri with User := none }, authorization := some header0 }
              (some res1),
            Event.delete origUri.Host])) challenge = Except.ok state1 →
        state1.ComputeResponse (w.env (sys1.trace ++ [Event.transport
              { uri := { origUri with User := none }, authorization := some header0 }
              (some res1),
            Event.delete origUri.Host]))
          ({ origUri with User := none } : URL).RequestURI credentials =
            ((header1, none), state1a) →
        r.Client (sys1.trace ++ [Event.transport
              { uri := { origUri with User := none }, authorization := some header0 }
              (some res1),
            Event.delete origUri.Host])
          { uri := { origUri with User := none }, authorization := some header1 } = answer →
        (r.Request w origUri sys).1 = attemptOutcome answer ∧
        ∃ T, (r.Request w origUri sys).2.trace = sys.trace ++ T ∧
          transports T =
            [({ uri := { origUri with User := none }, authorization := some header0 },
              some res1),
             ({ uri := { origUri with User := none }, authorization := some header1 },
              answer)]) ∧
      (((∃ e, challengeFromResponse res1 = Except.error e) ∨
          ∃ challenge e, challengeFromResponse res1 = Except.ok challenge ∧
            newDigestAuthStateFromChallenge (w.spare challenge)
              (w.now (sys1.trace ++ [Event.transport
                  { uri := { origUri with User := none }, authorization := some header0 }
                  (some res1),
                Event.delete origUri.Host])) challenge = Except.error (Outcome.error e)) →
        r.Request w origUri sys = r.Request w origUri
          (Sys.mk (Cache.Delete (Cache.Store sys1.cache origUri.Host state0a) origUri.Host)
            (sys1.trace ++ [Event.transport
              { uri := { origUri with User := none }, authorization := some header0 }
              (some res1),
            Event.delete origUri.Host])) ∧
        (cacheLookup r origUri
          (Sys.mk (Cache.Delete (Cache.Store sys1.cache origUri.Host state0a) origUri.Host)
            (sys1.trace ++ [Event.transport
              { uri := { origUri with User := none }, authorization := some header0 }
              (some res1),
            Event.delete origUri.Host]))).1 = none ∧
        ∃ T, (r.Request w origUri
          (Sys.mk (Cache.Delete (Cache.Store sys1.cache origUri.Host state0a) origUri.Host)
            (sys1.trace ++ [Event.transport
              { uri := { origUri with User := none }, authorization := some header0 }
              (some res1),
            Event.delete origUri.Host]))).2.trace =
            (sys1.trace ++ [Event.transport
              { uri := { origUri with User := none }, authorization := some header0 }
              (some res1),
            Event.delete origUri.Host]) ++ T ∧ getsCold (gets T))) := by
  obtain ⟨h1, T, ht, hg⟩ := run_gets r w origUri 4 Label.Request sys (rank_le _ _ _ _)
  obtain ⟨T2, ht2, ho⟩ := run_outcome r w origUri 4 Label.Request sys (rank_le _ _ _ _)
  have hTT : T2 = T := List.append_cancel_left (ht2.symm.trans ht)
  subst hTT
  have hshape : recoveryShape (gets T2) ∧ (gets T2).length ≤ 3 := by
    apply recoveryShape_of_getsShape
    simp only [rank] at hg ⊢
    split at hg
    · exact hg
    · exact Or.inr hg
  refine ⟨?_, h1, ⟨T2, ht, hshape.1, hshape.2, ?_⟩, ?_⟩
  · intro n
    induction n with
    | zero => rfl
    | succ n ih =>
      have h2 := (run_gets r w origUri (4 + n) Label.Request sys
        (Nat.le_trans (rank_le _ _ _ _) (Nat.le_add_right 4 n))).1
      rw [← ih]
      exact run_succ r w origUri (4 + n) Label.Request sys h2
  · intro req answer hlast hauth hne
    exact ho req answer hlast hauth (Or.inr hne)
  · intro sys1 credentials state0 state0a header0 res1 hU hlook hcomp0 hnew hc1 h401 hstale
    refine ⟨?_, ?_⟩
    · intro challenge state1 state1a header1 answer hch hst hcomp1 hans
      subst hans
      exact salvage_run r w origUri sys sys1 credentials state0 state0a state1 state1a header0
        header1 challenge res1 hU hlook hcomp0 hnew hc1 h401 hstale hch hst hcomp1
    · intro hbad
      exact restart_run r w origUri sys sys1 credentials state0 state0a header0 res1 hU hlook
        hcomp0 hnew hc1 h401 hstale hbad

theorem lastAuthOk_persisting (r : DigestAuthRequestor) (host : GoString)
    (state : DigestAuthState) (T0 : List Event) (req : HttpRequest) (resp : Response)
    (hra : req.authorization.isSome = true)
    (h2 : 200 ≤ resp.StatusCode ∧ resp.StatusCode ≤ 299) :
    lastAuthOk (T0 ++ Event.transport req (some resp) :: persistTail r host state) = true := by
  unfold lastAuthOk
  rw [lastAuthOkFrom_append]
  simp only [lastAuthOkFrom, hra, if_true, lastAuthOkFrom_persistTail]
  simpa using h2

/-- C17 (persisting on success): with caching enabled, the events of a call of `Request`
hold a store if and only if the last GET with an `Authorization` header was answered with a
status from 200 to 299. Then the events end with that GET, the call of the hook if one is
set, and one store under the host of the target of the state that the `ComputeResponse` call
for that GET left (as the hook changed it); nothing before is a store or a call of the hook,
and the cache then holds that state for the host. Otherwise, and always with caching
disabled, the events hold no store and no call of the hook. -/
theorem persist_on_success (r : DigestAuthRequestor) (w : World) (origUri : URL) (sys : Sys) :
    ∃ T, (r.Request w origUri sys).2.trace = sys.trace ++ T ∧
      (r.EnablePerHostAuthStateCache = false → ∀ e ∈ T, e.persists = false) ∧
      (r.EnablePerHostAuthStateCache = true →
        ((∃ host state, Event.store host state ∈ T) ↔ lastAuthOk T = true) ∧
        (lastAuthOk T = false → ∀ e ∈ T, e.persists = false) ∧
        (lastAuthOk T = true →
          ∃ (T0 : List Event) (req : HttpRequest) (resp : Response) (state0 : DigestAuthState)
              (events : List Event) (credentials : Userinfo),
            (∀ e ∈ T0, e.persists = false) ∧
            req.authorization = some (state0.ComputeResponse (w.env events)
              ({ origUri with User := none } : URL).RequestURI credentials).1.1 ∧
            (200 ≤ resp.StatusCode ∧ resp.StatusCode ≤ 299) ∧
            (r.Request w origUri sys).1 = Result.ret (some resp) none ∧
            T = T0 ++ Event.transport req (some resp) :: persistTail r origUri.Host
              (state0.ComputeResponse (w.env events)
                ({ origUri with User := none } : URL).RequestURI credentials).2 ∧
            Cache.Load (r.Request w origUri sys).2.cache origUri.Host =
              some (persisted r (state0.ComputeResponse (w.env events)
                ({ origUri with User := none } : URL).RequestURI credentials).2))) := by
  cases he : r.EnablePerHostAuthStateCache with
  | false =>
    obtain ⟨T, ht, hp⟩ := run_disabled r w origUri he 4 Label.Request sys (rank_le _ _ _ _)
    exact ⟨T, ht, fun _ => hp, fun h => Bool.noConfusion h⟩
  | true =>
    obtain ⟨T, ht, hT⟩ := run_persists r w origUri he 4 Label.Request sys (rank_le _ _ _ _)
    refine ⟨T, ht, fun h => Bool.noConfusion h, fun _ => ?_⟩
    rcases hT with ⟨hp, hl⟩ | ⟨T0, req, resp, state0, events, credentials, hp0, hra, h2, hres,
      hT, hc⟩
    · refine ⟨⟨?_, ?_⟩, fun _ => hp, ?_⟩
      · rintro ⟨host, state, hmem⟩
        have := hp _ hmem
        simp [Event.persists] at this
      · intro h
        rw [hl] at h
        cases h
      · intro h
        rw [hl] at h
        cases h
    · have hok : lastAuthOk T = true := by
        rw [hT]
        exact lastAuthOk_persisting r _ _ T0 req resp (by simp [hra]) h2
      refine ⟨⟨fun _ => hok, fun _ => ⟨origUri.Host, persisted r (state0.ComputeResponse (w.env events)
          ({ origUri with User := none } : URL).RequestURI credentials).2, ?_⟩⟩, ?_, fun _ =>
        ⟨T0, req, resp, state0, events, credentials, hp0, hra, h2, hres, hT, hc⟩⟩
      · rw [hT]
        exact List.mem_append_right _ (List.mem_cons_of_mem _ (store_mem_persistTail r _ _))
      · intro h
        rw [hok] at h
        cases h

/-- C15 (a 401 on a fresh state is final): when the lookup in the cache gives no state, the
GET without credentials is answered 401 with a challenge from which a state is made, and the
GET with the `Authorization` header computed from that state is answered 401 again, then
`Request` returns that second response and no error; the events after the lookup are these
two calls of the transport and nothing else, the cache is as the lookup left it, and with
caching enabled it holds nothing for the host. -/
theorem fresh_401_is_final (r : DigestAuthRequestor) (w : World) (origUri : URL)
    (sys sys1 : Sys) (credentials : Userinfo) (res1 res2 : Response)
    (state state1 : DigestAuthState) (header : GoString)
    (hU : origUri.User = some credentials)
    (hlook : cacheLookup r origUri sys = (none, sys1))
    (hnew : w.newRequest { origUri with User := none } = true)
    (h1 : r.Client sys1.trace { uri := { origUri with User := none }, authorization := none }
      = some res1)
    (h401 : res1.StatusCode = 401)
    (hch : newDigestAuthStateFromChallenge (w.spare (trimSpace res1.wwwAuthenticate))
      (w.now (sys1.trace ++ [Event.transport
        { uri := { origUri with User := none }, authorization := none } (some res1)]))
      (trimSpace res1.wwwAuthenticate) = Except.ok state)
    (hcomp : state.ComputeResponse (w.env (sys1.trace ++ [Event.transport
        { uri := { origUri with User := none }, authorization := none } (some res1)]))
      ({ origUri with User := none } : URL).RequestURI credentials = ((header, none), state1))
    (h2 : r.Client (sys1.trace ++ [Event.transport
        { uri := { origUri with User := none }, authorization := none } (some res1)])
      { uri := { origUri with User := none }, authorization := some header } = some res2)
    (h401b : res2.StatusCode = 401) :
    r.Request w origUri sys =
      (Result.ret (some res2) none,
        { cache := sys1.cache,
          trace := sys1.trace ++
            [Event.transport { uri := { origUri with User := none }, authorization := none }
              (some res1),
             Event.transport
              { uri := { origUri with User := none }, authorization := some header }
              (some res2)] }) ∧
    (r.EnablePerHostAuthStateCache = true →
      Cache.Load (r.Request w origUri sys).2.cache origUri.Host = none) := by
  have hne : trimSpace res1.wwwAuthenticate ≠ [] := by
    intro h0
    rw [h0] at hch
    exact newDigestAuthState_nil _ _ _ hch
  have hfresh : state1.IsFresh = true := by
    have hc := ComputeResponse_nonceCount (w.env (sys1.trace ++ [Event.transport
        { uri := { origUri with User := none }, authorization := none } (some res1)])) state
      ({ origUri with User := none } : URL).RequestURI credentials
    rw [hcomp, newDigestAuthState_nonceCount hch] at hc
    simp only at hc
    simp [DigestAuthState.IsFresh, hc]
  have hcold : coldStart r w origUri credentials sys1 =
      Sum.inr (Label.computeResponseAndFetch credentials state false,
        { sys1 with trace := sys1.trace ++ [Event.transport
          { uri := { origUri with User := none }, authorization := none } (some res1)] }) := by
    simp [coldStart, retrieveChallenge, hnew, h1, h401, challengeFromResponse, hne, hch]
  have hfetch : requestFetch r w origUri credentials state false
      { sys1 with trace := sys1.trace ++ [Event.transport
          { uri := { origUri with User := none }, authorization := none } (some res1)] } =
      Sum.inl (Result.ret (some res2) none,
        { cache := sys1.cache,
          trace := sys1.trace ++
            [Event.transport { uri := { origUri with User := none }, authorization := none }
              (some res1),
             Event.transport
              { uri := { origUri with User := none }, authorization := some header }
              (some res2)] }) := by
    simp [requestFetch, hcomp, hnew, h2, h401b, hfresh]
  have hreq : r.Request w origUri sys =
      (Result.ret (some res2) none,
        { cache := sys1.cache,
          trace := sys1.trace ++
            [Event.transport { uri := { origUri with User := none }, authorization := none }
              (some res1),
             Event.transport
              { uri := { origUri with User := none }, authorization := some header }
              (some res2)] }) := by
    simp only [DigestAuthRequestor.Request, run, requestStep, requestEntry, hU, hlook, hcold,
      hfetch]
  refine ⟨hreq, ?_⟩
  intro he
  rw [hreq]
  have := (cacheLookup_spec r origUri sys).2.2
  rw [hlook] at this
  exact this rfl he

/-- C18 (reuse skips the challenge round trip): when caching is enabled, the policy is
`DigestAuthNonceReuseAlways`, the cache holds a state with nonce count `n` for the host of
the target, `ComputeResponse` succeeds on it and the transport answers the GET with a status
from 200 to 299, then `Request` returns that response and no error; the events of the call
are the load, this one call of the transport, and the persisting of the state; the request
carries the `Authorization` header that `ComputeResponse` computed from the cached state, in
which `nc` is `n + 1` (`range` visiting every entry of the map). -/
theorem reuse_skips_challenge (r : DigestAuthRequestor) (w : World) (origUri : URL) (sys : Sys)
    (credentials : Userinfo) (res : Response) (state state1 : DigestAuthState)
    (header : GoString)
    (hU : origUri.User = some credentials)
    (he : r.EnablePerHostAuthStateCache = true)
    (hpol : r.NonceReusePolicy = DigestAuthNonceReuseAlways)
    (hload : Cache.Load sys.cache origUri.Host = some state)
    (hcomp : state.ComputeResponse (w.env (sys.trace ++ [Event.load origUri.Host]))
      ({ origUri with User := none } : URL).RequestURI credentials = ((header, none), state1))
    (hnew : w.newRequest { origUri with User := none } = true)
    (h2 : r.Client (sys.trace ++ [Event.load origUri.Host])
      { uri := { origUri with User := none }, authorization := some header } = some res)
    (h2xx : 200 ≤ res.StatusCode ∧ res.StatusCode ≤ 299)
    (hperm : ∀ m, ((w.env (sys.trace ++ [Event.load origUri.Host])).rangeOrder m).Perm m) :
    (r.Request w origUri sys).1 = Result.ret (some res) none ∧
    (r.Request w origUri sys).2.trace = sys.trace ++
      (Event.load origUri.Host ::
        Event.transport { uri := { origUri with User := none }, authorization := some header }
          (some res) :: persistTail r origUri.Host state1) ∧
    gets (Event.load origUri.Host ::
        Event.transport { uri := { origUri with User := none }, authorization := some header }
          (some res) :: persistTail r origUri.Host state1) = [(true, some res.StatusCode)] ∧
    Cache.Load (r.Request w origUri sys).2.cache origUri.Host = some (persisted r state1) ∧
    state1.nonceCount = state.nonceCount + 1 ∧
    Params.get? state1.params digestAuthParamNonceCount =
      some (sprintf08x (state.nonceCount + 1)) ∧
    piece (digestAuthParamNonceCount, sprintf08x (state.nonceCount + 1)) <:+: header := by
  have hlook : cacheLookup r origUri sys =
      (some state, { sys with trace := sys.trace ++ [Event.load origUri.Host] }) := by
    simp [cacheLookup, he, hpol, hload, DigestAuthNonceReuseAlways]
  have hcount := ComputeResponse_nonceCount (w.env (sys.trace ++ [Event.load origUri.Host]))
    state ({ origUri with User := none } : URL).RequestURI credentials
  have hok : (state.ComputeResponse (w.env (sys.trace ++ [Event.load origUri.Host]))
      ({ origUri with User := none } : URL).RequestURI credentials).1.2 = none := by
    rw [hcomp]
  obtain ⟨d, hd, hh, hp⟩ := ComputeResponse_ok _ state _ credentials hok
  obtain ⟨-, -, -, e4, -⟩ := computeDigest_entries _ _ _ _ _ d hd
  rw [hcomp] at hcount hh hp
  simp only at hcount hh hp
  have hn401 : res.StatusCode ≠ 401 := by omega
  have hfetch : requestFetch r w origUri credentials state true
      { sys with trace := sys.trace ++ [Event.load origUri.Host] } =
      Sum.inl (Result.ret (some res) none,
        { cache := Cache.Store (Cache.Store sys.cache origUri.Host state1) origUri.Host
            (persisted r state1),
          trace := sys.trace ++
            (Event.load origUri.Host ::
              Event.transport
                { uri := { origUri with User := none }, authorization := some header }
                (some res) :: persistTail r origUri.Host state1) }) := by
    cases hh2 : r.BeforePersistState <;>
      simp [requestFetch, hcomp, hnew, h2, he, hn401, h2xx, persisted, persistTail, hh2]
  have hreq : r.Request w origUri sys =
      (Result.ret (some res) none,
        { cache := Cache.Store (Cache.Store sys.cache origUri.Host state1) origUri.Host
            (persisted r state1),
          trace := sys.trace ++
            (Event.load origUri.Host ::
              Event.transport
                { uri := { origUri with User := none }, authorization := some header }
                (some res) :: persistTail r origUri.Host state1) }) := by
    simp only [DigestAuthRequestor.Request, run, requestStep, requestEntry, hU, hlook, hfetch]
  rw [hreq]
  refine ⟨rfl, rfl, ?_, Cache.Load_Store _ _ _, hcount, ?_, ?_⟩
  · simp [gets, gets_persistTail]
  · rw [hp]
    exact e4
  · rw [hh]
    exact piece_infix_header _ _ _ _ (hperm _) e4

set_option maxRecDepth 1000000 in
/-- Witness of C15: a cold start whose authenticated attempt is answered 401 returns that
response after two calls of the transport and stores nothing. -/
theorem fresh_401_is_final_witness :
    (exampleRequestor 401 DigestAuthNonceReuseNever none).Request exampleWorld exampleUri
        { cache := [], trace := [] } =
      (Result.ret (some { StatusCode := 401, wwwAuthenticate := [], body := [] }) none,
        { cache := [],
          trace := [Event.load "cam".data,
            Event.transport { uri := exampleBare, authorization := none }
              (some { StatusCode := 401, wwwAuthenticate := exampleChallenge, body := [] }),
            Event.transport
              { uri := exampleBare, authorization := some (exampleHeader "00000001".data) }
              (some { StatusCode := 401, wwwAuthenticate := [], body := [] })] }) :=
  (fresh_401_is_final (exampleRequestor 401 DigestAuthNonceReuseNever none) exampleWorld
    exampleUri { cache := [], trace := [] } { cache := [], trace := [Event.load "cam".data] }
    { username := "u".data, password := "p".data, passwordSet := true }
    { StatusCode := 401, wwwAuthenticate := exampleChallenge, body := [] }
    { StatusCode := 401, wwwAuthenticate := [], body := [] }
    (exampleState 2) (exampleUsed 2 1 "00000001".data) (exampleHeader "00000001".data)
    rfl rfl rfl rfl rfl (by decide) (by decide) rfl rfl).1


set_option maxRecDepth 1000000 in
/-- Witness of C16. Salvage: a reused state is answered 401 with a new challenge, the second
GET carries the header computed from the state made from that challenge, and its 401 is
returned. Restart: a reused state is answered 401 without a challenge, the call is the call
from the entry on the empty cache; it makes three GET requests in all and returns the last
401. -/
theorem bounded_recovery_witness :
    (((salvageRequestor 401).Request exampleWorld exampleUri
        { cache := [("cam".data, exampleUsed 0 1 "00000001".data)], trace := [] }).1 =
      Result.ret (some { StatusCode := 401, wwwAuthenticate := [], body := [] }) none ∧
     ∃ T, ((salvageRequestor 401).Request exampleWorld exampleUri
        { cache := [("cam".data, exampleUsed 0 1 "00000001".data)], trace := [] }).2.trace =
          [] ++ T ∧
      transports T =
        [({ uri := exampleBare, authorization := some (exampleHeader "00000002".data) },
          some { StatusCode := 401, wwwAuthenticate := salvageChallenge, body := [] }),
         ({ uri := exampleBare, authorization := some salvageHeader },
          some { StatusCode := 401, wwwAuthenticate := [], body := [] })]) ∧
    ((exampleRequestor 401 DigestAuthNonceReuseAlways none).Request exampleWorld exampleUri
        { cache := [("cam".data, exampleUsed 0 1 "00000001".data)], trace := [] } =
      (exampleRequestor 401 DigestAuthNonceReuseAlways none).Request exampleWorld exampleUri
        { cache := [],
          trace := [Event.load "cam".data,
            Event.transport
              { uri := exampleBare, authorization := some (exampleHeader "00000002".data) }
              (some { StatusCode := 401, wwwAuthenticate := [], body := [] }),
            Event.delete "cam".data] }) ∧
    ((exampleRequestor 401 DigestAuthNonceReuseAlways none).Request exampleWorld exampleUri
        { cache := [("cam".data, exampleUsed 0 1 "00000001".data)], trace := [] }).1 =
      Result.ret (some { StatusCode := 401, wwwAuthenticate := [], body := [] }) none ∧
    gets ((exampleRequestor 401 DigestAuthNonceReuseAlways none).Request exampleWorld exampleUri
        { cache := [("cam".data, exampleUsed 0 1 "00000001".data)], trace := [] }).2.trace =
      [(true, some 401), (false, some 401), (true, some 401)] ∧
    (∀ n, run (exampleRequestor 401 DigestAuthNonceReuseAlways none) exampleWorld exampleUri
        (4 + n) Label.Request
        { cache := [("cam".data, exampleUsed 0 1 "00000001".data)], trace := [] } =
      (exampleRequestor 401 DigestAuthNonceReuseAlways none).Request exampleWorld exampleUri
        { cache := [("cam".data, exampleUsed 0 1 "00000001".data)], trace := [] }) ∧
    ∃ T, ((exampleRequestor 401 DigestAuthNonceReuseAlways none).Request exampleWorld
        exampleUri
        { cache := [("cam".data, exampleUsed 0 1 "00000001".data)], trace := [] }).2.trace =
          [] ++ T ∧ recoveryShape (gets T) ∧ (gets T).length ≤ 3 :=
  ⟨((bounded_recovery (salvageRequestor 401) exampleWorld exampleUri
      { cache := [("cam".data, exampleUsed 0 1 "00000001".data)], trace := [] }).2.2.2
      { cache := [("cam".data, exampleUsed 0 1 "00000001".data)],
        trace := [Event.load "cam".data] }
      { username := "u".data, password := "p".data, passwordSet := true }
      (exampleUsed 0 1 "00000001".data) (exampleUsed 0 2 "00000002".data)
      (exampleHeader "00000002".data)
      { StatusCode := 401, wwwAuthenticate := salvageChallenge, body := [] }
      rfl rfl (by decide) rfl rfl rfl rfl).1
      salvageChallenge (salvageState 3) (salvageUsed 3) salvageHeader
      (some { StatusCode := 401, wwwAuthenticate := [], body := [] })
      (by decide) (by decide) (by decide) rfl,
   (((bounded_recovery (exampleRequestor 401 DigestAuthNonceReuseAlways none) exampleWorld
      exampleUri
      { cache := [("cam".data, exampleUsed 0 1 "00000001".data)], trace := [] }).2.2.2
      { cache := [("cam".data, exampleUsed 0 1 "00000001".data)],
        trace := [Event.load "cam".data] }
      { username := "u".data, password := "p".data, passwordSet := true }
      (exampleUsed 0 1 "00000001".data) (exampleUsed 0 2 "00000002".data)
      (exampleHeader "00000002".data)
      { StatusCode := 401, wwwAuthenticate := [], body := [] }
      rfl rfl (by decide) rfl rfl rfl rfl).2
      (Or.inl ⟨RequestError.unexpectedStatus
        { StatusCode := 401, wwwAuthenticate := [], body := [] }, rfl⟩)).1,
   by decide, by decide,
   (bounded_recovery (exampleRequestor 401 DigestAuthNonceReuseAlways none) exampleWorld
      exampleUri { cache := [("cam".data, exampleUsed 0 1 "00000001".data)], trace := [] }).1,
   match (bounded_recovery (exampleRequestor 401 DigestAuthNonceReuseAlways none) exampleWorld
      exampleUri
      { cache := [("cam".data, exampleUsed 0 1 "00000001".data)], trace := [] }).2.2.1 with
   | ⟨T, ht, hs, hl, _⟩ => ⟨T, ht, hs, hl⟩⟩

set_option maxRecDepth 1000000 in
/-- Witness of C17: a cold start whose authenticated attempt is answered 200, with a hook
that sets the time of the state to 7: the hook is called with the state used for the GET, and
the state it leaves is stored for the host. -/
theorem persist_on_success_witness :
    (exampleRequestor 200 DigestAuthNonceReuseNever
        (some (fun s => { s with createdAt := 7 }))).Request exampleWorld exampleUri
        { cache := [], trace := [] } =
      (Result.ret (some { StatusCode := 200, wwwAuthenticate := [], body := [] }) none,
        { cache := [("cam".data, exampleUsed 7 1 "00000001".data)],
          trace := [Event.load "cam".data,
            Event.transport { uri := exampleBare, authorization := none }
              (some { StatusCode := 401, wwwAuthenticate := exampleChallenge, body := [] }),
            Event.transport
              { uri := exampleBare, authorization := some (exampleHeader "00000001".data) }
              (some { StatusCode := 200, wwwAuthenticate := [], body := [] }),
            Event.hook (exampleUsed 2 1 "00000001".data),
            Event.store "cam".data (exampleUsed 7 1 "00000001".data)] }) ∧
    ∃ T, ((exampleRequestor 200 DigestAuthNonceReuseNever
        (some (fun s => { s with createdAt := 7 }))).Request exampleWorld exampleUri
        { cache := [], trace := [] }).2.trace = [] ++ T ∧
      ((∃ host state, Event.store host state ∈ T) ↔ lastAuthOk T = true) :=
  ⟨by decide,
    match persist_on_success (exampleRequestor 200 DigestAuthNonceReuseNever
        (some (fun s => { s with createdAt := 7 }))) exampleWorld exampleUri
        { cache := [], trace := [] } with
    | ⟨T, ht, _, h⟩ => ⟨T, ht, (h rfl).1⟩⟩

set_option maxRecDepth 1000000 in
/-- Witness of C18: with a cached state that was used once, the only GET carries
`nc="00000002"` and its 200 response is returned. -/
theorem reuse_skips_challenge_witness :
    ((exampleRequestor 200 DigestAuthNonceReuseAlways none).Request exampleWorld exampleUri
        { cache := [("cam".data, exampleUsed 0 1 "00000001".data)], trace := [] }).1 =
      Result.ret (some { StatusCode := 200, wwwAuthenticate := [], body := [] }) none ∧
    ((exampleRequestor 200 DigestAuthNonceReuseAlways none).Request exampleWorld exampleUri
        { cache := [("cam".data, exampleUsed 0 1 "00000001".data)], trace := [] }).2.trace =
      [Event.load "cam".data,
        Event.transport
          { uri := exampleBare, authorization := some (exampleHeader "00000002".data) }
          (some { StatusCode := 200, wwwAuthenticate := [], body := [] }),
        Event.store "cam".data (exampleUsed 0 2 "00000002".data)] ∧
    piece ("nc".data, "00000002".data) <:+: exampleHeader "00000002".data :=
  have h := reuse_skips_challenge (exampleRequestor 200 DigestAuthNonceReuseAlways none)
    exampleWorld exampleUri
    { cache := [("cam".data, exampleUsed 0 1 "00000001".data)], trace := [] }
    { username := "u".data, password := "p".data, passwordSet := true }
    { StatusCode := 200, wwwAuthenticate := [], body := [] }
    (exampleUsed 0 1 "00000001".data) (exampleUsed 0 2 "00000002".data)
    (exampleHeader "00000002".data) rfl rfl rfl rfl (by decide) rfl rfl (by decide)
    (fun m => List.Perm.refl m)
  ⟨h.1, h.2.1, h.2.2.2.2.2.2⟩

/-- Witness of C19: the target of the examples without its user information. -/
theorem missing_credentials_witness :
    (exampleRequestor 200 DigestAuthNonceReuseAlways none).Request exampleWorld exampleBare
        { cache := [("cam".data, exampleUsed 0 1 "00000001".data)], trace := [] } =
      (Result.ret none (some RequestError.ErrDigestAuthMissingCredentials),
        { cache := [("cam".data, exampleUsed 0 1 "00000001".data)], trace := [] }) ∧
    ¬ ∃ x, ((exampleRequestor 200 DigestAuthNonceReuseAlways none).Request exampleWorld
        exampleUri { cache := [], trace := [] }).1 =
      Result.ret x (some RequestError.ErrDigestAuthMissingCredentials) :=
  ⟨(missing_credentials (exampleRequestor 200 DigestAuthNonceReuseAlways none) exampleWorld
      exampleUri { cache := [("cam".data, exampleUsed 0 1 "00000001".data)], trace := [] }).1,
    fun h => absurd ((missing_credentials (exampleRequestor 200 DigestAuthNonceReuseAlways none)
      exampleWorld exampleUri { cache := [], trace := [] }).2.1 h) (by decide)⟩

/-! ## Concurrent calls of `ComputeResponse` -/

theorem stepAt_single (c : Caller) (pc pc1 : Pc) (sh sh1 : Shared)
    (h : c.step pc sh = some (pc1, sh1)) :
    stepAt 0 { shared := sh, threads := [(c, pc)] } = { shared := sh1, threads := [(c, pc1)] } := by
  simp only [stepAt, List.getElem?_cons_zero, h, List.set]

/-- Alone, a caller does what `ComputeResponse` does. -/
theorem solo_ComputeResponse (c : Caller) (s : DigestAuthState) :
    (exec [0, 0, 0, 0, 0, 0] (spawn [c] s)).shared =
        { mu := false, state := (s.ComputeResponse c.env c.requestUri c.credentials).2 } ∧
      (exec [0, 0, 0, 0, 0, 0] (spawn [c] s)).threads.map Prod.snd =
        [Pc.done (s.nonceCount + 1) (s.ComputeResponse c.env c.requestUri c.credentials).1] := by
  have hb : s.ComputeResponse c.env c.requestUri c.credentials =
      c.body { s with nonceCount := s.nonceCount + 1 } (s.nonceCount + 1) := rfl
  have h0 : spawn [c] s = { shared := { mu := false, state := s }, threads := [(c, Pc.start)] } :=
    rfl
  rw [hb, h0]
  simp only [exec]
  rw [stepAt_single c Pc.start Pc.locked _ { mu := true, state := s } (by simp [Caller.step]),
    stepAt_single c Pc.locked (Pc.incr s.nonceCount) _ { mu := true, state := s }
      (by simp [Caller.step]),
    stepAt_single c (Pc.incr s.nonceCount) Pc.counted _
      { mu := true, state := { s with nonceCount := s.nonceCount + 1 } } (by simp [Caller.step]),
    stepAt_single c Pc.counted (Pc.computing (s.nonceCount + 1)) _
      { mu := true, state := { s with nonceCount := s.nonceCount + 1 } } (by simp [Caller.step])]
  generalize hout : c.body { s with nonceCount := s.nonceCount + 1 } (s.nonceCount + 1) = out
  rw [stepAt_single c (Pc.computing (s.nonceCount + 1)) (Pc.returning (s.nonceCount + 1) out.1) _
      { mu := true, state := out.2 } (by simp [Caller.step, hout]),
    stepAt_single c (Pc.returning (s.nonceCount + 1) out.1) (Pc.done (s.nonceCount + 1) out.1) _
      { mu := false, state := out.2 } (by simp [Caller.step])]
  exact ⟨rfl, rfl⟩

theorem set_split {α : Type} (l : List α) : ∀ (i : Nat) (x : α), l[i]? = some x →
    ∃ l1 l2, l = l1 ++ x :: l2 ∧ ∀ y, l.set i y = l1 ++ y :: l2 := by
  induction l with
  | nil => intro i x h; simp at h
  | cons a l ih =>
    intro i x h
    cases i with
    | zero =>
      simp only [List.getElem?_cons_zero, Option.some.injEq] at h
      subst h
      exact ⟨[], l, rfl, fun y => rfl⟩
    | succ i =>
      simp only [List.getElem?_cons_succ] at h
      obtain ⟨l1, l2, h1, h2⟩ := ih i x h
      exact ⟨a :: l1, l2, by rw [h1]; rfl, fun y => by simp [List.set, h2]⟩

theorem others_outside (l1 l2 : List Pc) (pc : Pc) (hpc : pc.inCrit = true)
    (h : (l1 ++ pc :: l2).countP Pc.inCrit ≤ 1) :
    ∀ q ∈ l1 ++ l2, q.inCrit = false := by
  simp only [List.countP_append, List.countP_cons, hpc, if_true] at h
  have h1 : l1.countP Pc.inCrit = 0 := by omega
  have h2 : l2.countP Pc.inCrit = 0 := by omega
  intro q hq
  rcases List.mem_append.1 hq with hq | hq
  · have := (List.countP_eq_zero.1 h1) q hq
    simpa using this
  · have := (List.countP_eq_zero.1 h2) q hq
    simpa using this

theorem Inv.step {k : Nat} {sh sh1 : Shared} {l1 l2 : List Pc} {pc pc1 : Pc} (c : Caller)
    (hinv : Inv k sh (l1 ++ pc :: l2)) (hstep : c.step pc sh = some (pc1, sh1)) :
    Inv k sh1 (l1 ++ pc1 :: l2) := by
  obtain ⟨hA, hB, hC, hD⟩ := hinv
  have hle : (l1 ++ pc :: l2).countP Pc.inCrit ≤ 1 := by
    rw [hA]; split <;> omega
  cases pc with
  | start =>
    simp only [Caller.step] at hstep
    cases hmu : sh.mu with
    | true => simp [hmu] at hstep
    | false =>
      simp only [hmu, Bool.false_eq_true, if_false, Option.some.injEq, Prod.mk.injEq] at hstep
      obtain ⟨rfl, rfl⟩ := hstep
      simp only [hmu, Bool.false_eq_true, if_false] at hA
      refine ⟨?_, ?_, ?_, ?_⟩
      · simp only [List.countP_append, List.countP_cons, Pc.inCrit, Bool.false_eq_true,
          if_false, if_true] at hA ⊢
        omega
      · simpa [List.filterMap_append, List.filterMap_cons, Pc.issued, List.countP_append,
          List.countP_cons, Pc.isCounted] using hB
      · intro r hr
        apply hC r
        simp only [List.mem_append, List.mem_cons] at hr ⊢
        rcases hr with hr | hr | hr
        · exact Or.inl hr
        · cases hr
        · exact Or.inr (Or.inr hr)
      · simpa [List.filterMap_append, List.filterMap_cons, Pc.issued] using hD
  | locked =>
    simp only [Caller.step, Option.some.injEq, Prod.mk.injEq] at hstep
    obtain ⟨rfl, rfl⟩ := hstep
    refine ⟨?_, ?_, ?_, ?_⟩
    · simpa [List.countP_append, List.countP_cons, Pc.inCrit] using hA
    · simpa [List.filterMap_append, List.filterMap_cons, Pc.issued, List.countP_append,
        List.countP_cons, Pc.isCounted] using hB
    · intro r hr
      simp only [List.mem_append, List.mem_cons] at hr
      rcases hr with hr | hr | hr
      · exact hC r (by simp [hr])
      · cases hr; rfl
      · exact hC r (by simp [hr])
    · simpa [List.filterMap_append, List.filterMap_cons, Pc.issued] using hD
  | incr read =>
    simp only [Caller.step, Option.some.injEq, Prod.mk.injEq] at hstep
    obtain ⟨rfl, rfl⟩ := hstep
    have hread : read = sh.state.nonceCount := hC read (by simp)
    have hout := others_outside l1 l2 (Pc.incr read) rfl hle
    refine ⟨?_, ?_, ?_, ?_⟩
    · simpa [List.countP_append, List.countP_cons, Pc.inCrit] using hA
    · simp only [List.filterMap_append, List.filterMap_cons, Pc.issued, List.countP_append,
        List.countP_cons, Pc.isCounted, List.length_append] at hB ⊢
      simp at hB ⊢
      omega
    · intro r hr
      simp only [List.mem_append, List.mem_cons] at hr
      rcases hr with hr | hr | hr
      · have := hout _ (List.mem_append_left _ hr)
        simp [Pc.inCrit] at this
      · cases hr
      · have := hout _ (List.mem_append_right _ hr)
        simp [Pc.inCrit] at this
    · simpa [List.filterMap_append, List.filterMap_cons, Pc.issued] using hD
  | counted =>
    simp only [Caller.step, Option.some.injEq, Prod.mk.injEq] at hstep
    obtain ⟨rfl, rfl⟩ := hstep
    have hout := others_outside l1 l2 Pc.counted rfl hle
    have hc1 : l1.countP Pc.isCounted = 0 := by
      apply List.countP_eq_zero.2
      intro q hq
      have := hout q (List.mem_append_left _ hq)
      cases q <;> simp_all [Pc.inCrit, Pc.isCounted]
    have hc2 : l2.countP Pc.isCounted = 0 := by
      apply List.countP_eq_zero.2
      intro q hq
      have := hout q (List.mem_append_right _ hq)
      cases q <;> simp_all [Pc.inCrit, Pc.isCounted]
    simp only [List.filterMap_append, List.filterMap_cons, Pc.issued, List.countP_append,
      List.countP_cons, Pc.isCounted, List.length_append, hc1, hc2] at hB hD
    simp only [if_true, Nat.zero_add, Nat.add_zero] at hB
    refine ⟨?_, ?_, ?_, ?_⟩
    · simpa [List.countP_append, List.countP_cons, Pc.inCrit] using hA
    · simp only [List.filterMap_append, List.filterMap_cons, Pc.issued, List.countP_append,
        List.countP_cons, Pc.isCounted, List.length_append, List.length_cons, hc1, hc2]
      simp
      omega
    · intro r hr
      apply hC r
      simp only [List.mem_append, List.mem_cons] at hr ⊢
      rcases hr with hr | hr | hr
      · exact Or.inl hr
      · cases hr
      · exact Or.inr (Or.inr hr)
    · simp only [List.filterMap_append, List.filterMap_cons, Pc.issued, List.length_append,
        List.length_cons]
      have e : (List.filterMap Pc.issued l1).length + ((List.filterMap Pc.issued l2).length + 1)
          = ((List.filterMap Pc.issued l1).length + (List.filterMap Pc.issued l2).length) + 1 := by
        omega
      rw [e, List.range'_concat, Nat.one_mul]
      have e2 : sh.state.nonceCount = k + 1 +
          ((List.filterMap Pc.issued l1).length + (List.filterMap Pc.issued l2).length) := by
        omega
      rw [e2]
      exact List.perm_middle.trans ((List.Perm.cons _ hD).trans
        (List.perm_append_singleton _ _).symm)
  | computing raw =>
    simp only [Caller.step, Option.some.injEq, Prod.mk.injEq] at hstep
    obtain ⟨rfl, rfl⟩ := hstep
    have hn : (c.body sh.state raw).2.nonceCount = sh.state.nonceCount := by
      unfold Caller.body
      split <;> rfl
    refine ⟨?_, ?_, ?_, ?_⟩
    · simpa [List.countP_append, List.countP_cons, Pc.inCrit] using hA
    · simp only [hn]
      simpa [List.filterMap_append, List.filterMap_cons, Pc.issued, List.countP_append,
        List.countP_cons, Pc.isCounted] using hB
    · intro r hr
      simp only [hn]
      apply hC r
      simp only [List.mem_append, List.mem_cons] at hr ⊢
      rcases hr with hr | hr | hr
      · exact Or.inl hr
      · cases hr
      · exact Or.inr (Or.inr hr)
    · simpa [List.filterMap_append, List.filterMap_cons, Pc.issued] using hD
  | returning raw result =>
    simp only [Caller.step, Option.some.injEq, Prod.mk.injEq] at hstep
    obtain ⟨rfl, rfl⟩ := hstep
    have hmu : sh.mu = true := by
      cases h : sh.mu
      · rw [h] at hA
        simp [List.countP_append, List.countP_cons, Pc.inCrit] at hA
      · rfl
    rw [hmu] at hA
    refine ⟨?_, ?_, ?_, ?_⟩
    · simp only [List.countP_append, List.countP_cons, Pc.inCrit, Bool.false_eq_true,
        if_false, if_true] at hA ⊢
      omega
    · simpa [List.filterMap_append, List.filterMap_cons, Pc.issued, List.countP_append,
        List.countP_cons, Pc.isCounted] using hB
    · intro r hr
      apply hC r
      simp only [List.mem_append, List.mem_cons] at hr ⊢
      rcases hr with hr | hr | hr
      · exact Or.inl hr
      · cases hr
      · exact Or.inr (Or.inr hr)
    · simpa [List.filterMap_append, List.filterMap_cons, Pc.issued] using hD
  | done raw result => simp [Caller.step] at hstep

theorem Inv.stepAt {k : Nat} (i : Nat) (cfg : Config)
    (h : Inv k cfg.shared (cfg.threads.map Prod.snd)) :
    Inv k (stepAt i cfg).shared ((stepAt i cfg).threads.map Prod.snd) ∧
      (stepAt i cfg).threads.length = cfg.threads.length := by
  unfold DigestAuth.stepAt
  cases ht : cfg.threads[i]? with
  | none => exact ⟨h, rfl⟩
  | some t =>
    obtain ⟨c, pc⟩ := t
    simp only []
    cases hs : c.step pc cfg.shared with
    | none => exact ⟨h, rfl⟩
    | some next =>
      obtain ⟨pc1, sh1⟩ := next
      obtain ⟨l1, l2, h1, h2⟩ := set_split cfg.threads i (c, pc) ht
      simp only [h2, List.map_append, List.map_cons, List.length_append, List.length_cons]
      rw [h1] at h
      simp only [List.map_append, List.map_cons] at h
      refine ⟨Inv.step c h hs, ?_⟩
      rw [h1]
      simp

theorem Inv.exec {k : Nat} (schedule : List Nat) :
    ∀ cfg : Config, Inv k cfg.shared (cfg.threads.map Prod.snd) →
      Inv k (exec schedule cfg).shared ((exec schedule cfg).threads.map Prod.snd) ∧
        (exec schedule cfg).threads.length = cfg.threads.length := by
  induction schedule with
  | nil => intro cfg h; exact ⟨h, rfl⟩
  | cons i schedule ih =>
    intro cfg h
    obtain ⟨h1, h2⟩ := Inv.stepAt i cfg h
    obtain ⟨h3, h4⟩ := ih _ h1
    exact ⟨h3, h4.trans h2⟩

theorem Inv.spawn (callers : List Caller) (s : DigestAuthState) :
    Inv s.nonceCount (spawn callers s).shared ((spawn callers s).threads.map Prod.snd) := by
  have h : ∀ cs : List Caller, (cs.map (fun c => (c, Pc.start))).map Prod.snd =
      List.replicate cs.length Pc.start := by
    intro cs
    induction cs with
    | nil => rfl
    | cons c cs ih => simp [List.replicate_succ, ih]
  simp only [DigestAuth.spawn, h]
  have hmem : ∀ q ∈ List.replicate callers.length Pc.start, q = Pc.start :=
    fun q hq => List.eq_of_mem_replicate hq
  have hf : List.filterMap Pc.issued (List.replicate callers.length Pc.start) = [] := by
    apply List.filterMap_eq_nil_iff.2
    intro q hq
    rw [hmem q hq]
    rfl
  refine ⟨?_, ?_, ?_, ?_⟩
  · apply List.countP_eq_zero.2
    intro q hq
    rw [hmem q hq]
    simp [Pc.inCrit]
  · rw [hf]
    have : List.countP Pc.isCounted (List.replicate callers.length Pc.start) = 0 := by
      apply List.countP_eq_zero.2
      intro q hq
      rw [hmem q hq]
      simp [Pc.isCounted]
    simp [this]
  · intro r hr
    cases hmem _ hr
  · rw [hf]
    exact List.Perm.refl _

theorem Params.mem_set (out : Params) (k v : GoString) :
    ∀ kv ∈ Params.set out k v, kv.1 = k ∨ kv ∈ out := by
  induction out with
  | nil =>
    intro kv h
    simp only [Params.set, List.mem_singleton] at h
    exact Or.inl (by rw [h])
  | cons e out ih =>
    obtain ⟨k1, v1⟩ := e
    intro kv h
    simp only [Params.set] at h
    by_cases hk : k1 = k
    · simp only [hk, if_true, List.mem_cons] at h
      rcases h with rfl | h
      · exact Or.inl rfl
      · exact Or.inr (List.mem_cons_of_mem _ h)
    · simp only [hk, if_false, List.mem_cons] at h
      rcases h with rfl | h
      · exact Or.inr (List.mem_cons_self _ _)
      · rcases ih kv h with h1 | h1
        · exact Or.inl h1
        · exact Or.inr (List.mem_cons_of_mem _ h1)

/-- What a `Next` closure returns when it is called with a token, or (the closure
`commitValue`) with any value. -/
theorem call_keysTokens (N : NextFn) (out : Params) (v : GoString) (ps : parserState)
    (out1 : Params) (hN : N.keyToken) (hv : isToken v ∨ ∃ key, N = NextFn.commitValue key)
    (hout : ∀ kv ∈ out, isToken kv.1)
    (h : NextFn.call N out v = Except.ok (ps, out1)) :
    (∃ d nx, ps = parserStateParsingDelimiter d nx ∧ ps.wf) ∧ ps.keysTokens ∧
      ∀ kv ∈ out1, isToken kv.1 := by
  refine ⟨call_wf N out v ps out1 h, ?_⟩
  cases N with
  | parsingKey =>
    simp only [NextFn.call] at h
    split at h
    · cases h
    · cases h
      rcases hv with hv | ⟨key, hk⟩
      · exact ⟨hv, hout⟩
      · cases hk
  | commitValue key =>
    simp only [NextFn.call] at h
    cases h
    refine ⟨trivial, ?_⟩
    intro kv hkv
    rcases Params.mem_set out key v kv hkv with h1 | h1
    · rw [h1]; exact hN
    · exact hout kv h1

theorem again_delimiter_keysTokens (B : List Char) (pos : Nat) (c : Char) (d : Char)
    (nx : parserState) (out : Params) (ps1 : parserState) (out1 : Params) (done : List Char)
    (hw : (parserStateParsingDelimiter d nx).wf)
    (hk : (parserStateParsingDelimiter d nx).keysTokens)
    (h : again B pos c 1 (parserStateParsingDelimiter d nx) out = Step.next ps1 out1) :
    ps1.keysTokens ∧ ps1.tokenSoFar done ∧ out1 = out := by
  simp only [again] at h
  by_cases h1 : c = ' '
  · simp only [h1, if_true] at h
    cases h
    exact ⟨hk, trivial, rfl⟩
  · by_cases h2 : c = d
    · subst h2
      simp only [h1, if_false, ne_eq, not_true_eq_false] at h
      cases h
      refine ⟨hk, ?_, rfl⟩
      rcases hw with ⟨-, rfl⟩ | ⟨-, key, rfl⟩ <;> trivial
    · simp [h1, h2] at h

theorem again_quoted_keysTokens (B : List Char) (pos : Nat) (c : Char) (ok esc : Bool)
    (buf : GoString) (N : NextFn) (out : Params) (ps1 : parserState) (out1 : Params)
    (done : List Char)
    (hk : (parserStateParsingQuotedValue ok esc buf N).keysTokens)
    (hout : ∀ kv ∈ out, isToken kv.1)
    (h : again B pos c 1 (parserStateParsingQuotedValue ok esc buf N) out = Step.next ps1 out1) :
    ps1.keysTokens ∧ ps1.tokenSoFar done ∧ ∀ kv ∈ out1, isToken kv.1 := by
  simp only [again] at h
  cases ok
  · by_cases h0 : c = '"'
    · simp only [h0, if_true] at h
      cases h
      exact ⟨hk, trivial, hout⟩
    · simp [h0] at h
  cases esc <;> simp at h
  · by_cases h1 : c = '\\'
    · simp [h1] at h
      obtain ⟨rfl, rfl⟩ := h
      exact ⟨hk, trivial, hout⟩
    · by_cases h2 : c = '"'
      · simp only [h1, h2, if_false, if_true] at h
        cases hc : NextFn.call N out buf with
        | error e => simp [hc] at h
        | ok r =>
          obtain ⟨ps2, out2⟩ := r
          simp only [hc, Step.next.injEq] at h
          obtain ⟨rfl, rfl⟩ := h
          obtain ⟨key, rfl, hkey⟩ := hk
          obtain ⟨⟨d, nx, rfl, -⟩, h3, h4⟩ :=
            call_keysTokens (NextFn.commitValue key) out buf _ _ hkey (Or.inr ⟨key, rfl⟩) hout hc
          exact ⟨h3, trivial, h4⟩
      · simp [h1, h2] at h
        obtain ⟨rfl, rfl⟩ := h
        exact ⟨hk, trivial, hout⟩
  · obtain ⟨rfl, rfl⟩ := h
    exact ⟨hk, trivial, hout⟩

theorem sliceRunes_done (done tl : List Char) (s : Nat) (hs : s ≤ done.length) :
    sliceRunes (done ++ tl) s done.length = some (done.drop s) := by
  unfold sliceRunes
  have h1 : s ≤ done.length ∧ done.length ≤ (done ++ tl).length := ⟨hs, by simp⟩
  rw [if_pos h1, List.drop_append_of_le_length hs]
  have h2 : (done.drop s).length = done.length - s := by simp
  rw [← h2, List.take_left]

/-- One pass through the loop body keeps the keys tokens, on an ASCII input. -/
theorem step_keysTokens (B tl done : List Char) (c : Char) (ps : parserState)
    (out : Params) (ps1 : parserState) (out1 : Params) (hB : B = done ++ tl)
    (hc : c.toNat < 128)
    (hw : ps.wf) (hk : ps.keysTokens) (ht : ps.tokenSoFar done)
    (hout : ∀ kv ∈ out, isToken kv.1)
    (h : step B done.length c ps out = Step.next ps1 out1) :
    ps1.keysTokens ∧ ps1.tokenSoFar (done ++ [c]) ∧ ∀ kv ∈ out1, isToken kv.1 := by
  subst hB
  unfold step at h
  cases ps with
  | parserStateParsingToken N s ok =>
    simp only [again] at h
    by_cases h1 : ok = false ∧ c = ' '
    · simp only [h1, and_self, if_true] at h
      cases h
      obtain ⟨rfl, -⟩ := h1
      exact ⟨hk, trivial, hout⟩
    · by_cases h2 : c.toNat < 32 ∨ isRfc2616Separator c = true
      · simp only [h1, h2, if_false, if_true] at h
        by_cases h3 : (if ok = true then s else done.length) = done.length
        · simp [h3] at h
        · simp only [h3, if_false] at h
          cases ok with
          | false => simp at h3
          | true =>
            simp only [if_true] at h h3
            obtain ⟨hs, hchars⟩ := ht
            have hsl : sliceRunes (done ++ tl) s done.length = some (done.drop s) :=
              sliceRunes_done done _ s (Nat.le_of_lt hs)
            simp only [hsl] at h
            have htok : isToken (done.drop s) := by
              refine ⟨?_, hchars⟩
              intro h0
              have := congrArg List.length h0
              simp at this
              omega
            cases hcall : NextFn.call N out (done.drop s) with
            | error e => simp [hcall] at h
            | ok r =>
              obtain ⟨ps2, out2⟩ := r
              simp only [hcall] at h
              obtain ⟨⟨d, nx, rfl, hw2⟩, hk2, hout2⟩ :=
                call_keysTokens N out _ _ _ hk (Or.inl htok) hout hcall
              obtain ⟨a1, a2, rfl⟩ := again_delimiter_keysTokens _ _ _ _ _ _ _ _
                (done ++ [c]) hw2 hk2 h
              exact ⟨a1, a2, hout2⟩
      · simp only [h1, h2, if_false] at h
        cases h
        have htc : tokenChar c := by
          simp only [not_or, Nat.not_lt, Bool.not_eq_true] at h2
          exact ⟨h2.1, hc, h2.2⟩
        refine ⟨hk, ?_, hout⟩
        cases ok with
        | false =>
          simp only [Bool.false_eq_true, if_false]
          refine ⟨by simp, ?_⟩
          intro x hx
          simp at hx
          rw [hx]; exact htc
        | true =>
          simp only [if_true]
          obtain ⟨hs, hchars⟩ := ht
          refine ⟨by simp; omega, ?_⟩
          intro x hx
          rw [List.drop_append_of_le_length (Nat.le_of_lt hs)] at hx
          rcases List.mem_append.1 hx with hx | hx
          · exact hchars x hx
          · simp at hx
            rw [hx]; exact htc
  | parserStateParsingDelimiter d nx =>
    obtain ⟨a1, a2, rfl⟩ := again_delimiter_keysTokens _ _ _ _ _ _ _ _ (done ++ [c]) hw hk
      (((again_delimiter_fuel _ done.length c 1 d nx out).1).symm.trans h)
    exact ⟨a1, a2, hout⟩
  | parserStateBranch iw key =>
    simp only [again] at h
    by_cases h1 : iw = true ∧ c = ' '
    · simp only [h1, and_self, if_true] at h
      cases h
      exact ⟨hk, trivial, hout⟩
    · simp only [h1, if_false] at h
      unfold branchNext at h
      by_cases h2 : c = '"'
      · simp only [h2, if_true] at h
        exact again_quoted_keysTokens _ _ _ _ _ _ _ _ _ _ _ ⟨key, rfl, hk⟩ hout h
      · simp only [h2, if_false] at h
        by_cases h3 : isRfc2616Separator c = true
        · simp [h3] at h
        · simp only [Bool.not_eq_true] at h3
          have hsp : c ≠ ' ' := by
            intro h; subst h; exact absurd h3 (by decide)
          simp only [h3, Bool.not_false, if_true, again, hsp, and_false, if_false,
            Bool.false_eq_true, or_false] at h
          by_cases h4 : c.toNat < 32
          · simp [h4] at h
          · simp only [h4, if_false] at h
            cases h
            refine ⟨hk, ⟨by simp, ?_⟩, hout⟩
            intro x hx
            simp at hx
            rw [hx]
            exact ⟨Nat.not_lt.1 h4, hc, h3⟩
  | parserStateParsingQuotedValue ok esc buf N =>
    exact again_quoted_keysTokens _ _ _ _ _ _ _ _ _ _ _ hk hout
      (((again_quoted_fuel _ done.length c 1 ok esc buf N out).1).symm.trans h)

/-- The loop keeps the keys tokens, on an ASCII input. -/
theorem parseLoop_keysTokens (B spare : List Char) (rest : List Char) :
    ∀ (done : List Char) (ps : parserState) (out : Params) (ps1 : parserState) (out1 : Params),
      B = done ++ rest ++ spare →
      isAscii (done ++ rest) → ps.wf → ps.keysTokens → ps.tokenSoFar done →
      (∀ kv ∈ out, isToken kv.1) →
      parseLoop B (byteLen done) rest ps out = Except.ok (ps1, out1) →
      ∀ kv ∈ out1, isToken kv.1 := by
  induction rest with
  | nil =>
    intro done ps out ps1 out1 _ _ _ _ _ hout h
    simp only [parseLoop] at h
    cases h
    exact hout
  | cons c rest ih =>
    intro done ps out ps1 out1 hB hasc hw hk ht hout h
    have hc : c.toNat < 128 := hasc c (by simp)
    have hd : isAscii done := fun x hx => hasc x (by simp [hx])
    simp only [parseLoop] at h
    rw [byteLen_ascii hd] at h
    cases hs : step B done.length c ps out with
    | next ps2 out2 =>
      simp only [hs] at h
      obtain ⟨a1, a2, a3⟩ := step_keysTokens B (c :: rest ++ spare) done c ps out ps2 out2
        (by rw [hB]; simp) hc hw hk ht hout hs
      have hw2 := step_wf _ _ _ _ _ _ _ hw hs
      have e1 : done ++ c :: rest = (done ++ [c]) ++ rest := by simp
      have e2 : done.length + runeLen c = byteLen (done ++ [c]) := by
        rw [byteLen_append, byteLen_ascii hd]
        simp [byteLen]
      rw [e2] at h
      exact ih (done ++ [c]) ps2 out2 ps1 out1 (by rw [hB]; simp) (by rw [← e1]; exact hasc)
        hw2 a1 a2 a3 h
    | parserFail p => simp [hs] at h
    | ret e => simp [hs] at h
    | panic => simp [hs] at h
    | jumps => simp [hs] at h

theorem isAscii_trimLeft {s : GoString} (h : isAscii s) : isAscii (trimLeft s) :=
  fun c hc => h c ((List.dropWhile_suffix _).subset hc)

/-- Every key of the map that `parseWWWAuthenticate` returns for an ASCII header is a
non-empty string of characters from 32 to 127 that are not separators. -/
theorem keys_are_tokens (spare : List Char) (h : GoString) (out : Params) (hasc : isAscii h)
    (hok : parseWWWAuthenticate spare h = Outcome.ok out) :
    ∀ kv ∈ out, isToken kv.1 := by
  unfold parseWWWAuthenticate at hok
  split at hok
  · cases hok
  · simp only [] at hok
    have hraw : isAscii (trimLeft (trimPrefix h digestLit)) := by
      apply isAscii_trimLeft
      unfold trimPrefix
      split
      · exact fun c hc => hasc c (List.mem_of_mem_drop hc)
      · exact hasc
    unfold parseRunes at hok
    cases hl : parseLoop (trimLeft (trimPrefix h digestLit) ++ spare) 0
        (trimLeft (trimPrefix h digestLit)) newParserStateParsingKey [] with
    | error o =>
      rw [hl] at hok
      simp only [] at hok
      subst hok
      exact absurd rfl (parseLoop_error_ne_ok _ _ _ _ _ _ out hl)
    | ok r =>
      obtain ⟨ps1, out1⟩ := r
      rw [hl] at hok
      simp only [] at hok
      have hfin : out1 = out := by
        unfold finish at hok
        split at hok
        · split at hok
          · cases hok
          · cases hok; rfl
        · cases hok
      subst hfin
      exact parseLoop_keysTokens (trimLeft (trimPrefix h digestLit) ++ spare) spare
        (trimLeft (trimPrefix h digestLit)) [] newParserStateParsingKey [] ps1 out1
        (by simp) (by simpa using hraw) trivial trivial trivial (by simp)
        (by simpa [byteLen] using hl)

/-! ## Parsing the Authorization value again -/

theorem escaped_eq_escapeQuotes (v : GoString) (h : '\\' ∉ v) : escaped v = escapeQuotes v := by
  induction v with
  | nil => rfl
  | cons c v ih =>
    have hc : c ≠ '\\' := fun e => h (by simp [e])
    have hv : '\\' ∉ v := fun e => h (List.mem_cons_of_mem _ e)
    have ih2 := ih hv
    simp only [escaped, escapeQuotes, List.flatMap_cons] at ih2 ⊢
    rw [ih2]
    by_cases hq : c = '"'
    · simp [hq]
    · simp [hq, hc]

/-- The pair that a piece of the Authorization value is: one space before the key, and the
value as a quoted string. -/
theorem pairsText_pieces (L : Params) (hne : L ≠ []) (hL : ∀ kv ∈ L, '\\' ∉ kv.2) :
    pairsText (L.map (fun kv => ({ spaces := 1, key := kv.1, value := kv.2, bare := false } :
      Pair))) = ' ' :: joinPieces (L.map piece) := by
  induction L with
  | nil => exact absurd rfl hne
  | cons kv L ih =>
    have h1 : escaped kv.2 = escapeQuotes kv.2 :=
      escaped_eq_escapeQuotes _ (hL kv (List.mem_cons_self _ _))
    cases L with
    | nil =>
      simp [pairsText, joinPieces, Pair.text, Pair.valueText, quotedString, piece, h1,
        List.replicate]
    | cons kv2 L =>
      have ih2 := ih (by simp) (fun x hx => hL x (List.mem_cons_of_mem _ hx))
      simp only [List.map_cons] at ih2 ⊢
      simp only [pairsText, joinPieces, ih2]
      simp [Pair.text, Pair.valueText, quotedString, piece, h1, List.replicate]

/-- The Authorization value of a successful call is parsed to the parameters of the state
after the call, in the order in which they were written, when these are keys that are
tokens, all different, with ASCII values without a backslash, in at most 512 characters. -/
theorem reparse_without_backslash (spare : List Char) (env : Env) (s : DigestAuthState)
    (uri : GoString) (cr : Userinfo) (hok : (s.ComputeResponse env uri cr).1.2 = none)
    (hperm : ∀ m, (env.rangeOrder m).Perm m)
    (hkeys : ((s.ComputeResponse env uri cr).2.params.map Prod.fst).Nodup)
    (hgood : ∀ kv ∈ (s.ComputeResponse env uri cr).2.params,
      isToken kv.1 ∧ isAscii kv.2 ∧ '\\' ∉ kv.2)
    (hlen : (s.ComputeResponse env uri cr).1.1.length ≤ 512) :
    parseWWWAuthenticate spare (s.ComputeResponse env uri cr).1.1 =
      Outcome.ok (env.rangeOrder (s.ComputeResponse env uri cr).2.params) := by
  obtain ⟨d, hd, hh, hp⟩ := ComputeResponse_ok env s uri cr hok
  obtain ⟨-, hu, -, -, -⟩ := computeDigest_entries env _ _ _ _ d hd
  rw [hp] at hkeys hgood ⊢
  rw [hh] at hlen ⊢
  have hP := hperm d.params
  have hne : env.rangeOrder d.params ≠ [] := by
    intro h0
    rw [h0] at hP
    have := hP.symm.eq_nil
    rw [this] at hu
    simp [Params.get?] at hu
  have hgood2 : ∀ kv ∈ env.rangeOrder d.params, isToken kv.1 ∧ isAscii kv.2 ∧ '\\' ∉ kv.2 :=
    fun kv hkv => hgood kv (hP.mem_iff.1 hkv)
  have htext : header ((env.rangeOrder d.params).map (fun kv =>
        ({ spaces := 1, key := kv.1, value := kv.2, bare := false } : Pair))) =
      ['D', 'i', 'g', 'e', 's', 't', ' '] ++ joinPieces (pieces env d.params) := by
    unfold header pieces
    rw [pairsText_pieces _ hne (fun kv hkv => (hgood2 kv hkv).2.2)]
    rfl
  rw [← htext] at hlen ⊢
  rw [parse_header spare _ (by simpa using hne) ?_ ?_ ?_ hlen]
  · simp [Pair.entry, List.map_map, Function.comp_def]
  · intro p hp
    obtain ⟨kv, hkv, rfl⟩ := List.mem_map.1 hp
    exact ⟨(hgood2 kv hkv).1, (hgood2 kv hkv).2.1⟩
  · have : ((env.rangeOrder d.params).map (fun kv =>
          ({ spaces := 1, key := kv.1, value := kv.2, bare := false } : Pair))).map Pair.key =
        (env.rangeOrder d.params).map Prod.fst := by
      simp [List.map_map, Function.comp_def]
    rw [this]
    exact (hP.map Prod.fst).nodup_iff.2 hkeys
  · unfold lastBare
    cases hl : (List.map (fun kv => ({ spaces := 1, key := kv.1, value := kv.2, bare := false } :
        Pair)) (env.rangeOrder d.params)).getLast? with
    | none => rfl
    | some p =>
      have hm := List.mem_of_getLast?_eq_some hl
      obtain ⟨kv, -, rfl⟩ := List.mem_map.1 hm
      rfl

/-! ## Inputs on which the parser and the serialisation part ways with the grammar -/

/-- C23 fails on its own example: after the two-byte character `é` the byte offsets of the
loop are one more than the indices of the characters, so the key `nonce` is cut one
character to the right, as `once=`, whatever the spare capacity of the slice. -/
theorem non_ascii_shifts_tokens (spare : List Char) :
    parseWWWAuthenticate spare "Digest realm=\"é\", nonce=\"n\"".data =
      Outcome.ok [("realm".data, "é".data), ("once=".data, "n".data)] := by
  rfl

/-- C21 fails for DEL: the token state stops on the characters below 32 and on the
separators only, so the character 127 is taken into a key and into a bare value. -/
theorem token_admits_del (spare : List Char) :
    parseWWWAuthenticate spare ("Digest a".data ++ [Char.ofNat 127] ++ "=\"x\"".data) =
      Outcome.ok [("a".data ++ [Char.ofNat 127], "x".data)] ∧
    parseWWWAuthenticate spare
        ("Digest a=b".data ++ [Char.ofNat 127] ++ ", c=\"d\"".data) =
      Outcome.ok [("a".data, "b".data ++ [Char.ofNat 127]), ("c".data, "d".data)] ∧
    isAscii ("Digest a".data ++ [Char.ofNat 127] ++ "=\"x\"".data) ∧
    (Char.ofNat 127).toNat = 127 := by
  refine ⟨rfl, rfl, by decide, by decide⟩

set_option maxRecDepth 1000000 in
/-- C24 fails for a value with a backslash: the loop that writes the pieces puts a backslash
before every double quote and before nothing else. The challenge `Digest realm="a\\b",
nonce="n"` is parsed to the realm `a\b`; the Authorization value of the call carries
`realm="a\b"`, which is parsed to the realm `ab`. With the realm `a\` the value carries
`realm="a\"`, and the parser, for which the quoted string goes on after `\"`, returns an
error. -/
theorem reparse_loses_backslash :
    newDigestAuthStateFromChallenge [] 0 "Digest realm=\"a\\\\b\", nonce=\"n\"".data =
      Except.ok { params := [("realm".data, "a\\b".data), ("nonce".data, "n".data)],
                  nonceCount := 0, createdAt := 0 } ∧
    (DigestAuthState.ComputeResponse fixedEnv
        { params := [("realm".data, "a\\b".data), ("nonce".data, "n".data)],
          nonceCount := 0, createdAt := 0 } "/x".data ⟨"u".data, "p".data, true⟩).1 =
      ("Digest realm=\"a\\b\", nonce=\"n\", username=\"u\", nc=\"00000001\", uri=\"/x\", response=\"f8cb7ec7890ef38096a0806478d73732\"".data,
        none) ∧
    Params.get? (DigestAuthState.ComputeResponse fixedEnv
        { params := [("realm".data, "a\\b".data), ("nonce".data, "n".data)],
          nonceCount := 0, createdAt := 0 } "/x".data ⟨"u".data, "p".data, true⟩).2.params
        "realm".data = some "a\\b".data ∧
    (∀ spare, parseWWWAuthenticate spare
        "Digest realm=\"a\\b\", nonce=\"n\", username=\"u\", nc=\"00000001\", uri=\"/x\", response=\"f8cb7ec7890ef38096a0806478d73732\"".data =
      Outcome.ok [("realm".data, "ab".data), ("nonce".data, "n".data),
        ("username".data, "u".data), ("nc".data, "00000001".data), ("uri".data, "/x".data),
        ("response".data, "f8cb7ec7890ef38096a0806478d73732".data)]) ∧
    newDigestAuthStateFromChallenge [] 0 "Digest realm=\"a\\\\\", nonce=\"n\"".data =
      Except.ok { params := [("realm".data, "a\\".data), ("nonce".data, "n".data)],
                  nonceCount := 0, createdAt := 0 } ∧
    (DigestAuthState.ComputeResponse fixedEnv
        { params := [("realm".data, "a\\".data), ("nonce".data, "n".data)],
          nonceCount := 0, createdAt := 0 } "/x".data ⟨"u".data, "p".data, true⟩).1 =
      ("Digest realm=\"a\\\", nonce=\"n\", username=\"u\", nc=\"00000001\", uri=\"/x\", response=\"3f27ed5545c38de5b96d2b0399d072d5\"".data,
        none) ∧
    (∀ spare, parseWWWAuthenticate spare
        "Digest realm=\"a\\\", nonce=\"n\", username=\"u\", nc=\"00000001\", uri=\"/x\", response=\"3f27ed5545c38de5b96d2b0399d072d5\"".data =
      Outcome.error (ParseError.unexpectedCharacter 19
        (parserStateParsingDelimiter ',' newParserStateParsingKey) 'n')) :=
  ⟨by decide, by decide, by decide, fun _ => rfl, by decide, by decide, fun _ => rfl⟩

set_option maxRecDepth 1000000 in
/-- An instance of `reparse_without_backslash`: the Authorization value of the first call on
the state of the examples is parsed to the parameters of the state after the call. -/
theorem reparse_example :
    parseWWWAuthenticate [] (exampleHeader "00000001".data) =
      Outcome.ok (exampleUsed 0 1 "00000001".data).params :=
  have h := reparse_without_backslash [] fixedEnv (exampleState 0) "/x".data
    ⟨"u".data, "p".data, true⟩ (by decide) (fun m => List.Perm.refl m) (by decide) (by decide)
    (by decide)
  have e : DigestAuthState.ComputeResponse fixedEnv (exampleState 0) "/x".data
      ⟨"u".data, "p".data, true⟩ =
      ((exampleHeader "00000001".data, none), exampleUsed 0 1 "00000001".data) := by decide
  by rw [e] at h; exact h

/-! ## The state after a failing `ComputeResponse` -/

/-- The map at the `return` of a failing `computeDigest`: unchanged, or with `cnonce` written
by the block "compute ha1", which happens exactly for `md5-sess`, the error then being the
unknown qop. -/
theorem computeDigest_error_params (env : Env) (params : Params) (n : Nat) (uri : GoString)
    (cr : Userinfo) (e : ResponseError) (p1 : Params)
    (h : computeDigest env params n uri cr = Except.error (e, p1))
    (hk : e ≠ ResponseError.cnonce) :
    (toLower env (Params.get params digestAuthParamAlgorithm) = digestAuthAlgoMd5Sess →
      (∃ q, e = ResponseError.unknownQop q) ∧
        ∃ buf, env.randRead = some buf ∧
          p1 = Params.set params digestAuthParamClientNonce
            (hexEncodeToString (md5Sum buf))) ∧
    (toLower env (Params.get params digestAuthParamAlgorithm) ≠ digestAuthAlgoMd5Sess →
      p1 = params) := by
  unfold computeDigest at h
  simp only [] at h
  cases hr : env.randRead with
  | none =>
    simp only [hr, Except.error.injEq, Prod.mk.injEq] at h
    exact absurd h.1.symm hk
  | some buf =>
    simp only [hr] at h
    unfold computeHa1 at h
    by_cases h1 : toLower env (Params.get params digestAuthParamAlgorithm) = digestAuthAlgoMd5 ∨
        toLower env (Params.get params digestAuthParamAlgorithm) = digestAuthAlgoMd5Sess ∨
        toLower env (Params.get params digestAuthParamAlgorithm) = digestAuthAlgoUnspecified
    · rw [if_pos h1] at h
      simp only [] at h
      by_cases h2 : toLower env (Params.get params digestAuthParamAlgorithm) =
          digestAuthAlgoMd5Sess
      · rw [if_pos h2] at h
        simp only [] at h
        cases hq : computeHa2 (toLower env (Params.get params digestAuthParamQop)) uri with
        | ok ha2 => rw [hq] at h; cases h
        | error e2 =>
          rw [hq] at h
          simp only [Except.error.injEq, Prod.mk.injEq] at h
          obtain ⟨rfl, rfl⟩ := h
          refine ⟨fun _ => ⟨?_, buf, rfl, rfl⟩, fun hn => absurd h2 hn⟩
          unfold computeHa2 at hq
          split at hq
          · cases hq
          · split at hq
            · cases hq
            · cases hq
              exact ⟨_, rfl⟩
      · rw [if_neg h2] at h
        simp only [] at h
        cases hq : computeHa2 (toLower env (Params.get params digestAuthParamQop)) uri with
        | ok ha2 => rw [hq] at h; cases h
        | error e2 =>
          rw [hq] at h
          simp only [Except.error.injEq, Prod.mk.injEq] at h
          obtain ⟨rfl, rfl⟩ := h
          exact ⟨fun hy => absurd hy h2, fun _ => rfl⟩
    · rw [if_neg h1] at h
      simp only [Except.error.injEq, Prod.mk.injEq] at h
      obtain ⟨rfl, rfl⟩ := h
      exact ⟨fun hy => absurd (Or.inr (Or.inl hy)) h1, fun _ => rfl⟩

/-- C22 (state after a failing `ComputeResponse`): when `ComputeResponse` returns the error
of an unknown algorithm or of an unknown qop, the nonce count of the state is one more than
before; every parameter other than `cnonce` (so `username`, `uri`, `response` and `nc` too)
is as before, in value or in absence; when the lower-cased algorithm is `md5-sess` the error
is the unknown qop and the map is the old one with `cnonce` set to the client nonce; and
otherwise the map is the old one. -/
theorem failing_compute_response_state (env : Env) (s : DigestAuthState) (uri : GoString)
    (cr : Userinfo) (e : ResponseError)
    (he : (s.ComputeResponse env uri cr).1.2 = some e)
    (hk : (∃ a, e = ResponseError.unknownAlgo a) ∨ ∃ q, e = ResponseError.unknownQop q) :
    (s.ComputeResponse env uri cr).2.nonceCount = s.nonceCount + 1 ∧
    (∀ k, k ≠ digestAuthParamClientNonce →
      Params.get? (s.ComputeResponse env uri cr).2.params k = Params.get? s.params k) ∧
    (toLower env (Params.get s.params digestAuthParamAlgorithm) = digestAuthAlgoMd5Sess →
      (∃ q, e = ResponseError.unknownQop q) ∧
        ∃ buf, env.randRead = some buf ∧
          (s.ComputeResponse env uri cr).2.params =
            Params.set s.params digestAuthParamClientNonce
              (hexEncodeToString (md5Sum buf))) ∧
    (toLower env (Params.get s.params digestAuthParamAlgorithm) ≠ digestAuthAlgoMd5Sess →
      (s.ComputeResponse env uri cr).2.params = s.params) := by
  have hne : e ≠ ResponseError.cnonce := by
    rcases hk with ⟨a, rfl⟩ | ⟨q, rfl⟩ <;> simp
  refine ⟨ComputeResponse_nonceCount env s uri cr, ?_⟩
  unfold DigestAuthState.ComputeResponse at he ⊢
  simp only [] at he ⊢
  cases hd : computeDigest env s.params (s.nonceCount + 1) uri cr with
  | ok d => simp [hd] at he
  | error r =>
    obtain ⟨e1, p1⟩ := r
    simp only [hd, Option.some.injEq] at he
    subst he
    simp only []
    obtain ⟨h1, h2⟩ := computeDigest_error_params env s.params _ uri cr e1 p1 hd hne
    refine ⟨?_, h1, h2⟩
    intro k hkey
    by_cases hm : toLower env (Params.get s.params digestAuthParamAlgorithm) =
        digestAuthAlgoMd5Sess
    · obtain ⟨-, buf, -, rfl⟩ := h1 hm
      exact Params.get?_set_other _ _ _ _ (Ne.symm hkey)
    · rw [h2 hm]

set_option maxRecDepth 1000000 in
/-- Witness of C22: with the algorithm `MD5-sess` and the qop `auth-conf` the call fails, the
count goes from 0 to 1 and `cnonce` is in the map; with the algorithm `SHA-256` the map is
as before. -/
theorem failing_compute_response_state_witness :
    (DigestAuthState.ComputeResponse fixedEnv
        { params := [("nonce".data, "abc".data), ("algorithm".data, "MD5-sess".data),
            ("qop".data, "auth-conf".data)], nonceCount := 0, createdAt := 0 }
        "/x".data ⟨"u".data, "p".data, true⟩) =
      (([], some (ResponseError.unknownQop "auth-conf".data)),
        { params := [("nonce".data, "abc".data), ("algorithm".data, "MD5-sess".data),
            ("qop".data, "auth-conf".data),
            ("cnonce".data, "4ae71336e44bf9bf79d2752e234818a5".data)],
          nonceCount := 1, createdAt := 0 }) ∧
    (DigestAuthState.ComputeResponse fixedEnv
        { params := [("nonce".data, "abc".data), ("algorithm".data, "SHA-256".data)],
          nonceCount := 0, createdAt := 0 }
        "/x".data ⟨"u".data, "p".data, true⟩).2.params =
      [("nonce".data, "abc".data), ("algorithm".data, "SHA-256".data)] :=
  ⟨by decide,
   (failing_compute_response_state fixedEnv
      { params := [("nonce".data, "abc".data), ("algorithm".data, "SHA-256".data)],
        nonceCount := 0, createdAt := 0 }
      "/x".data ⟨"u".data, "p".data, true⟩ (ResponseError.unknownAlgo "sha-256".data)
      (by decide) (Or.inl ⟨_, rfl⟩)).2.2.2 (by decide)⟩

/-! ## The letter case of the hashed parameters -/

/-- What `computeDigest` computes depends on the values of `algorithm`, `qop`, `realm` and
`nonce` only through their lower-case forms. -/
theorem computeDigest_case (env : Env) (p1 p2 : Params) (n : Nat) (uri : GoString)
    (cr : Userinfo)
    (hA : toLower env (Params.get p1 digestAuthParamAlgorithm) =
      toLower env (Params.get p2 digestAuthParamAlgorithm))
    (hQ : toLower env (Params.get p1 digestAuthParamQop) =
      toLower env (Params.get p2 digestAuthParamQop))
    (hR : toLower env (Params.get p1 digestAuthParamRealm) =
      toLower env (Params.get p2 digestAuthParamRealm))
    (hN : toLower env (Params.get p1 digestAuthParamNonce) =
      toLower env (Params.get p2 digestAuthParamNonce)) :
    (∀ d1, computeDigest env p1 n uri cr = Except.ok d1 →
      ∃ d2, computeDigest env p2 n uri cr = Except.ok d2 ∧ d1.response = d2.response ∧
        d1.cnonce = d2.cnonce ∧ d1.ha1 = d2.ha1 ∧ d1.ha2 = d2.ha2) ∧
    (∀ e q1, computeDigest env p1 n uri cr = Except.error (e, q1) →
      ∃ q2, computeDigest env p2 n uri cr = Except.error (e, q2)) := by
  unfold computeDigest
  simp only [hA, hQ, hR, hN]
  cases env.randRead with
  | none => simp
  | some buf =>
    simp only []
    unfold computeHa1
    by_cases h1 : toLower env (Params.get p2 digestAuthParamAlgorithm) = digestAuthAlgoMd5 ∨
        toLower env (Params.get p2 digestAuthParamAlgorithm) = digestAuthAlgoMd5Sess ∨
        toLower env (Params.get p2 digestAuthParamAlgorithm) = digestAuthAlgoUnspecified
    · simp only [if_pos h1]
      by_cases h2 : toLower env (Params.get p2 digestAuthParamAlgorithm) = digestAuthAlgoMd5Sess
      · simp only [if_pos h2]
        cases computeHa2 (toLower env (Params.get p2 digestAuthParamQop)) uri with
        | error e => simp
        | ok ha2 =>
          simp only [computeResponseParam]
          split <;> simp
      · simp only [if_neg h2]
        cases computeHa2 (toLower env (Params.get p2 digestAuthParamQop)) uri with
        | error e => simp
        | ok ha2 =>
          simp only [computeResponseParam]
          split <;> simp
    · simp only [if_neg h1]
      simp

/-- The error of `ComputeResponse`, from `computeDigest`. -/
theorem ComputeResponse_error (env : Env) (s : DigestAuthState) (uri : GoString) (cr : Userinfo)
    (e : ResponseError) (q : Params)
    (h : computeDigest env s.params (s.nonceCount + 1) uri cr = Except.error (e, q)) :
    (s.ComputeResponse env uri cr).1.2 = some e := by
  unfold DigestAuthState.ComputeResponse
  simp only [h]

/-- A parameter of the challenge that the call does not write is carried by the
Authorization value as it was stored. -/
theorem stored_piece_in_header (env : Env) (s : DigestAuthState) (uri : GoString)
    (cr : Userinfo) (hok : (s.ComputeResponse env uri cr).1.2 = none)
    (hperm : ∀ m, (env.rangeOrder m).Perm m) (k v : GoString)
    (hk : k ∉ [digestAuthParamUsername, digestAuthParamUri, digestAuthParamResponse,
      digestAuthParamNonceCount, digestAuthParamClientNonce])
    (hv : Params.get? s.params k = some v) :
    piece (k, v) <:+: (s.ComputeResponse env uri cr).1.1 := by
  obtain ⟨d, hd, hh, -⟩ := ComputeResponse_ok env s uri cr hok
  obtain ⟨e1, -, -, -, -⟩ := computeDigest_entries env _ _ _ _ d hd
  rw [hh]
  exact piece_infix_header env d.params k v (hperm _) (by rw [e1 k hk]; exact hv)

/-- C25 (case normalisation of the hashed values): two states with the same nonce count whose
values of `algorithm`, `qop`, `realm` and `nonce` are equal after lower-casing give, for the
same credentials, request URI and client nonce (the same environment), the same error or the
same `response`: on success the `response` parameter is the same in both maps and its piece
is in both Authorization values; and each Authorization value carries the four values as its
own state stored them, in their original case (`range` visiting every entry of the map). -/
theorem case_normalisation (env : Env) (s1 s2 : DigestAuthState) (uri : GoString)
    (cr : Userinfo) (hn : s1.nonceCount = s2.nonceCount)
    (hcase : ∀ k ∈ [digestAuthParamAlgorithm, digestAuthParamQop, digestAuthParamRealm,
        digestAuthParamNonce],
      toLower env (Params.get s1.params k) = toLower env (Params.get s2.params k))
    (hperm : ∀ m, (env.rangeOrder m).Perm m) :
    (s1.ComputeResponse env uri cr).1.2 = (s2.ComputeResponse env uri cr).1.2 ∧
    ((s1.ComputeResponse env uri cr).1.2 = none →
      (∃ r, Params.get? (s1.ComputeResponse env uri cr).2.params digestAuthParamResponse =
            some r ∧
          Params.get? (s2.ComputeResponse env uri cr).2.params digestAuthParamResponse =
            some r ∧
          piece (digestAuthParamResponse, r) <:+: (s1.ComputeResponse env uri cr).1.1 ∧
          piece (digestAuthParamResponse, r) <:+: (s2.ComputeResponse env uri cr).1.1) ∧
      ∀ k ∈ [digestAuthParamAlgorithm, digestAuthParamQop, digestAuthParamRealm,
          digestAuthParamNonce],
        (∀ v, Params.get? s1.params k = some v →
          piece (k, v) <:+: (s1.ComputeResponse env uri cr).1.1) ∧
        (∀ v, Params.get? s2.params k = some v →
          piece (k, v) <:+: (s2.ComputeResponse env uri cr).1.1)) := by
  obtain ⟨hok, herr⟩ := computeDigest_case env s1.params s2.params (s1.nonceCount + 1) uri cr
    (hcase _ (by simp)) (hcase _ (by simp)) (hcase _ (by simp)) (hcase _ (by simp))
  have hsame : (s1.ComputeResponse env uri cr).1.2 = (s2.ComputeResponse env uri cr).1.2 := by
    cases hd : computeDigest env s1.params (s1.nonceCount + 1) uri cr with
    | ok d1 =>
      obtain ⟨d2, hd2, -⟩ := hok d1 hd
      rw [hn] at hd2
      unfold DigestAuthState.ComputeResponse
      simp only [hd, hd2]
    | error r =>
      obtain ⟨e, q1⟩ := r
      obtain ⟨q2, hd2⟩ := herr e q1 hd
      rw [hn] at hd2
      rw [ComputeResponse_error env s1 uri cr e q1 hd, ComputeResponse_error env s2 uri cr e q2 hd2]
  refine ⟨hsame, fun h1 => ?_⟩
  have h2 : (s2.ComputeResponse env uri cr).1.2 = none := by rw [← hsame]; exact h1
  obtain ⟨d1, hd1, hh1, hp1⟩ := ComputeResponse_ok env s1 uri cr h1
  obtain ⟨d2, hd2, hh2, hp2⟩ := ComputeResponse_ok env s2 uri cr h2
  obtain ⟨d3, hd3, hr, -⟩ := hok d1 hd1
  rw [hn, hd2] at hd3
  cases hd3
  obtain ⟨-, -, -, -, r1⟩ := computeDigest_entries env _ _ _ _ d1 hd1
  obtain ⟨-, -, -, -, r2⟩ := computeDigest_entries env _ _ _ _ d2 hd2
  refine ⟨⟨d1.response, by rw [hp1]; exact r1, by rw [hp2, hr]; exact r2, ?_, ?_⟩, ?_⟩
  · rw [hh1]
    exact piece_infix_header env d1.params _ _ (hperm _) r1
  · rw [hh2, hr]
    exact piece_infix_header env d2.params _ _ (hperm _) r2
  · intro k hk
    have hnot : k ∉ [digestAuthParamUsername, digestAuthParamUri, digestAuthParamResponse,
        digestAuthParamNonceCount, digestAuthParamClientNonce] := by
      simp only [List.mem_cons, List.mem_singleton, List.not_mem_nil, or_false] at hk
      rcases hk with rfl | rfl | rfl | rfl <;> decide
    exact ⟨fun v hv => stored_piece_in_header env s1 uri cr h1 hperm k v hnot hv,
      fun v hv => stored_piece_in_header env s2 uri cr h2 hperm k v hnot hv⟩

set_option maxRecDepth 1000000 in
/-- Witness of C25: the states with `realm="Cam"`, `nonce="AbC"`, `qop="AUTH"` and with
`realm="cam"`, `nonce="abc"`, `qop="auth"` get the same `response`, and the first
Authorization value carries `realm="Cam"`. -/
theorem case_normalisation_witness :
    Params.get? (DigestAuthState.ComputeResponse fixedEnv
        { params := [("realm".data, "Cam".data), ("nonce".data, "AbC".data),
            ("qop".data, "AUTH".data)], nonceCount := 0, createdAt := 0 }
        "/x".data ⟨"u".data, "p".data, true⟩).2.params "response".data =
      some "fe88e3fc0cc2c7a29655021bf3763ccd".data ∧
    Params.get? (DigestAuthState.ComputeResponse fixedEnv
        { params := [("realm".data, "cam".data), ("nonce".data, "abc".data),
            ("qop".data, "auth".data)], nonceCount := 0, createdAt := 0 }
        "/x".data ⟨"u".data, "p".data, true⟩).2.params "response".data =
      some "fe88e3fc0cc2c7a29655021bf3763ccd".data ∧
    (DigestAuthState.ComputeResponse fixedEnv
        { params := [("realm".data, "Cam".data), ("nonce".data, "AbC".data),
            ("qop".data, "AUTH".data)], nonceCount := 0, createdAt := 0 }
        "/x".data ⟨"u".data, "p".data, true⟩).1.2 =
      (DigestAuthState.ComputeResponse fixedEnv
        { params := [("realm".data, "cam".data), ("nonce".data, "abc".data),
            ("qop".data, "auth".data)], nonceCount := 0, createdAt := 0 }
        "/x".data ⟨"u".data, "p".data, true⟩).1.2 ∧
    piece ("realm".data, "Cam".data) <:+: (DigestAuthState.ComputeResponse fixedEnv
        { params := [("realm".data, "Cam".data), ("nonce".data, "AbC".data),
            ("qop".data, "AUTH".data)], nonceCount := 0, createdAt := 0 }
        "/x".data ⟨"u".data, "p".data, true⟩).1.1 :=
  have h := case_normalisation fixedEnv
    { params := [("realm".data, "Cam".data), ("nonce".data, "AbC".data),
        ("qop".data, "AUTH".data)], nonceCount := 0, createdAt := 0 }
    { params := [("realm".data, "cam".data), ("nonce".data, "abc".data),
        ("qop".data, "auth".data)], nonceCount := 0, createdAt := 0 }
    "/x".data ⟨"u".data, "p".data, true⟩ rfl (by decide) (fun m => List.Perm.refl m)
  ⟨by decide, by decide, h.1,
    ((h.2 (by decide)).2 digestAuthParamRealm (by decide)).1 "Cam".data (by decide)⟩

end DigestAuth
